import Mathlib

/-!
Shallow embedding of `fsm.h` / `fsm.cpp`, namespace `XYH_StatusMachine`.

The C++ engine is a graph of reference-counted objects (`shared_ptr<Xyh_Event>`,
`shared_ptr<Xyh_Status>`) that point at each other.  The embedding keeps that shape:

* an object is named by a reference (a natural number); a `World` maps every
  reference to the current value of the object it names, so a non-null pointer
  always resolves, as a `shared_ptr` does;
* a nullable `shared_ptr<T>` is an `Option` of a reference, `none` being the null
  pointer;
* `std::map` and `std::multimap` are association lists kept in ascending key
  order; `std::set` is an ascending list;
* the virtual callbacks `routine` and `timerRoutine` have the empty bodies of the
  base class; every invocation is appended to `World.calls`, every line written to
  `std::cout` to `World.cout`;
* an operation returns the world it leaves behind together with an `Outcome`:
  normal return, a thrown `std::logic_error`, or the dereference of a null pointer
  (undefined behaviour in C++), so that what a failing call has already changed
  stays visible;
* `unsigned int` is 32 bits wide and `unsigned long long` 64 bits wide; arithmetic
  that can wrap is reduced explicitly.

Fields that no operation reads (`m_nick`, `m_name`, `m_owner`) and the boost
deadline timer are left out.
-/

namespace XYH_StatusMachine

/-- Reference to an `Xyh_Event` object (a non-null `shared_ptr<Xyh_Event>`). -/
abbrev EventRef := Nat

/-- Reference to an `Xyh_Status` object (a non-null `shared_ptr<Xyh_Status>`). -/
abbrev StatusRef := Nat

/-- Number of values of an `unsigned int`. -/
def UINT_MODULUS : Nat := 4294967296

/-- Number of values of an `unsigned long long`. -/
def ULL_MODULUS : Nat := 18446744073709551616

/-- Enumerator `Xyh_Event::STT_SURVIVE`. -/
def STT_SURVIVE : Nat := 0

/-- Enumerator `Xyh_Event::STT_BEMARKED`. -/
def STT_BEMARKED : Nat := 1

/-- Enumerator `Xyh_Event::STT_RECYCLE`. -/
def STT_RECYCLE : Nat := 2

/-! ## Containers -/

namespace StdMap

/-- Lookup `std::map::find` (and `operator[]` on a key that is present). -/
def find {β : Type} : List (Nat × β) → Nat → Option β
  | [], _ => none
  | (k', v) :: rest, k => if k' = k then some v else find rest k

/-- Insertion `std::map::insert`: keys stay ascending; a key that is already
present keeps its old value. -/
def insert {β : Type} : List (Nat × β) → Nat → β → List (Nat × β)
  | [], k, v => [(k, v)]
  | (k', v') :: rest, k, v =>
    if k < k' then (k, v) :: (k', v') :: rest
    else if k = k' then (k', v') :: rest
    else (k', v') :: insert rest k v

/-- Assignment `m[k] = v` on a key that is present: the value is replaced. -/
def assign {β : Type} : List (Nat × β) → Nat → β → List (Nat × β)
  | [], _, _ => []
  | (k', v') :: rest, k, v =>
    if k' = k then (k', v) :: assign rest k v else (k', v') :: assign rest k v

/-- Removal `std::map::erase(key)`. -/
def erase {β : Type} (m : List (Nat × β)) (k : Nat) : List (Nat × β) :=
  m.filter (fun p => !(p.1 == k))

/-- Representation invariant of a `std::map`: strictly ascending keys. -/
def WF {β : Type} (m : List (Nat × β)) : Prop :=
  (m.map Prod.fst).Pairwise (fun a b => a < b)

instance decidableWF {β : Type} (m : List (Nat × β)) : Decidable (WF m) :=
  inferInstanceAs (Decidable ((m.map Prod.fst).Pairwise (fun a b => a < b)))

end StdMap

namespace StdMultimap

/-- Insertion `std::multimap::insert`: the new element goes behind every element
whose key is not greater (the upper bound of its key). -/
def insert {β : Type} : List (Nat × β) → Nat → β → List (Nat × β)
  | [], k, v => [(k, v)]
  | (k', v') :: rest, k, v =>
    if k < k' then (k, v) :: (k', v') :: rest
    else (k', v') :: insert rest k v

/-- The elements `std::multimap::equal_range(key)` runs over, in order. -/
def equal_range {β : Type} (m : List (Nat × β)) (k : Nat) : List (Nat × β) :=
  m.filter (fun p => p.1 == k)

/-- Removal `std::multimap::erase(key)` of every element with that key. -/
def erase {β : Type} (m : List (Nat × β)) (k : Nat) : List (Nat × β) :=
  m.filter (fun p => !(p.1 == k))

end StdMultimap

namespace StdSet

/-- Insertion `std::set::insert`: ascending, no duplicates. -/
def insert : List Nat → Nat → List Nat
  | [], k => [k]
  | k' :: rest, k =>
    if k < k' then k :: k' :: rest
    else if k = k' then k' :: rest
    else k' :: insert rest k

/-- Membership count `std::set::count` (0 or 1). -/
def count (s : List Nat) (k : Nat) : Nat := if k ∈ s then 1 else 0

end StdSet

/-! ## Objects -/

/-- Class `Xyh_Event`: `m_curStatus` is `none` while the pointer is null;
`m_enterTime` holds the value `enterTime()` returns (the stored `long long` read
back as `unsigned long long`). -/
structure Xyh_Event where
  m_id : Nat
  m_stt : Nat
  m_enterTime : Nat
  m_curStatus : Option StatusRef
deriving DecidableEq, Repr

/-- Struct `Xyh_Status::_InStore`: one pending timeout. -/
structure InStore where
  _tabel : Nat
  _event : EventRef
deriving DecidableEq, Repr

/-- Class `Xyh_Status`. -/
structure Xyh_Status where
  m_Id : Nat
  m_fade : Bool
  m_ticktock : Nat
  m_regularEvt : List (Nat × Nat)
  m_mapTEvent : List (Nat × InStore)
  m_mapLink : List (Nat × Option StatusRef)
  m_setSelfLink : List Nat
  m_listEvent : List EventRef
deriving DecidableEq, Repr

/-- One invocation of a virtual callback of a state. -/
inductive Call where
  | routine (s : StatusRef) (e : EventRef) (lable : Nat) (msg : Nat)
  | timerRoutine (s : StatusRef) (label : Nat) (e : EventRef)
deriving DecidableEq, Repr

/-- One line written to `std::cout`. -/
inductive Printed where
  | timerBeCancel (id : Nat)
  | notFoundNextStatus (cur : Nat) (sig : Nat)
deriving DecidableEq, Repr

/-- The `std::logic_error`s the engine throws, one constructor per message. -/
inductive LogicError where
  | eventHasExpired
  | eventHasValidStatus
  | notFoundNextStatus (cur : Nat) (sig : Nat)
  | notFoundEvent (eid : Nat) (sig : Nat)
deriving DecidableEq, Repr

/-- How a call ends. -/
inductive Outcome where
  | ok
  | thrown (what : LogicError)
  | undefined
deriving DecidableEq, Repr

/-- The object graph: the value of every event and status object, the callback
invocations so far and the lines printed so far. -/
structure World where
  event : EventRef → Xyh_Event
  status : StatusRef → Xyh_Status
  calls : List Call
  cout : List Printed

/-- Store a new value for an event object. -/
def World.setEvent (w : World) (r : EventRef) (v : Xyh_Event) : World :=
  { w with event := Function.update w.event r v }

/-- Store a new value for a status object. -/
def World.setStatus (w : World) (r : StatusRef) (v : Xyh_Status) : World :=
  { w with status := Function.update w.status r v }

/-- Record one callback invocation. -/
def World.call (w : World) (c : Call) : World :=
  { w with calls := w.calls ++ [c] }

/-- Record one printed line. -/
def World.print (w : World) (p : Printed) : World :=
  { w with cout := w.cout ++ [p] }

/-! ## Xyh_Event -/

/-- Method `Xyh_Event::expire`. -/
def Xyh_Event.expire (e : Xyh_Event) : Xyh_Event := { e with m_stt := STT_BEMARKED }

/-- Method `Xyh_Event::survive`. -/
def Xyh_Event.survive (e : Xyh_Event) : Xyh_Event := { e with m_stt := STT_SURVIVE }

/-- Method `Xyh_Event::expired`. -/
def Xyh_Event.expired (e : Xyh_Event) : Bool := e.m_stt == STT_RECYCLE

/-- Method `Xyh_Event::marked`. -/
def Xyh_Event.marked (e : Xyh_Event) : Bool := e.m_stt == STT_BEMARKED

/-! ## Xyh_Status -/

/-- Constructor `Xyh_Status::Xyh_Status(id, name, fade)`. -/
def Xyh_Status.new (id : Nat) (fade : Bool) : Xyh_Status :=
  { m_Id := id, m_fade := fade, m_ticktock := 0, m_regularEvt := [], m_mapTEvent := [],
    m_mapLink := [], m_setSelfLink := [], m_listEvent := [] }

/-- Method `Xyh_Status::route`; `self` is `shared_from_this()`. -/
def Xyh_Status.route (st : Xyh_Status) (self : StatusRef) (signal : Nat) : Option StatusRef :=
  if 1 = StdSet.count st.m_setSelfLink signal then some self
  else
    match StdMap.find st.m_mapLink signal with
    | some target => target
    | none => none

/-- Method `Xyh_Status::addLink(signal, status)`. -/
def Xyh_Status.addLink (st : Xyh_Status) (signal : Nat) (status : Option StatusRef) : Xyh_Status :=
  { st with m_mapLink := StdMap.insert st.m_mapLink signal status }

/-- Method `Xyh_Status::addLink(signal)`, the self-loop overload. -/
def Xyh_Status.addLinkSelf (st : Xyh_Status) (signal : Nat) : Xyh_Status :=
  { st with m_setSelfLink := StdSet.insert st.m_setSelfLink signal }

/-- Method `Xyh_Status::regular`. -/
def Xyh_Status.regular (st : Xyh_Status) (tabel : Nat) (period : Nat) : Xyh_Status :=
  { st with m_regularEvt := st.m_regularEvt ++ [(tabel, period)] }

/-- Key under which `addEvent` files a timeout: `m_ticktock + period` in
`unsigned long long`, narrowed to the `unsigned int` key of the multimap. -/
def timerKey (ticktock : Nat) (period : Nat) : Nat :=
  ((ticktock + period) % ULL_MODULUS) % UINT_MODULUS

/-- Method `Xyh_Status::addEvent`. -/
def Xyh_Status.addEvent (st : Xyh_Status) (s : EventRef) : Xyh_Status :=
  { st with
    m_listEvent := st.m_listEvent ++ [s]
    m_mapTEvent := st.m_regularEvt.foldl
      (fun m v => StdMultimap.insert m (timerKey st.m_ticktock v.2) (InStore.mk v.1 s))
      st.m_mapTEvent }

/-- Method `Xyh_Status::removeEvent`: `remove_if` with `compare`, which matches on
the id of the listed event. -/
def Xyh_Status.removeEvent (w : World) (self : StatusRef) (s : EventRef) : World :=
  w.setStatus self
    { w.status self with
      m_listEvent := (w.status self).m_listEvent.filter
        (fun e => !((w.event e).m_id == (w.event s).m_id)) }

/-- The loop of `Xyh_Status::ticktock` over the due entries. -/
def Xyh_Status.fire (self : StatusRef) : World → List (Nat × InStore) → World × Outcome
  | w, [] => (w, Outcome.ok)
  | w, (_, it) :: rest =>
    if !(w.event it._event).expired then
      match (w.event it._event).m_curStatus with
      | none => (w, Outcome.undefined)
      | some cur =>
        if (w.status cur).m_Id = (w.status self).m_Id then
          Xyh_Status.fire self (w.call (Call.timerRoutine self it._tabel it._event)) rest
        else Xyh_Status.fire self w rest
    else Xyh_Status.fire self w rest

/-- Method `Xyh_Status::ticktock`; `e` is true when the error code is set. -/
def Xyh_Status.ticktock (w : World) (self : StatusRef) (ticktock : Nat) (e : Bool) :
    World × Outcome :=
  if e then (w.print (Printed.timerBeCancel (w.status self).m_Id), Outcome.ok)
  else
    let w1 := w.setStatus self { w.status self with m_ticktock := ticktock }
    let key := (w1.status self).m_ticktock % UINT_MODULUS
    match Xyh_Status.fire self w1 (StdMultimap.equal_range (w1.status self).m_mapTEvent key) with
    | (w2, Outcome.ok) =>
      (w2.setStatus self
        { w2.status self with
          m_mapTEvent := StdMultimap.erase (w2.status self).m_mapTEvent key }, Outcome.ok)
    | (w2, bad) => (w2, bad)

/-! ## Xyh_Event: placement and movement -/

/-- Lines 40-51 of `place` and, word for word, lines 76-89 of `move`: set the
current status, take the enter time, recycle or attach, run the entry callback. -/
def Xyh_Event.enter (w : World) (self : EventRef) (s : Option StatusRef)
    (signal : Nat) (msg : Nat) : World × Outcome :=
  let w1 := w.setEvent self { w.event self with m_curStatus := s }
  match s with
  | none => (w1, Outcome.undefined)
  | some sr =>
    let w2 := w1.setEvent self { w1.event self with m_enterTime := (w1.status sr).m_ticktock }
    let w3 :=
      if (w2.event self).marked && (w2.status sr).m_fade then
        w2.setEvent self { w2.event self with m_stt := STT_RECYCLE }
      else w2.setStatus sr ((w2.status sr).addEvent self)
    (w3.call (Call.routine sr self signal msg), Outcome.ok)

/-- Method `Xyh_Event::place`. -/
def Xyh_Event.place (w : World) (self : EventRef) (s : Option StatusRef)
    (signal : Nat) (msg : Nat) : World × Outcome :=
  if (w.event self).expired then (w, Outcome.thrown LogicError.eventHasExpired)
  else if (w.event self).m_curStatus.isSome then
    (w, Outcome.thrown LogicError.eventHasValidStatus)
  else Xyh_Event.enter w self s signal msg

/-- Method `Xyh_Event::move`. -/
def Xyh_Event.move (w : World) (self : EventRef) (s : Option StatusRef)
    (signal : Nat) (msg : Nat) : World × Outcome :=
  if (w.event self).expired then (w, Outcome.ok)
  else
    let w1 :=
      match (w.event self).m_curStatus with
      | some cur => Xyh_Status.removeEvent w cur self
      | none => w
    Xyh_Event.enter w1 self s signal msg

/-! ## Xyh_Jsm -/

/-- Class `Xyh_Jsm`: the two registries and the tick counter. -/
structure Xyh_Jsm where
  m_mapStatus : List (Nat × StatusRef)
  m_mapEvent : List (Nat × EventRef)
  m_ticktock : Nat
deriving DecidableEq, Repr

/-- Constructor `Xyh_Jsm::Xyh_Jsm`. -/
def Xyh_Jsm.new : Xyh_Jsm := { m_mapStatus := [], m_mapEvent := [], m_ticktock := 0 }

/-- Method `Xyh_Jsm::findEvent`. -/
def Xyh_Jsm.findEvent (j : Xyh_Jsm) (id : Nat) : Option EventRef :=
  StdMap.find j.m_mapEvent id

/-- Method `Xyh_Jsm::findStatus`. -/
def Xyh_Jsm.findStatus (j : Xyh_Jsm) (id : Nat) : Option StatusRef :=
  StdMap.find j.m_mapStatus id

/-- Method `Xyh_Jsm::addStatus`. -/
def Xyh_Jsm.addStatus (j : Xyh_Jsm) (w : World) (s : Option StatusRef) : Xyh_Jsm × Outcome :=
  match s with
  | none => (j, Outcome.undefined)
  | some sr =>
    ({ j with m_mapStatus := StdMap.insert j.m_mapStatus (w.status sr).m_Id sr }, Outcome.ok)

/-- Method `Xyh_Jsm::addEvent`. -/
def Xyh_Jsm.addEvent (j : Xyh_Jsm) (w : World) (e : Option EventRef) : Xyh_Jsm × Outcome :=
  match e with
  | none => (j, Outcome.undefined)
  | some er =>
    if (StdMap.find j.m_mapEvent (w.event er).m_id).isNone then
      ({ j with m_mapEvent := StdMap.insert j.m_mapEvent (w.event er).m_id er }, Outcome.ok)
    else
      ({ j with m_mapEvent := StdMap.assign j.m_mapEvent (w.event er).m_id er }, Outcome.ok)

/-- Method `Xyh_Jsm::expireEvent`. -/
def Xyh_Jsm.expireEvent (j : Xyh_Jsm) (w : World) (id : Nat) : World :=
  match StdMap.find j.m_mapEvent id with
  | some er => w.setEvent er (w.event er).expire
  | none => w

/-- Method `Xyh_Jsm::relEvent`. -/
def Xyh_Jsm.relEvent (j : Xyh_Jsm) (w : World) (id : Nat) : Xyh_Jsm × World :=
  let w1 :=
    match StdMap.find j.m_mapEvent id with
    | some er => w.setEvent er (w.event er).expire
    | none => w
  ({ j with m_mapEvent := StdMap.erase j.m_mapEvent id }, w1)

/-- Method `Xyh_Jsm::digestion`. -/
def Xyh_Jsm.digestion (j : Xyh_Jsm) (w : World) (eid : Nat) (sig : Nat) (msg : Nat) :
    World × Outcome :=
  match j.findEvent eid with
  | some event =>
    if (w.event event).expired then (w, Outcome.ok)
    else
      match (w.event event).m_curStatus with
      | none => (w, Outcome.undefined)
      | some cS =>
        match (w.status cS).route cS sig with
        | some nS =>
          if (w.status cS).m_Id = (w.status nS).m_Id then
            (w.call (Call.routine cS event sig msg), Outcome.ok)
          else Xyh_Event.move w event (some nS) sig msg
        | none => (w, Outcome.thrown (LogicError.notFoundNextStatus (w.status cS).m_Id sig))
  | none => (w, Outcome.thrown (LogicError.notFoundEvent eid sig))

/-- Method `Xyh_Jsm::process(eid, sig, msg)`. -/
def Xyh_Jsm.process (j : Xyh_Jsm) (w : World) (eid : Nat) (sig : Nat) (msg : Nat) :
    World × Outcome :=
  match j.findEvent eid with
  | some event =>
    if (w.event event).expired then (w, Outcome.ok)
    else
      match (w.event event).m_curStatus with
      | none => (w, Outcome.undefined)
      | some cS =>
        match (w.status cS).route cS sig with
        | some nS => Xyh_Event.move w event (some nS) sig msg
        | none => (w, Outcome.thrown (LogicError.notFoundNextStatus (w.status cS).m_Id sig))
  | none => (w, Outcome.thrown (LogicError.notFoundEvent eid sig))

/-- The loop of `Xyh_Jsm::process(sig, msg)` over the event registry. -/
def Xyh_Jsm.processLoop (sig : Nat) (msg : Nat) : World → List (Nat × EventRef) → World × Outcome
  | w, [] => (w, Outcome.ok)
  | w, (_, event) :: rest =>
    if (w.event event).expired then Xyh_Jsm.processLoop sig msg w rest
    else
      match (w.event event).m_curStatus with
      | none => (w, Outcome.undefined)
      | some cS =>
        match (w.status cS).route cS sig with
        | some nS =>
          match Xyh_Event.move w event (some nS) sig msg with
          | (w1, Outcome.ok) => Xyh_Jsm.processLoop sig msg w1 rest
          | (w1, bad) => (w1, bad)
        | none =>
          Xyh_Jsm.processLoop sig msg
            (w.print (Printed.notFoundNextStatus (w.status cS).m_Id sig)) rest

/-- Method `Xyh_Jsm::process(sig, msg)`, the overload that signals every event. -/
def Xyh_Jsm.processAll (j : Xyh_Jsm) (w : World) (sig : Nat) (msg : Nat) : World × Outcome :=
  Xyh_Jsm.processLoop sig msg w j.m_mapEvent

/-- The loop of `Xyh_Jsm::ticktock` over the status registry. -/
def Xyh_Jsm.tickLoop (ticktock : Nat) : World → List (Nat × StatusRef) → World × Outcome
  | w, [] => (w, Outcome.ok)
  | w, (_, s) :: rest =>
    match Xyh_Status.ticktock w s ticktock false with
    | (w1, Outcome.ok) => Xyh_Jsm.tickLoop ticktock w1 rest
    | (w1, bad) => (w1, bad)

/-- Method `Xyh_Jsm::ticktock`; `e` is true when the timer was cancelled.  The
re-arming of the deadline timer is outside the embedding. -/
def Xyh_Jsm.ticktock (j : Xyh_Jsm) (w : World) (e : Bool) : Xyh_Jsm × World × Outcome :=
  if e then (j, w, Outcome.ok)
  else
    match Xyh_Jsm.tickLoop j.m_ticktock w j.m_mapStatus with
    | (w1, Outcome.ok) =>
      ({ j with m_ticktock := (j.m_ticktock + 1) % ULL_MODULUS }, w1, Outcome.ok)
    | (w1, bad) => (j, w1, bad)

/-- The firings of the timer: `Xyh_Jsm::ticktock` run `n` times in a row, stopping at
the first run that does not return normally. -/
def Xyh_Jsm.ticks : Nat → Xyh_Jsm → World → Xyh_Jsm × World × Outcome
  | 0, j, w => (j, w, Outcome.ok)
  | n + 1, j, w =>
    match Xyh_Jsm.ticktock j w false with
    | (j1, w1, Outcome.ok) => Xyh_Jsm.ticks n j1 w1
    | (j1, w1, bad) => (j1, w1, bad)

/-! ## The error taxonomy of the specification

The source throws `std::logic_error` throughout; the specification names three
kinds of error, told apart here by the throw site. -/

/-- IllegalPlacementError: one of the two errors thrown by `place`. -/
def Outcome.isIllegalPlacement : Outcome → Bool
  | Outcome.thrown LogicError.eventHasExpired => true
  | Outcome.thrown LogicError.eventHasValidStatus => true
  | _ => false

/-- UnknownEventError: the error thrown when `findEvent` gives a null pointer. -/
def Outcome.isUnknownEvent : Outcome → Bool
  | Outcome.thrown (LogicError.notFoundEvent _ _) => true
  | _ => false

/-- UnroutableSignalError: the error thrown when `route` gives a null pointer. -/
def Outcome.isUnroutableSignal : Outcome → Bool
  | Outcome.thrown (LogicError.notFoundNextStatus _ _) => true
  | _ => false

/-- Any thrown error. -/
def Outcome.isThrown : Outcome → Bool
  | Outcome.thrown _ => true
  | _ => false

/-! ## Configuration of a status -/

/-- One configuration call on a status. -/
inductive Setup where
  | addLink (signal : Nat) (status : Option StatusRef)
  | addLinkSelf (signal : Nat)
  | regular (tabel : Nat) (period : Nat)
deriving DecidableEq, Repr

/-- Run one configuration call. -/
def Xyh_Status.setup (st : Xyh_Status) : Setup → Xyh_Status
  | Setup.addLink signal status => st.addLink signal status
  | Setup.addLinkSelf signal => st.addLinkSelf signal
  | Setup.regular tabel period => st.regular tabel period

/-- Run a sequence of configuration calls, first to last. -/
def Xyh_Status.setupAll (st : Xyh_Status) (calls : List Setup) : Xyh_Status :=
  calls.foldl Xyh_Status.setup st

/-! ## What one tick does to one status -/

/-- The guard of the loop of `Xyh_Status::ticktock`: the event of the entry is not
recycled and the id of its current status is the id of this status. -/
def Xyh_Status.fires (w : World) (self : StatusRef) (it : InStore) : Bool :=
  !(w.event it._event).expired &&
    (match (w.event it._event).m_curStatus with
     | some cur => decide ((w.status cur).m_Id = (w.status self).m_Id)
     | none => false)

/-- The `timerRoutine` invocations that the entries of a list give rise to. -/
def Xyh_Status.due (w : World) (self : StatusRef) (l : List (Nat × InStore)) : List Call :=
  (l.filter (fun p => Xyh_Status.fires w self p.2)).map
    (fun p => Call.timerRoutine self p.2._tabel p.2._event)

/-- The keys under which a bucket holds an entry for `(label, e)`. -/
def pending (b : List (Nat × InStore)) (label : Nat) (e : EventRef) : List Nat :=
  (b.filter (fun p => decide (p.2 = InStore.mk label e))).map Prod.fst

/-- No entry of the bucket of a registered status names an event without a
current status: the loop of `Xyh_Status::ticktock` never dereferences a null
pointer. -/
def Xyh_Jsm.bucketsPlaced (j : Xyh_Jsm) (w : World) : Prop :=
  ∀ q ∈ j.m_mapStatus, ∀ p ∈ (w.status q.2).m_mapTEvent,
    (w.event p.2._event).m_curStatus ≠ none

/-- Key `k` is the bucket key of one of the `n` ticks `T0`, `T0 + 1`, ... -/
def dueWithin (T0 : Nat) (n : Nat) (k : Nat) : Bool :=
  (List.range n).any (fun i => (T0 + i) % UINT_MODULUS == k)

instance Xyh_Jsm.decidableBucketsPlaced (j : Xyh_Jsm) (w : World) :
    Decidable (j.bucketsPlaced w) :=
  inferInstanceAs (Decidable (∀ q ∈ j.m_mapStatus, ∀ p ∈ (w.status q.2).m_mapTEvent,
    (w.event p.2._event).m_curStatus ≠ none))

/-! ## The broadcast of the specification -/

/-- The specification's broadcast, for one registry entry: the event is driven
(`process(eid, sig, msg)`); a signal without a route is reported on `std::cout`
and the world is otherwise left as it was. -/
def broadcastStep (j : Xyh_Jsm) (sig : Nat) (msg : Nat) (w : World) (entry : Nat × EventRef) :
    World :=
  match j.process w entry.1 sig msg with
  | (_, Outcome.thrown (LogicError.notFoundNextStatus cur s)) =>
    w.print (Printed.notFoundNextStatus cur s)
  | (w1, _) => w1

/-- The specification's broadcast: every registry entry in turn. -/
def broadcastSpec (j : Xyh_Jsm) (w : World) (sig : Nat) (msg : Nat) : World :=
  j.m_mapEvent.foldl (broadcastStep j sig msg) w

/-! ## Runs of the machine -/

/-- A machine together with the objects it works on. -/
structure Machine where
  jsm : Xyh_Jsm
  world : World

/-- One call of the public interface: registration, configuration of a status,
placement, the three ways of signalling, the tick, and the lifecycle setters. -/
inductive Op where
  | addStatus (s : Option StatusRef)
  | addEvent (e : Option EventRef)
  | setup (s : StatusRef) (c : Setup)
  | place (e : EventRef) (s : Option StatusRef) (signal : Nat) (msg : Nat)
  | digestion (eid : Nat) (sig : Nat) (msg : Nat)
  | process (eid : Nat) (sig : Nat) (msg : Nat)
  | processAll (sig : Nat) (msg : Nat)
  | ticktock (e : Bool)
  | expire (e : EventRef)
  | survive (e : EventRef)
  | expireEvent (id : Nat)
  | relEvent (id : Nat)
deriving DecidableEq, Repr

/-- Carry out one call. -/
def Machine.run (m : Machine) : Op → Machine × Outcome
  | Op.addStatus s =>
    ({ m with jsm := (m.jsm.addStatus m.world s).1 }, (m.jsm.addStatus m.world s).2)
  | Op.addEvent e =>
    ({ m with jsm := (m.jsm.addEvent m.world e).1 }, (m.jsm.addEvent m.world e).2)
  | Op.setup s c =>
    ({ m with world := m.world.setStatus s ((m.world.status s).setup c) }, Outcome.ok)
  | Op.place e s signal msg =>
    ({ m with world := (Xyh_Event.place m.world e s signal msg).1 },
      (Xyh_Event.place m.world e s signal msg).2)
  | Op.digestion eid sig msg =>
    ({ m with world := (m.jsm.digestion m.world eid sig msg).1 },
      (m.jsm.digestion m.world eid sig msg).2)
  | Op.process eid sig msg =>
    ({ m with world := (m.jsm.process m.world eid sig msg).1 },
      (m.jsm.process m.world eid sig msg).2)
  | Op.processAll sig msg =>
    ({ m with world := (m.jsm.processAll m.world sig msg).1 },
      (m.jsm.processAll m.world sig msg).2)
  | Op.ticktock e =>
    ({ jsm := (m.jsm.ticktock m.world e).1, world := (m.jsm.ticktock m.world e).2.1 },
      (m.jsm.ticktock m.world e).2.2)
  | Op.expire e =>
    ({ m with world := m.world.setEvent e (m.world.event e).expire }, Outcome.ok)
  | Op.survive e =>
    ({ m with world := m.world.setEvent e (m.world.event e).survive }, Outcome.ok)
  | Op.expireEvent id =>
    ({ m with world := m.jsm.expireEvent m.world id }, Outcome.ok)
  | Op.relEvent id =>
    ({ jsm := (m.jsm.relEvent m.world id).1, world := (m.jsm.relEvent m.world id).2 },
      Outcome.ok)

/-- The call is a lifecycle setter (`expire`, `survive`, `expireEvent`, `relEvent`)
applied to an event that is recycled. -/
def Op.revives (m : Machine) : Op → Bool
  | Op.expire e => (m.world.event e).expired
  | Op.survive e => (m.world.event e).expired
  | Op.expireEvent id =>
    match m.jsm.findEvent id with
    | some e => (m.world.event e).expired
    | none => false
  | Op.relEvent id =>
    match m.jsm.findEvent id with
    | some e => (m.world.event e).expired
    | none => false
  | _ => false

/-- Carry out the calls in turn. The run is abandoned (`none`) at a call that
dereferences a null pointer and, when `gentle` is set, at a lifecycle setter
applied to a recycled event. -/
def Machine.runAll (gentle : Bool) : Machine → List Op → Option Machine
  | m, [] => some m
  | m, op :: rest =>
    if (gentle && op.revives m) || (m.run op).2 == Outcome.undefined then none
    else Machine.runAll gentle (m.run op).1 rest

/-- An empty machine over fresh objects: nothing is registered, no event has a
current status, every resident list and every bucket is empty, and no two event
objects carry the same id. Ids, fade flags, links and scheduled timeouts of the
statuses are arbitrary. -/
def Machine.Initial (m : Machine) : Prop :=
  m.jsm = Xyh_Jsm.new ∧
  (∀ e : EventRef, (m.world.event e).m_curStatus = none) ∧
  (∀ s : StatusRef, (m.world.status s).m_listEvent = [] ∧ (m.world.status s).m_mapTEvent = []) ∧
  (∀ e1 e2 : EventRef, (m.world.event e1).m_id = (m.world.event e2).m_id → e1 = e2)

/-- The call carries event `E` into a status: a `place` of `E` that is not refused,
a `digestion` of `E` whose signal is routed to a status with another id, a `process`
of `E` whose signal has a route, or a broadcast whose signal has a route from the
current status of `E` while `E` is in the registry. A recycled event is carried
nowhere. -/
def Op.enters (m : Machine) (E : EventRef) : Op → Bool
  | Op.place e _ _ _ =>
    e == E && !(m.world.event E).expired && !(m.world.event E).m_curStatus.isSome
  | Op.digestion eid sig _ =>
    m.jsm.findEvent eid == some E && !(m.world.event E).expired &&
      (match (m.world.event E).m_curStatus with
       | some cS =>
         match (m.world.status cS).route cS sig with
         | some nS => !decide ((m.world.status cS).m_Id = (m.world.status nS).m_Id)
         | none => false
       | none => false)
  | Op.process eid sig _ =>
    m.jsm.findEvent eid == some E && !(m.world.event E).expired &&
      (match (m.world.event E).m_curStatus with
       | some cS => ((m.world.status cS).route cS sig).isSome
       | none => false)
  | Op.processAll sig _ =>
    m.jsm.m_mapEvent.any (fun p => p.2 == E) && !(m.world.event E).expired &&
      (match (m.world.event E).m_curStatus with
       | some cS => ((m.world.status cS).route cS sig).isSome
       | none => false)
  | _ => false

/-- No call of the run carries event `E` into a status: `E` neither leaves the
status it is in nor enters it again. -/
def Machine.stays (E : EventRef) : Machine → List Op → Bool
  | _, [] => true
  | m, op :: rest => !(op.enters m E) && Machine.stays E (m.run op).1 rest

/-- Seen from event `E` that lives in status `A`, world `w'` is world `w`: the
current status, the enter time and the recycled flag of `E`, the snapshot of `A`,
the pending keys of `(label, E)` in the bucket of `A` and the number of
`timerRoutine(label, E)` calls of `A` are the same. -/
def World.SameStay (w w' : World) (E : EventRef) (A : StatusRef) (label : Nat) : Prop :=
  (w'.event E).m_curStatus = (w.event E).m_curStatus ∧
  (w'.event E).m_enterTime = (w.event E).m_enterTime ∧
  (w'.event E).expired = (w.event E).expired ∧
  (w'.status A).m_ticktock = (w.status A).m_ticktock ∧
  pending (w'.status A).m_mapTEvent label E = pending (w.status A).m_mapTEvent label E ∧
  w'.calls.count (Call.timerRoutine A label E) = w.calls.count (Call.timerRoutine A label E)

/-- Resident lists agree with the events: event ids are unique, an event that is
listed in a status has that status as its current status and is not recycled, and
no list names an event twice. -/
def World.Resident (w : World) : Prop :=
  (∀ e1 e2 : EventRef, (w.event e1).m_id = (w.event e2).m_id → e1 = e2) ∧
  (∀ (s : StatusRef) (e : EventRef), e ∈ (w.status s).m_listEvent →
    (w.event e).m_curStatus = some s ∧ (w.event e).expired = false) ∧
  (∀ s : StatusRef, (w.status s).m_listEvent.Nodup)

/-- Every event that is not recycled and has a current status is listed there. -/
def World.Attached (w : World) : Prop :=
  ∀ (e : EventRef) (s : StatusRef), (w.event e).expired = false →
    (w.event e).m_curStatus = some s → e ∈ (w.status s).m_listEvent

/-- Every event that an entry of any bucket names has a current status. -/
def World.BucketsPlaced (w : World) : Prop :=
  ∀ (s : StatusRef), ∀ p ∈ (w.status s).m_mapTEvent, (w.event p.2._event).m_curStatus ≠ none

/-! ## Concrete scenarios -/

/-- A world of freshly constructed objects: event `r` has id `r`; status `r` has id
`r`, is not a fade status and has no links and no timeouts. -/
def World.fresh : World :=
  { event := fun r =>
      { m_id := r, m_stt := STT_SURVIVE, m_enterTime := 0, m_curStatus := none }
    status := fun r => Xyh_Status.new r false
    calls := []
    cout := [] }

/-- Scenario of section 8: status 0 links signal 1 to status 1, which is a fade
status. -/
def fadeWorld0 : World :=
  (World.fresh.setStatus 0 ((Xyh_Status.new 0 false).addLink 1 (some 1))).setStatus 1
    (Xyh_Status.new 1 true)

/-- The machine of the fade scenario: both statuses and event 5 registered. -/
def fadeJsm : Xyh_Jsm :=
  (((Xyh_Jsm.new.addStatus fadeWorld0 (some 0)).1.addStatus fadeWorld0 (some 1)).1.addEvent
    fadeWorld0 (some 5)).1

/-- The fade scenario after event 5 was placed in status 0 and marked. -/
def fadeWorld : World :=
  fadeJsm.expireEvent (Xyh_Event.place fadeWorld0 5 (some 0) 0 0).1 5

/-- Status 0 with a self-loop on signal 1, a link of signal 2 to a second object
that carries the same id 0, and event 5 placed in it. -/
def loopWorld : World :=
  (Xyh_Event.place
    ((World.fresh.setStatus 0
      (((Xyh_Status.new 0 false).addLinkSelf 1).addLink 2 (some 3))).setStatus 3
      (Xyh_Status.new 0 false)) 5 (some 0) 0 0).1

/-- The machine of the self-loop scenario. -/
def loopJsm : Xyh_Jsm :=
  ((Xyh_Jsm.new.addStatus loopWorld (some 0)).1.addEvent loopWorld (some 5)).1

/-- Broadcast scenario of section 8: status 0 links signal 99 to status 1, status 1
has no route for 99, status 2 has a self-loop on 99; event 5 is placed in status
0, event 6 in status 1, event 7 in status 2. -/
def castWorld : World :=
  (Xyh_Event.place
    (Xyh_Event.place
      (Xyh_Event.place
        ((World.fresh.setStatus 0 ((Xyh_Status.new 0 false).addLink 99 (some 1))).setStatus 2
          ((Xyh_Status.new 2 false).addLinkSelf 99))
        5 (some 0) 0 0).1
      6 (some 1) 0 0).1
    7 (some 2) 0 0).1

/-- The machine of the broadcast scenario: events 5, 6 and 7 registered. -/
def castJsm : Xyh_Jsm :=
  (((Xyh_Jsm.new.addEvent castWorld (some 7)).1.addEvent castWorld (some 5)).1.addEvent
    castWorld (some 6)).1

/-- Timeout scenario of section 8: status 0 has the scheduled timeout (7, 3) and is
registered; no tick has run yet. -/
def timerWorld0 : World :=
  World.fresh.setStatus 0 ((Xyh_Status.new 0 false).regular 7 3)

/-- The machine of the timeout scenario before the first tick. -/
def timerJsm0 : Xyh_Jsm := (Xyh_Jsm.new.addStatus timerWorld0 (some 0)).1

/-- The machine of the timeout scenario after the ticks 0 to 10. -/
def timerJsm : Xyh_Jsm := (timerJsm0.ticks 11 timerWorld0).1

/-- The world of the timeout scenario after the ticks 0 to 10: the snapshot of
status 0 is 10. -/
def timerWorld : World := (timerJsm0.ticks 11 timerWorld0).2.1

/-- A fade status 0 with the scheduled timeout (7, 3); event 5 is marked and then
placed in it. -/
def fadeTimerWorld : World :=
  (Xyh_Event.place
    ((World.fresh.setStatus 0 ((Xyh_Status.new 0 true).regular 7 3)).setEvent 5
      (World.fresh.event 5).expire) 5 (some 0) 0 0).1

/-- Status 0 with two scheduled timeouts of the same label, (7, 1) and (7, 3);
event 5 is placed in it. -/
def twinTimerWorld : World :=
  (Xyh_Event.place
    (World.fresh.setStatus 0 (((Xyh_Status.new 0 false).regular 7 1).regular 7 3))
    5 (some 0) 0 0).1

/-- Re-entry scenario: status 0 has a self-loop on signal 1 and the scheduled timeout
(7, 3); status 0 and event 5 are registered; no tick has run yet. -/
def rearmWorld0 : World :=
  World.fresh.setStatus 0 (((Xyh_Status.new 0 false).addLinkSelf 1).regular 7 3)

/-- The machine of the re-entry scenario before the first tick. -/
def rearmJsm0 : Xyh_Jsm :=
  ((Xyh_Jsm.new.addStatus rearmWorld0 (some 0)).1.addEvent rearmWorld0 (some 5)).1

/-- The re-entry scenario after the ticks 0 to 10, the placement of event 5 in
status 0 (enter time 10) and tick 11. -/
def rearmPlaced : Xyh_Jsm × World × Outcome :=
  (rearmJsm0.ticks 11 rearmWorld0).1.ticks 1
    (Xyh_Event.place (rearmJsm0.ticks 11 rearmWorld0).2.1 5 (some 0) 0 0).1

/-- The re-entry scenario after `process(5, 1, 0)` has then moved event 5 from
status 0 into status 0 (enter time 11). -/
def rearmDriven : World :=
  (rearmPlaced.1.process rearmPlaced.2.1 5 1 0).1

/-- The timeout scenario after event 5 entered status 0 at tick 10 and the ticks 11
and 12 ran: the entry (7, event 5) is filed under key 13. -/
def timerDueWorld : World :=
  (timerJsm.ticks 2 (Xyh_Event.place timerWorld 5 (some 0) 0 0).1).2.1

/-- Zero-delay scenario: status 0 has the scheduled timeout (7, 0) and is
registered; the ticks 0 to 10 have run, so its snapshot is 10. -/
def zeroTicked : Xyh_Jsm × World × Outcome :=
  (Xyh_Jsm.new.addStatus
      (World.fresh.setStatus 0 ((Xyh_Status.new 0 false).regular 7 0)) (some 0)).1.ticks 11
    (World.fresh.setStatus 0 ((Xyh_Status.new 0 false).regular 7 0))

/-- The empty machine over the objects of the fade scenario. -/
def reviveStart : Machine := { jsm := Xyh_Jsm.new, world := fadeWorld0 }

/-- A run of the fade scenario: both statuses and event 5 are registered, event 5 is
placed in status 0, marked, digested into the fade status 1 (where it is recycled)
and finally set surviving again. -/
def reviveOps : List Op :=
  [Op.addStatus (some 0), Op.addStatus (some 1), Op.addEvent (some 5),
   Op.place 5 (some 0) 0 0, Op.expireEvent 5, Op.digestion 5 1 9, Op.survive 5]

/-- The machine after the run `reviveOps`. -/
def revivedMachine : Machine :=
  (Machine.runAll false reviveStart reviveOps).getD reviveStart

/-- The machine after the first six calls of `reviveOps`, a run without a setter
on a recycled event: event 5 is recycled. -/
def recycledMachine : Machine :=
  (Machine.runAll true reviveStart (reviveOps.take 6)).getD reviveStart

/-- The empty machine over the objects of the timeout scenario. -/
def timedStart : Machine := { jsm := Xyh_Jsm.new, world := timerWorld0 }

/-- A run of the timeout scenario: status 0 and event 5 are registered, tick 0
runs, event 5 is placed in status 0, marked through the machine, signalled by a
broadcast for which status 0 has no route, released, and tick 1 runs. -/
def timedOps : List Op :=
  [Op.addStatus (some 0), Op.addEvent (some 5), Op.ticktock false, Op.place 5 (some 0) 0 0,
   Op.expireEvent 5, Op.processAll 1 0, Op.relEvent 5, Op.ticktock false]

/-- The machine after the run `timedOps`. -/
def timedMachine : Machine :=
  (Machine.runAll false timedStart timedOps).getD timedStart

/-- The machine of the re-entry scenario after the ticks 0 to 10: status 0 (self-loop
on signal 1, scheduled timeout (7, 3)) and event 5 are registered, the counter is
11. -/
def stayJsm : Xyh_Jsm := (rearmJsm0.ticks 11 rearmWorld0).1

/-- The world of the re-entry scenario after the ticks 0 to 10: the snapshot of
status 0 is 10. -/
def stayWorld0 : World := (rearmJsm0.ticks 11 rearmWorld0).2.1

/-- Event 5 has been placed in status 0 at snapshot 10. -/
def stayWorld : World := (Xyh_Event.place stayWorld0 5 (some 0) 0 0).1

/-- Calls that leave event 5 in status 0: tick 11, the placement of event 6 in status
0, a `digestion` of event 5 that is routed to status 0 itself, the marking of event
5, tick 12, a broadcast for which status 0 has no route, a cancelled tick. -/
def stayOps : List Op :=
  [Op.ticktock false, Op.place 6 (some 0) 0 0, Op.digestion 5 1 0, Op.expireEvent 5,
   Op.ticktock false, Op.processAll 2 0, Op.ticktock true]

/-- The machine after event 5 was placed and the first `n` calls of `stayOps` ran. -/
def stayMachine (n : Nat) : Machine :=
  (Machine.runAll false { jsm := stayJsm, world := stayWorld } (stayOps.take n)).getD
    { jsm := stayJsm, world := stayWorld }

/-- The machine after all of `stayOps`, tick 13, the unmarking of event 5 and tick
14. -/
def stayLast : Machine :=
  (Machine.runAll false ((stayMachine 7).run (Op.ticktock false)).1
    [Op.survive 5, Op.ticktock false]).getD (stayMachine 7)

/-- The timeout scenario on a machine that has not ticked yet: event 5 is placed in
the registered status 0 and the ticks 0, 1 and 2 run. -/
def freshMachine : Machine :=
  (Machine.runAll false
    { jsm := timerJsm0, world := (Xyh_Event.place timerWorld0 5 (some 0) 0 0).1 }
    [Op.ticktock false, Op.ticktock false, Op.ticktock false]).getD
    { jsm := timerJsm0, world := (Xyh_Event.place timerWorld0 5 (some 0) 0 0).1 }

/-- The timeout scenario with a late registration: event 5 is placed in status 0
while nothing is registered, tick 0 runs, status 0 is registered, and the ticks 1
and 2 run. -/
def lateMachine : Machine :=
  (Machine.runAll false
    { jsm := Xyh_Jsm.new, world := (Xyh_Event.place timerWorld0 5 (some 0) 0 0).1 }
    [Op.ticktock false, Op.addStatus (some 0), Op.ticktock false, Op.ticktock false]).getD
    { jsm := Xyh_Jsm.new, world := (Xyh_Event.place timerWorld0 5 (some 0) 0 0).1 }

/-! ## Basic facts -/

theorem marked_not_expired (e : Xyh_Event) (h : e.marked = true) : e.expired = false := by
  simp [Xyh_Event.marked, Xyh_Event.expired, STT_BEMARKED, STT_RECYCLE] at *
  omega

theorem enter_outcome (w : World) (self : EventRef) (s : Option StatusRef) (signal msg : Nat) :
    (Xyh_Event.enter w self s signal msg).2 =
      (match s with | none => Outcome.undefined | some _ => Outcome.ok) := by
  cases s <;> simp [Xyh_Event.enter]

theorem enter_curStatus (w : World) (self : EventRef) (s : Option StatusRef) (signal msg : Nat) :
    ((Xyh_Event.enter w self s signal msg).1.event self).m_curStatus = s := by
  cases s with
  | none => simp [Xyh_Event.enter, World.setEvent]
  | some sr =>
    simp only [Xyh_Event.enter]
    split <;> simp [World.setEvent, World.setStatus, World.call]

theorem move_outcome (w : World) (self : EventRef) (sr : StatusRef) (signal msg : Nat) :
    (Xyh_Event.move w self (some sr) signal msg).2 = Outcome.ok := by
  unfold Xyh_Event.move
  split
  · rfl
  · rw [enter_outcome]

theorem StdSet.mem_insert (s : List Nat) (k x : Nat) :
    x ∈ StdSet.insert s k ↔ x = k ∨ x ∈ s := by
  induction s with
  | nil => simp [StdSet.insert]
  | cons a rest ih =>
    unfold StdSet.insert
    by_cases h1 : k < a
    · simp [h1]
    · by_cases h2 : k = a
      · subst h2; simp
      · simp only [h1, h2, if_false, List.mem_cons, ih]
        tauto

theorem setup_selfLink_mono (st : Xyh_Status) (c : Setup) (x : Nat)
    (h : x ∈ st.m_setSelfLink) : x ∈ (st.setup c).m_setSelfLink := by
  cases c with
  | addLink signal status => simpa [Xyh_Status.setup, Xyh_Status.addLink] using h
  | addLinkSelf signal =>
    simp only [Xyh_Status.setup, Xyh_Status.addLinkSelf]
    exact (StdSet.mem_insert _ _ _).2 (Or.inr h)
  | regular tabel period => simpa [Xyh_Status.setup, Xyh_Status.regular] using h

theorem setupAll_selfLink_mono (calls : List Setup) (st : Xyh_Status) (x : Nat)
    (h : x ∈ st.m_setSelfLink) : x ∈ (st.setupAll calls).m_setSelfLink := by
  induction calls generalizing st with
  | nil => simpa [Xyh_Status.setupAll] using h
  | cons c rest ih =>
    simp only [Xyh_Status.setupAll, List.foldl_cons]
    exact ih (st.setup c) (setup_selfLink_mono st c x h)

theorem setupAll_selfLink_mem (calls : List Setup) (st : Xyh_Status) (x : Nat)
    (h : Setup.addLinkSelf x ∈ calls) : x ∈ (st.setupAll calls).m_setSelfLink := by
  induction calls generalizing st with
  | nil => simp at h
  | cons c rest ih =>
    simp only [Xyh_Status.setupAll, List.foldl_cons]
    rcases List.mem_cons.1 h with h1 | h1
    · subst h1
      apply setupAll_selfLink_mono
      simp only [Xyh_Status.setup, Xyh_Status.addLinkSelf]
      exact (StdSet.mem_insert _ _ _).2 (Or.inl rfl)
    · exact ih (st.setup c) h1

theorem StdMap.insert_insert {β : Type} (m : List (Nat × β)) (k : Nat) (x y : β) :
    StdMap.insert (StdMap.insert m k x) k y = StdMap.insert m k x := by
  induction m with
  | nil => simp [StdMap.insert]
  | cons p rest ih =>
    obtain ⟨a, b⟩ := p
    by_cases h1 : k < a
    · simp [StdMap.insert, h1]
    · by_cases h2 : k = a
      · subst h2; simp [StdMap.insert]
      · simp [StdMap.insert, h1, h2, ih]

theorem StdMap.find_insert_of_none {β : Type} (m : List (Nat × β)) (k : Nat) (v : β)
    (h : StdMap.find m k = none) : StdMap.find (StdMap.insert m k v) k = some v := by
  induction m with
  | nil => simp [StdMap.insert, StdMap.find]
  | cons p rest ih =>
    obtain ⟨a, b⟩ := p
    by_cases h3 : a = k
    · simp [StdMap.find, h3] at h
    · have h4 : ¬ k = a := fun e => h3 e.symm
      simp only [StdMap.find, h3, if_false] at h
      by_cases h1 : k < a
      · simp [StdMap.insert, h1, StdMap.find]
      · simp [StdMap.insert, h1, h4, StdMap.find, h3, ih h]

/-! ## Placement, digestion, routing and lifecycle -/

/-- C1. `place` fails with IllegalPlacementError exactly when the event already has
a current status or is recycled; a failing `place` returns the world it was given
(event, resident lists, timer buckets, callback log all untouched); and after a
`place` that returned normally, any further `place` of the same event fails and
changes nothing. -/
theorem place_illegal_iff (w : World) (self : EventRef) (s : Option StatusRef)
    (signal msg : Nat) :
    ((Xyh_Event.place w self s signal msg).2.isIllegalPlacement = true ↔
      ((w.event self).m_curStatus.isSome = true ∨ (w.event self).expired = true)) ∧
    ((Xyh_Event.place w self s signal msg).2.isThrown = true →
      (Xyh_Event.place w self s signal msg).2.isIllegalPlacement = true ∧
      (Xyh_Event.place w self s signal msg).1 = w) ∧
    (∀ (s2 : Option StatusRef) (signal2 msg2 : Nat),
      (Xyh_Event.place w self s signal msg).2 = Outcome.ok →
      (Xyh_Event.place (Xyh_Event.place w self s signal msg).1 self s2 signal2
        msg2).2.isIllegalPlacement = true ∧
      (Xyh_Event.place (Xyh_Event.place w self s signal msg).1 self s2 signal2 msg2).1 =
        (Xyh_Event.place w self s signal msg).1) := by
  have key : ∀ (w : World) (s : Option StatusRef) (signal msg : Nat),
      ((Xyh_Event.place w self s signal msg).2.isIllegalPlacement = true ↔
        ((w.event self).m_curStatus.isSome = true ∨ (w.event self).expired = true)) ∧
      ((Xyh_Event.place w self s signal msg).2.isThrown = true →
        (Xyh_Event.place w self s signal msg).2.isIllegalPlacement = true ∧
        (Xyh_Event.place w self s signal msg).1 = w) := by
    intro w s signal msg
    unfold Xyh_Event.place
    by_cases h1 : (w.event self).expired = true
    · simp [h1, Outcome.isIllegalPlacement]
    · by_cases h2 : (w.event self).m_curStatus.isSome = true
      · simp [h1, h2, Outcome.isIllegalPlacement]
      · simp only [h1, h2, if_false, or_self, iff_false, Bool.false_eq_true]
        rw [enter_outcome]
        cases s <;> simp [Outcome.isIllegalPlacement, Outcome.isThrown]
  refine ⟨(key w s signal msg).1, (key w s signal msg).2, ?_⟩
  intro s2 signal2 msg2 hok
  have hcur : ((Xyh_Event.place w self s signal msg).1.event self).m_curStatus.isSome
      = true := by
    unfold Xyh_Event.place at hok ⊢
    by_cases h1 : (w.event self).expired = true
    · simp [h1] at hok
    · by_cases h2 : (w.event self).m_curStatus.isSome = true
      · simp [h1, h2] at hok
      · simp only [h1, h2, if_false, Bool.false_eq_true] at hok ⊢
        rw [enter_outcome] at hok
        rw [enter_curStatus]
        cases s <;> simp at hok ⊢
  have h := key (Xyh_Event.place w self s signal msg).1 s2 signal2 msg2
  have h3 := h.1.2 (Or.inl hcur)
  have h4 : (Xyh_Event.place (Xyh_Event.place w self s signal msg).1 self s2 signal2
      msg2).2.isThrown = true := by
    revert h3
    generalize (Xyh_Event.place (Xyh_Event.place w self s signal msg).1 self s2 signal2
      msg2).2 = o
    cases o with
    | ok => simp [Outcome.isIllegalPlacement]
    | thrown e => simp [Outcome.isThrown]
    | undefined => simp [Outcome.isIllegalPlacement]
  exact ⟨h3, (h.2 h4).2⟩

/-- C1, at a concrete input: event 5 of a fresh world is placed in status 0
normally, and placing it again in status 1 fails and leaves the world alone. -/
theorem place_illegal_iff_witness :
    (Xyh_Event.place World.fresh 5 (some 0) 1 9).2 = Outcome.ok ∧
    (Xyh_Event.place (Xyh_Event.place World.fresh 5 (some 0) 1 9).1 5 (some 1) 2
      9).2.isIllegalPlacement = true ∧
    (Xyh_Event.place (Xyh_Event.place World.fresh 5 (some 0) 1 9).1 5 (some 1) 2 9).1 =
      (Xyh_Event.place World.fresh 5 (some 0) 1 9).1 :=
  ⟨by decide, (place_illegal_iff World.fresh 5 (some 0) 1 9).2.2 (some 1) 2 9 (by decide)⟩

/-- C2. An event `E` registered under `eid`, whose current status is `A`, that is
marked (PendingExpiry) and not listed in `B`, is digested with a signal that `A`
routes to a fade status `B` of another id: the call returns normally, `E` is
recycled, `E` is in neither resident list, the timer bucket of `B` is what it was,
and the callback log grew by exactly the entry callback of `B` for `E` with that
signal and payload. -/
theorem digestion_into_fade (j : Xyh_Jsm) (w : World) (eid : Nat) (E : EventRef)
    (A B : StatusRef) (sig msg : Nat)
    (hreg : j.findEvent eid = some E)
    (hcur : (w.event E).m_curStatus = some A)
    (hnotB : E ∉ (w.status B).m_listEvent)
    (hmark : (w.event E).marked = true)
    (hroute : (w.status A).route A sig = some B)
    (hfade : (w.status B).m_fade = true)
    (hid : (w.status A).m_Id ≠ (w.status B).m_Id) :
    (j.digestion w eid sig msg).2 = Outcome.ok ∧
    ((j.digestion w eid sig msg).1.event E).expired = true ∧
    E ∉ ((j.digestion w eid sig msg).1.status A).m_listEvent ∧
    E ∉ ((j.digestion w eid sig msg).1.status B).m_listEvent ∧
    ((j.digestion w eid sig msg).1.status B).m_mapTEvent = (w.status B).m_mapTEvent ∧
    (j.digestion w eid sig msg).1.calls = w.calls ++ [Call.routine B E sig msg] := by
  have hne : A ≠ B := by
    intro h; subst h; exact hid rfl
  have hexp := marked_not_expired _ hmark
  have hm : ((w.event E).m_stt == STT_BEMARKED) = true := hmark
  simp only [Xyh_Jsm.digestion, hreg, hexp, hcur, hroute, hid, Xyh_Event.move,
    Xyh_Event.enter, Xyh_Status.removeEvent]
  simp [World.setEvent, World.setStatus, World.call, Function.update, hne, Ne.symm hne,
    Xyh_Event.marked, Xyh_Event.expired, hm, hfade, hnotB, List.mem_filter]

/-- C2, at the scenario of section 8 of the specification. -/
theorem digestion_into_fade_witness :
    (fadeJsm.digestion fadeWorld 5 1 9).2 = Outcome.ok ∧
    ((fadeJsm.digestion fadeWorld 5 1 9).1.event 5).expired = true ∧
    5 ∉ ((fadeJsm.digestion fadeWorld 5 1 9).1.status 0).m_listEvent ∧
    5 ∉ ((fadeJsm.digestion fadeWorld 5 1 9).1.status 1).m_listEvent ∧
    ((fadeJsm.digestion fadeWorld 5 1 9).1.status 1).m_mapTEvent =
      (fadeWorld.status 1).m_mapTEvent ∧
    (fadeJsm.digestion fadeWorld 5 1 9).1.calls = fadeWorld.calls ++ [Call.routine 1 5 1 9] :=
  digestion_into_fade fadeJsm fadeWorld 5 5 0 1 1 9 (by decide) (by decide) (by decide)
    (by decide) (by decide) (by decide) (by decide)

/-- C3. A registered event that is not recycled is digested with a signal that its
current status routes to a status of the same id (itself, or another object
carrying that id): the world that results is the old world with one more entry in
the callback log, the entry callback of the current status; events, statuses
(resident lists, timer buckets) and printed lines are the same. -/
theorem digestion_same_id (j : Xyh_Jsm) (w : World) (eid : Nat) (E : EventRef)
    (cS nS : StatusRef) (sig msg : Nat)
    (hreg : j.findEvent eid = some E)
    (hexp : (w.event E).expired = false)
    (hcur : (w.event E).m_curStatus = some cS)
    (hroute : (w.status cS).route cS sig = some nS)
    (hid : (w.status cS).m_Id = (w.status nS).m_Id) :
    j.digestion w eid sig msg =
      ({ w with calls := w.calls ++ [Call.routine cS E sig msg] }, Outcome.ok) := by
  simp [Xyh_Jsm.digestion, hreg, hexp, hcur, hroute, hid, World.call]

/-- C3, at a self-loop (signal 1) and at a link to another object of the same id
(signal 2). -/
theorem digestion_same_id_witness :
    loopJsm.digestion loopWorld 5 1 9 =
      ({ loopWorld with calls := loopWorld.calls ++ [Call.routine 0 5 1 9] }, Outcome.ok) ∧
    loopJsm.digestion loopWorld 5 2 9 =
      ({ loopWorld with calls := loopWorld.calls ++ [Call.routine 0 5 2 9] }, Outcome.ok) :=
  ⟨digestion_same_id loopJsm loopWorld 5 5 0 0 1 9 (by decide) (by decide) (by decide)
      (by decide) (by decide),
   digestion_same_id loopJsm loopWorld 5 5 0 3 2 9 (by decide) (by decide) (by decide)
      (by decide) (by decide)⟩

/-- C5. `route` answers the status itself when the signal is in the self-loop set,
otherwise the target the link table holds for the signal, otherwise the null
pointer; and once `addLink(signal)` is among the configuration calls made on a
status, `route(signal)` is the status itself whatever links were registered for
the signal before or after it. -/
theorem route_self_loop_first (st : Xyh_Status) (self : StatusRef) (signal : Nat) :
    (signal ∈ st.m_setSelfLink → st.route self signal = some self) ∧
    (∀ target : Option StatusRef, signal ∉ st.m_setSelfLink →
      StdMap.find st.m_mapLink signal = some target → st.route self signal = target) ∧
    (signal ∉ st.m_setSelfLink → StdMap.find st.m_mapLink signal = none →
      st.route self signal = none) ∧
    (∀ calls : List Setup, Setup.addLinkSelf signal ∈ calls →
      (st.setupAll calls).route self signal = some self) ∧
    (∀ other : Option StatusRef,
      ((st.addLinkSelf signal).addLink signal other).route self signal = some self ∧
      ((st.addLink signal other).addLinkSelf signal).route self signal = some self) := by
  have hself : ∀ st' : Xyh_Status, signal ∈ st'.m_setSelfLink →
      st'.route self signal = some self := by
    intro st' h
    simp [Xyh_Status.route, StdSet.count, h]
  refine ⟨hself st, ?_, ?_, ?_, ?_⟩
  · intro target h hf
    simp [Xyh_Status.route, StdSet.count, h, hf]
  · intro h hf
    simp [Xyh_Status.route, StdSet.count, h, hf]
  · intro calls h
    exact hself _ (setupAll_selfLink_mem calls st signal h)
  · intro other
    constructor
    · exact hself _ (setupAll_selfLink_mem
        [Setup.addLinkSelf signal, Setup.addLink signal other] st signal (by simp))
    · exact hself _ (setupAll_selfLink_mem
        [Setup.addLink signal other, Setup.addLinkSelf signal] st signal (by simp))

/-- C5, at the input of section 8: a self-loop and a link to status 9, both on
signal 5, in both orders. -/
theorem route_self_loop_first_witness :
    (((Xyh_Status.new 0 false).addLinkSelf 5).addLink 5 (some 9)).route 0 5 = some 0 ∧
    (((Xyh_Status.new 0 false).addLink 5 (some 9)).addLinkSelf 5).route 0 5 = some 0 ∧
    ((Xyh_Status.new 0 false).addLink 5 (some 9)).route 0 5 = some 9 ∧
    ((Xyh_Status.new 0 false).addLink 5 (some 9)).route 0 6 = none :=
  ⟨((route_self_loop_first (Xyh_Status.new 0 false) 0 5).2.2.2.2 (some 9)).1,
   ((route_self_loop_first (Xyh_Status.new 0 false) 0 5).2.2.2.2 (some 9)).2,
   (route_self_loop_first ((Xyh_Status.new 0 false).addLink 5 (some 9)) 0 5).2.1 (some 9)
     (by decide) (by decide),
   (route_self_loop_first ((Xyh_Status.new 0 false).addLink 5 (some 9)) 0 6).2.2.1
     (by decide) (by decide)⟩

/-- C6, what the code does: a second `addLink(signal, status)` for a signal changes
nothing. With no self-loop and no earlier link on the signal, the status registered
first is the one `route` answers after `addLink(s, X); addLink(s, Y)`. -/
theorem addLink_first_write_wins (st : Xyh_Status) (self : StatusRef) (s : Nat)
    (X Y : Option StatusRef) :
    (st.addLink s X).addLink s Y = st.addLink s X ∧
    (s ∉ st.m_setSelfLink → StdMap.find st.m_mapLink s = none →
      ((st.addLink s X).addLink s Y).route self s = X) := by
  constructor
  · simp [Xyh_Status.addLink, StdMap.insert_insert]
  · intro h hf
    simp [Xyh_Status.addLink, StdMap.insert_insert, Xyh_Status.route, StdSet.count, h,
      StdMap.find_insert_of_none _ _ _ hf]

/-- C6, at a concrete input: status 0 links signal 1 to status 1 and then to status
2; `route(1)` is status 1. -/
theorem addLink_first_write_wins_witness :
    (((Xyh_Status.new 0 false).addLink 1 (some 1)).addLink 1 (some 2)).route 0 1 = some 1 :=
  (addLink_first_write_wins (Xyh_Status.new 0 false) 0 1 (some 1) (some 2)).2
    (by decide) (by decide)

/-- C9. `digestion` throws the unknown-event error exactly when the id is not in
the event registry; on a registered recycled event it returns normally and
changes nothing; on a registered, placed event that is not recycled it throws the
unroutable-signal error (carrying the id of the current status and the signal)
exactly when `route` gives the null pointer; whenever it throws, the world is the
one it was given. `process(eid, sig, msg)` ends in the same way as `digestion`
whenever either throws, and it too leaves the world alone then. -/
theorem digestion_failures (j : Xyh_Jsm) (w : World) (eid sig msg : Nat) :
    ((j.digestion w eid sig msg).2.isUnknownEvent = true ↔ j.findEvent eid = none) ∧
    (j.findEvent eid = none →
      (j.digestion w eid sig msg).2 = Outcome.thrown (LogicError.notFoundEvent eid sig)) ∧
    (∀ E : EventRef, j.findEvent eid = some E → (w.event E).expired = true →
      j.digestion w eid sig msg = (w, Outcome.ok)) ∧
    (∀ (E : EventRef) (cS : StatusRef), j.findEvent eid = some E →
      (w.event E).expired = false → (w.event E).m_curStatus = some cS →
      (((j.digestion w eid sig msg).2.isUnroutableSignal = true ↔
          (w.status cS).route cS sig = none) ∧
        ((w.status cS).route cS sig = none →
          (j.digestion w eid sig msg).2 =
            Outcome.thrown (LogicError.notFoundNextStatus (w.status cS).m_Id sig)) ∧
        ((w.status cS).route cS sig ≠ none → (j.digestion w eid sig msg).2 = Outcome.ok))) ∧
    ((j.digestion w eid sig msg).2.isThrown = true → (j.digestion w eid sig msg).1 = w) ∧
    ((j.process w eid sig msg).2.isThrown = true ∨
        (j.digestion w eid sig msg).2.isThrown = true →
      j.process w eid sig msg = j.digestion w eid sig msg) ∧
    ((j.process w eid sig msg).2.isThrown = true → (j.process w eid sig msg).1 = w) := by
  have hmove : ∀ (E : EventRef) (nS : StatusRef),
      (Xyh_Event.move w E (some nS) sig msg).2.isThrown = false := by
    intro E nS
    rw [move_outcome]; rfl
  refine ⟨?_, ?_, ?_, ?_, ?_, ?_, ?_⟩
  · unfold Xyh_Jsm.digestion
    cases hf : j.findEvent eid with
    | none => simp [Outcome.isUnknownEvent]
    | some E =>
      simp only [reduceCtorEq, iff_false]
      split
      · simp [Outcome.isUnknownEvent]
      · split
        · simp [Outcome.isUnknownEvent]
        · split
          · split
            · simp [Outcome.isUnknownEvent]
            · rw [move_outcome]; simp [Outcome.isUnknownEvent]
          · simp [Outcome.isUnknownEvent]
  · intro hf
    simp [Xyh_Jsm.digestion, hf]
  · intro E hf hexp
    simp [Xyh_Jsm.digestion, hf, hexp]
  · intro E cS hf hexp hcur
    cases hr : (w.status cS).route cS sig with
    | none => simp [Xyh_Jsm.digestion, hf, hexp, hcur, hr, Outcome.isUnroutableSignal]
    | some nS =>
      simp only [Xyh_Jsm.digestion, hf, hexp, hcur, hr]
      by_cases hid : (w.status cS).m_Id = (w.status nS).m_Id
      · simp [hid, Outcome.isUnroutableSignal]
      · simp [hid, move_outcome, Outcome.isUnroutableSignal]
  · unfold Xyh_Jsm.digestion
    split
    · split
      · simp
      · split
        · simp
        · split
          · split
            · simp [Outcome.isThrown]
            · rw [hmove]; simp
          · simp
    · simp
  · unfold Xyh_Jsm.digestion Xyh_Jsm.process
    split
    · split
      · simp
      · split
        · simp
        · split
          · split
            · rw [hmove]; simp [Outcome.isThrown]
            · simp
          · simp
    · simp
  · unfold Xyh_Jsm.process
    split
    · split
      · simp
      · split
        · simp
        · split
          · rw [hmove]; simp
          · simp
    · simp

/-- C9, at concrete inputs of the fade scenario: id 6 is not registered; signal 2
has no route from status 0. -/
theorem digestion_failures_witness :
    fadeJsm.digestion fadeWorld 6 1 9 =
      (fadeWorld, Outcome.thrown (LogicError.notFoundEvent 6 1)) ∧
    (fadeJsm.digestion fadeWorld 5 2 9).2 =
      Outcome.thrown (LogicError.notFoundNextStatus 0 2) ∧
    (fadeJsm.digestion fadeWorld 5 2 9).1 = fadeWorld ∧
    fadeJsm.process fadeWorld 5 2 9 = fadeJsm.digestion fadeWorld 5 2 9 :=
  ⟨Prod.ext ((digestion_failures fadeJsm fadeWorld 6 1 9).2.2.2.2.1 (by decide))
      ((digestion_failures fadeJsm fadeWorld 6 1 9).2.1 (by decide)),
   ((digestion_failures fadeJsm fadeWorld 5 2 9).2.2.2.1 5 0 (by decide) (by decide)
      (by decide)).2.1 (by decide),
   (digestion_failures fadeJsm fadeWorld 5 2 9).2.2.2.2.1 (by decide),
   (digestion_failures fadeJsm fadeWorld 5 2 9).2.2.2.2.2.1 (Or.inr (by decide))⟩

/-- C10 as stated fails: a recycled event (event 5 of the fade scenario after it
was digested into the fade status) is no longer recycled after `survive()`, nor
after `expire()`, nor after `expireEvent(5)` on the machine. -/
theorem recycled_not_terminal :
    ((fadeJsm.digestion fadeWorld 5 1 9).1.event 5).expired = true ∧
    ((fadeJsm.digestion fadeWorld 5 1 9).1.event 5).survive.expired = false ∧
    ((fadeJsm.digestion fadeWorld 5 1 9).1.event 5).expire.expired = false ∧
    ((fadeJsm.expireEvent (fadeJsm.digestion fadeWorld 5 1 9).1 5).event 5).expired = false := by
  decide

/-- C10 amended. The two setters assign unconditionally: after `survive()` the
event is in the surviving state and after `expire()` it is marked, whatever it was
before, a recycled event included; neither leaves an event recycled.
`expireEvent(id)` marks the registered event and touches nothing else, and changes
nothing when the id is not registered. -/
theorem lifecycle_setters (e : Xyh_Event) (j : Xyh_Jsm) (w : World) (id : Nat) :
    e.survive.m_stt = STT_SURVIVE ∧ e.survive.expired = false ∧ e.survive.marked = false ∧
    e.expire.m_stt = STT_BEMARKED ∧ e.expire.expired = false ∧ e.expire.marked = true ∧
    (∀ E : EventRef, j.findEvent id = some E →
      j.expireEvent w id = w.setEvent E { w.event E with m_stt := STT_BEMARKED } ∧
      ((j.expireEvent w id).event E).marked = true ∧
      ((j.expireEvent w id).event E).expired = false) ∧
    (j.findEvent id = none → j.expireEvent w id = w) := by
  refine ⟨rfl, rfl, rfl, rfl, rfl, rfl, ?_, ?_⟩
  · intro E h
    have h1 : StdMap.find j.m_mapEvent id = some E := h
    simp [Xyh_Jsm.expireEvent, h1, World.setEvent, Xyh_Event.expire, Xyh_Event.marked,
      Xyh_Event.expired, STT_BEMARKED, STT_RECYCLE]
  · intro h
    have h1 : StdMap.find j.m_mapEvent id = none := h
    simp [Xyh_Jsm.expireEvent, h1]

/-- C10 amended, at the recycled event of the fade scenario. -/
theorem lifecycle_setters_witness :
    ((fadeJsm.expireEvent (fadeJsm.digestion fadeWorld 5 1 9).1 5).event 5).marked = true ∧
    fadeJsm.expireEvent fadeWorld 6 = fadeWorld :=
  ⟨((lifecycle_setters (fadeWorld.event 5) fadeJsm (fadeJsm.digestion fadeWorld 5 1 9).1
      5).2.2.2.2.2.2.1 5 (by decide)).2.1,
   (lifecycle_setters (fadeWorld.event 5) fadeJsm fadeWorld 6).2.2.2.2.2.2.2 (by decide)⟩

/-! ## Broadcast -/

theorem StdMap.find_of_mem {β : Type} (m : List (Nat × β)) (h : StdMap.WF m)
    (p : Nat × β) (hp : p ∈ m) : StdMap.find m p.1 = some p.2 := by
  induction m with
  | nil => simp at hp
  | cons q rest ih =>
    obtain ⟨a, b⟩ := q
    simp only [StdMap.WF, List.map_cons, List.pairwise_cons] at h
    rcases List.mem_cons.1 hp with h1 | h1
    · subst h1; simp [StdMap.find]
    · have hlt : a < p.1 := h.1 p.1 (List.mem_map.2 ⟨p, h1, rfl⟩)
      have hne : ¬ a = p.1 := by omega
      simp only [StdMap.find, hne, if_false]
      exact ih h.2 h1

theorem move_curStatus_ne_none (w : World) (E E' : EventRef) (nS : StatusRef) (sig msg : Nat)
    (h : (w.event E').m_curStatus ≠ none) :
    ((Xyh_Event.move w E (some nS) sig msg).1.event E').m_curStatus ≠ none := by
  unfold Xyh_Event.move
  split
  · exact h
  · by_cases he : E' = E
    · subst he
      rw [enter_curStatus]; simp
    · simp only [Xyh_Event.enter]
      split <;> split <;>
        simp [World.setEvent, World.setStatus, World.call, Function.update, he,
          Xyh_Status.removeEvent, h]

theorem processLoop_eq_fold (j : Xyh_Jsm) (sig msg : Nat) (l : List (Nat × EventRef)) :
    ∀ w : World, (∀ p ∈ l, j.findEvent p.1 = some p.2) →
      (∀ p ∈ l, (w.event p.2).m_curStatus ≠ none) →
      Xyh_Jsm.processLoop sig msg w l = (l.foldl (broadcastStep j sig msg) w, Outcome.ok) := by
  induction l with
  | nil => intro w _ _; simp [Xyh_Jsm.processLoop]
  | cons p rest ih =>
    intro w hfind hplaced
    obtain ⟨k, E⟩ := p
    have hk : j.findEvent k = some E := hfind (k, E) (List.mem_cons_self _ _)
    have hfr : ∀ p ∈ rest, j.findEvent p.1 = some p.2 :=
      fun p hp => hfind p (List.mem_cons_of_mem _ hp)
    have hpr : ∀ p ∈ rest, (w.event p.2).m_curStatus ≠ none :=
      fun p hp => hplaced p (List.mem_cons_of_mem _ hp)
    have hE : (w.event E).m_curStatus ≠ none := hplaced (k, E) (List.mem_cons_self _ _)
    simp only [List.foldl_cons]
    unfold Xyh_Jsm.processLoop
    by_cases hexp : (w.event E).expired = true
    · have hs : broadcastStep j sig msg w (k, E) = w := by
        simp [broadcastStep, Xyh_Jsm.process, hk, hexp]
      simp only [hexp, if_true, hs]
      exact ih w hfr hpr
    · cases hc : (w.event E).m_curStatus with
      | none => exact absurd hc hE
      | some cS =>
        cases hr : (w.status cS).route cS sig with
        | none =>
          have hs : broadcastStep j sig msg w (k, E) =
              w.print (Printed.notFoundNextStatus (w.status cS).m_Id sig) := by
            simp [broadcastStep, Xyh_Jsm.process, hk, hexp, hc, hr]
          simp only [hexp, if_false, hs, hr, Bool.false_eq_true]
          exact ih _ hfr (fun p hp => by simpa [World.print] using hpr p hp)
        | some nS =>
          have ho := move_outcome w E nS sig msg
          have hcs : ∀ p ∈ rest,
              ((Xyh_Event.move w E (some nS) sig msg).1.event p.2).m_curStatus ≠ none :=
            fun p hp => move_curStatus_ne_none w E p.2 nS sig msg (hpr p hp)
          have hs : broadcastStep j sig msg w (k, E) =
              (Xyh_Event.move w E (some nS) sig msg).1 := by
            simp only [broadcastStep, Xyh_Jsm.process, hk, hexp, hc, hr]
            generalize Xyh_Event.move w E (some nS) sig msg = r at ho
            obtain ⟨w1, o⟩ := r
            simp only at ho
            subst ho
            simp
          simp only [hexp, if_false, hs, hr, Bool.false_eq_true]
          generalize Xyh_Event.move w E (some nS) sig msg = r at ho hcs
          obtain ⟨w1, o⟩ := r
          simp only at ho
          subst ho
          exact ih w1 hfr hcs

/-- C8. On a registry with the keys of a `std::map` in which every event has been
placed, `process(sig, msg)` returns normally and leaves the world that the
specification's broadcast leaves: the registry entries in turn, each one driven;
where a recycled event is skipped (the world stays as it is), an event whose
current status has no route stays as it is and only a line is printed, and an
event whose current status routes the signal is moved exactly as
`process(eid, sig, msg)` moves it, also onto a status of the same id. -/
theorem processAll_fail_soft (j : Xyh_Jsm) (w : World) (sig msg : Nat)
    (hmap : StdMap.WF j.m_mapEvent)
    (hplaced : ∀ p ∈ j.m_mapEvent, (w.event p.2).m_curStatus ≠ none) :
    j.processAll w sig msg = (broadcastSpec j w sig msg, Outcome.ok) ∧
    (∀ (w' : World) (p : Nat × EventRef), p ∈ j.m_mapEvent →
      ((w'.event p.2).expired = true → broadcastStep j sig msg w' p = w') ∧
      (∀ cS : StatusRef, (w'.event p.2).expired = false →
        (w'.event p.2).m_curStatus = some cS →
        ((w'.status cS).route cS sig = none →
          broadcastStep j sig msg w' p =
            w'.print (Printed.notFoundNextStatus (w'.status cS).m_Id sig)) ∧
        (∀ nS : StatusRef, (w'.status cS).route cS sig = some nS →
          j.process w' p.1 sig msg = Xyh_Event.move w' p.2 (some nS) sig msg ∧
          (j.process w' p.1 sig msg).2 = Outcome.ok ∧
          broadcastStep j sig msg w' p = (j.process w' p.1 sig msg).1))) := by
  have hfind : ∀ p ∈ j.m_mapEvent, j.findEvent p.1 = some p.2 :=
    fun p hp => StdMap.find_of_mem j.m_mapEvent hmap p hp
  refine ⟨processLoop_eq_fold j sig msg j.m_mapEvent w hfind hplaced, ?_⟩
  intro w' p hp
  have hk := hfind p hp
  refine ⟨?_, ?_⟩
  · intro hexp
    simp [broadcastStep, Xyh_Jsm.process, hk, hexp]
  · intro cS hexp hc
    refine ⟨?_, ?_⟩
    · intro hr
      simp [broadcastStep, Xyh_Jsm.process, hk, hexp, hc, hr]
    · intro nS hr
      have hp : j.process w' p.1 sig msg = Xyh_Event.move w' p.2 (some nS) sig msg := by
        simp [Xyh_Jsm.process, hk, hexp, hc, hr]
      have ho := move_outcome w' p.2 nS sig msg
      refine ⟨hp, by rw [hp]; exact ho, ?_⟩
      simp only [broadcastStep, hp]
      generalize Xyh_Event.move w' p.2 (some nS) sig msg = r at ho
      obtain ⟨w1, o⟩ := r
      simp only at ho
      subst ho
      rfl

/-- C8, at the scenario of section 8: three events, the middle one of the
iteration (event 6) without a route for signal 99. -/
theorem processAll_fail_soft_witness :
    castJsm.processAll castWorld 99 0 = (broadcastSpec castJsm castWorld 99 0, Outcome.ok) ∧
    (castJsm.processAll castWorld 99 0).1.cout = [Printed.notFoundNextStatus 1 99] ∧
    ((castJsm.processAll castWorld 99 0).1.event 5).m_curStatus = some 1 ∧
    ((castJsm.processAll castWorld 99 0).1.status 1).m_listEvent = [6, 5] :=
  ⟨(processAll_fail_soft castJsm castWorld 99 0 (by decide) (by decide)).1,
   by decide, by decide, by decide⟩

/-! ## Ticks -/

theorem due_call (w : World) (c : Call) (self : StatusRef) (l : List (Nat × InStore)) :
    Xyh_Status.due (w.call c) self l = Xyh_Status.due w self l := rfl

theorem fire_eq (self : StatusRef) (l : List (Nat × InStore)) :
    ∀ w : World, (∀ p ∈ l, (w.event p.2._event).m_curStatus ≠ none) →
      Xyh_Status.fire self w l =
        ({ w with calls := w.calls ++ Xyh_Status.due w self l }, Outcome.ok) := by
  induction l with
  | nil => intro w _; simp [Xyh_Status.fire, Xyh_Status.due]
  | cons p rest ih =>
    intro w h
    obtain ⟨k, it⟩ := p
    have hp : (w.event it._event).m_curStatus ≠ none := h (k, it) (List.mem_cons_self _ _)
    have hr : ∀ p ∈ rest, (w.event p.2._event).m_curStatus ≠ none :=
      fun p hp => h p (List.mem_cons_of_mem _ hp)
    unfold Xyh_Status.fire
    cases hc : (w.event it._event).m_curStatus with
    | none => exact absurd hc hp
    | some cur =>
      by_cases hx : (w.event it._event).expired = true
      · simp only [hx, Bool.not_true, Bool.false_eq_true, if_false]
        rw [ih w hr]
        simp [Xyh_Status.due, Xyh_Status.fires, hx]
      · by_cases hid : (w.status cur).m_Id = (w.status self).m_Id
        · simp only [hx, hid, if_true, Bool.not_eq_true, Bool.not_false]
          rw [ih (w.call _) hr, due_call]
          simp [Xyh_Status.due, Xyh_Status.fires, hx, hc, hid, World.call]
        · simp only [hx, hid, if_true, if_false, Bool.not_eq_true, Bool.not_false]
          rw [ih w hr]
          simp [Xyh_Status.due, Xyh_Status.fires, hx, hc, hid]

theorem fires_congr (w w' : World) (self : StatusRef) (it : InStore)
    (he : w'.event = w.event) (hs : ∀ s, (w'.status s).m_Id = (w.status s).m_Id) :
    Xyh_Status.fires w' self it = Xyh_Status.fires w self it := by
  simp only [Xyh_Status.fires, he, hs]

theorem due_congr (w w' : World) (self : StatusRef) (l : List (Nat × InStore))
    (he : w'.event = w.event) (hs : ∀ s, (w'.status s).m_Id = (w.status s).m_Id) :
    Xyh_Status.due w' self l = Xyh_Status.due w self l := by
  simp only [Xyh_Status.due, fires_congr w w' self _ he hs]

theorem Status_ticktock_eq (w : World) (self : StatusRef) (T : Nat)
    (h : ∀ p ∈ (w.status self).m_mapTEvent, (w.event p.2._event).m_curStatus ≠ none) :
    Xyh_Status.ticktock w self T false =
      ({ w with
          status := Function.update w.status self
            { w.status self with
              m_ticktock := T
              m_mapTEvent := StdMultimap.erase (w.status self).m_mapTEvent (T % UINT_MODULUS) }
          calls := w.calls ++ Xyh_Status.due w self
            (StdMultimap.equal_range (w.status self).m_mapTEvent (T % UINT_MODULUS)) },
        Outcome.ok) := by
  have hid : ∀ s, ((w.setStatus self { w.status self with m_ticktock := T }).status s).m_Id =
      (w.status s).m_Id := by
    intro s
    by_cases hs : s = self
    · subst hs; simp [World.setStatus]
    · simp [World.setStatus, Function.update, hs]
  have hsafe : ∀ p ∈ StdMultimap.equal_range
      ((w.setStatus self { w.status self with m_ticktock := T }).status self).m_mapTEvent
      (((w.setStatus self { w.status self with m_ticktock := T }).status self).m_ticktock
        % UINT_MODULUS),
      ((w.setStatus self { w.status self with m_ticktock := T }).event p.2._event).m_curStatus
        ≠ none := by
    intro p hp
    have hp' : p ∈ (w.status self).m_mapTEvent := by
      simp [StdMultimap.equal_range, World.setStatus] at hp
      exact hp.1
    simpa [World.setStatus] using h p hp'
  simp only [Xyh_Status.ticktock, Bool.false_eq_true, if_false]
  rw [fire_eq self _ _ hsafe]
  have hd := due_congr w (w.setStatus self { w.status self with m_ticktock := T }) self
    (StdMultimap.equal_range (w.status self).m_mapTEvent (T % UINT_MODULUS)) rfl hid
  simp only [World.setStatus] at hd
  simp [World.setStatus, hd]

theorem pending_erase (b : List (Nat × InStore)) (κ label : Nat) (e : EventRef) :
    pending (StdMultimap.erase b κ) label e =
      (pending b label e).filter (fun k => !(k == κ)) := by
  induction b with
  | nil => rfl
  | cons p rest ih =>
    simp only [pending, StdMultimap.erase, List.filter_filter] at ih ⊢
    by_cases h1 : p.1 = κ <;> by_cases h2 : p.2 = InStore.mk label e <;>
      simp [List.filter_cons, h1, h2, ih]

theorem count_due_self (w : World) (A : StatusRef) (label : Nat) (E : EventRef)
    (hexp : (w.event E).expired = false) (hcur : (w.event E).m_curStatus = some A)
    (b : List (Nat × InStore)) (κ : Nat) :
    (Xyh_Status.due w A (StdMultimap.equal_range b κ)).count (Call.timerRoutine A label E) =
      ((pending b label E).filter (fun k => k == κ)).length := by
  have hf : Xyh_Status.fires w A (InStore.mk label E) = true := by
    simp [Xyh_Status.fires, hexp, hcur]
  induction b with
  | nil => rfl
  | cons p rest ih =>
    obtain ⟨k, it⟩ := p
    simp only [pending, StdMultimap.equal_range, Xyh_Status.due, List.filter_filter] at ih ⊢
    by_cases h1 : k = κ
    · by_cases h2 : it = InStore.mk label E
      · subst h2
        simp [List.filter_cons, h1, hf, ih]
      · have h3 : ¬ (it._tabel = label ∧ it._event = E) := by
          intro h; apply h2; cases it; simp_all
        by_cases h4 : Xyh_Status.fires w A it = true
        · simp [List.filter_cons, h1, h2, h4, ih, List.count_cons, h3]
        · simp [List.filter_cons, h1, h2, h4, ih]
    · by_cases h2 : it = InStore.mk label E <;> simp [List.filter_cons, h1, h2, ih]

theorem count_due_other (w : World) (A S : StatusRef) (label : Nat) (E : EventRef)
    (hne : S ≠ A) (l : List (Nat × InStore)) :
    (Xyh_Status.due w S l).count (Call.timerRoutine A label E) = 0 := by
  rw [List.count_eq_zero]
  intro h
  simp only [Xyh_Status.due, List.mem_map] at h
  obtain ⟨p, _, hp⟩ := h
  injection hp with h1
  exact hne h1

/-- What `Xyh_Status::ticktock` of a registered status `S` does, seen from an event
`E` that lives in status `A`: it returns normally, keeps every event, keeps the
buckets free of unplaced events, removes from the pending keys of `(label, E)` the
key of this tick if `S` is `A`, and calls `timerRoutine(label, E)` of `A` once per
pending key that is the key of this tick. -/
theorem Status_ticktock_step (j : Xyh_Jsm) (w : World) (A S : StatusRef) (label : Nat)
    (E : EventRef) (T : Nat) (q : Nat × StatusRef) (hq : q ∈ j.m_mapStatus) (hS : q.2 = S)
    (hbp : j.bucketsPlaced w)
    (hexp : (w.event E).expired = false) (hcur : (w.event E).m_curStatus = some A) :
    (Xyh_Status.ticktock w S T false).2 = Outcome.ok ∧
    j.bucketsPlaced (Xyh_Status.ticktock w S T false).1 ∧
    (Xyh_Status.ticktock w S T false).1.event = w.event ∧
    ((Xyh_Status.ticktock w S T false).1.status A).m_ticktock =
      (if S = A then T else (w.status A).m_ticktock) ∧
    pending ((Xyh_Status.ticktock w S T false).1.status A).m_mapTEvent label E =
      (if S = A then
        (pending (w.status A).m_mapTEvent label E).filter (fun k => !(k == T % UINT_MODULUS))
       else pending (w.status A).m_mapTEvent label E) ∧
    (Xyh_Status.ticktock w S T false).1.calls.count (Call.timerRoutine A label E) =
      w.calls.count (Call.timerRoutine A label E) +
      (if S = A then
        ((pending (w.status A).m_mapTEvent label E).filter
          (fun k => k == T % UINT_MODULUS)).length
       else 0) := by
  subst hS
  rw [Status_ticktock_eq w q.2 T (hbp q hq)]
  refine ⟨rfl, ?_, rfl, ?_, ?_, ?_⟩
  · intro q' hq' p hp
    by_cases h : q'.2 = q.2
    · have hp2 : p ∈ StdMultimap.erase (w.status q.2).m_mapTEvent (T % UINT_MODULUS) := by
        simp only [Function.update_apply, if_pos h] at hp
        exact hp
      unfold StdMultimap.erase at hp2
      exact hbp q hq p (List.mem_of_mem_filter hp2)
    · simp only [Function.update_apply, if_neg h] at hp
      exact hbp q' hq' p hp
  · by_cases h : q.2 = A
    · subst h
      simp
    · have h' : A ≠ q.2 := fun e => h e.symm
      simp [h, Function.update_noteq h']
  · by_cases h : q.2 = A
    · subst h
      simp [pending_erase]
    · have h' : A ≠ q.2 := fun e => h e.symm
      simp [h, Function.update_noteq h']
  · by_cases h : q.2 = A
    · subst h
      simp [List.count_append, count_due_self w q.2 label E hexp hcur]
    · simp [List.count_append, h, count_due_other w A q.2 label E h]

theorem tickLoop_step (j : Xyh_Jsm) (A : StatusRef) (label : Nat) (E : EventRef) (T : Nat)
    (l : List (Nat × StatusRef)) :
    ∀ w : World, (∀ q ∈ l, q ∈ j.m_mapStatus) → j.bucketsPlaced w →
      (w.event E).expired = false → (w.event E).m_curStatus = some A →
      (Xyh_Jsm.tickLoop T w l).2 = Outcome.ok ∧
      j.bucketsPlaced (Xyh_Jsm.tickLoop T w l).1 ∧
      (Xyh_Jsm.tickLoop T w l).1.event = w.event ∧
      ((Xyh_Jsm.tickLoop T w l).1.status A).m_ticktock =
        (if A ∈ l.map Prod.snd then T else (w.status A).m_ticktock) ∧
      pending ((Xyh_Jsm.tickLoop T w l).1.status A).m_mapTEvent label E =
        (if A ∈ l.map Prod.snd then
          (pending (w.status A).m_mapTEvent label E).filter
            (fun k => !(k == T % UINT_MODULUS))
         else pending (w.status A).m_mapTEvent label E) ∧
      (Xyh_Jsm.tickLoop T w l).1.calls.count (Call.timerRoutine A label E) =
        w.calls.count (Call.timerRoutine A label E) +
        (if A ∈ l.map Prod.snd then
          ((pending (w.status A).m_mapTEvent label E).filter
            (fun k => k == T % UINT_MODULUS)).length
         else 0) := by
  induction l with
  | nil => intro w _ hbp _ _; simp [Xyh_Jsm.tickLoop, hbp]
  | cons q rest ih =>
    intro w hl hbp hexp hcur
    obtain ⟨h1, h2, h3, hc, h4, h5⟩ := Status_ticktock_step j w A q.2 label E T q
      (hl q (List.mem_cons_self _ _)) rfl hbp hexp hcur
    obtain ⟨k, S⟩ := q
    simp only [Xyh_Jsm.tickLoop]
    generalize Xyh_Status.ticktock w S T false = r at h1 h2 h3 hc h4 h5
    obtain ⟨w1, o⟩ := r
    simp only at h1 h2 h3 hc h4 h5
    subst h1
    simp only
    obtain ⟨g1, g2, g3, gc, g4, g5⟩ := ih w1 (fun q hq => hl q (List.mem_cons_of_mem _ hq)) h2
      (by rw [h3]; exact hexp) (by rw [h3]; exact hcur)
    refine ⟨g1, g2, by rw [g3, h3], ?_, ?_, ?_⟩
    · rw [gc, hc]
      by_cases hS : S = A <;> by_cases hA : A ∈ rest.map Prod.snd
      · simp [hS, hA]
      · simp [hS, hA]
      · simp [hS, hA, Ne.symm hS]
      · have hS' : ¬ A = S := fun e => hS e.symm
        simp only [hS, hA, if_false, List.map_cons, List.mem_cons, hS', or_self]
    · rw [g4, h4]
      by_cases hS : S = A <;> by_cases hA : A ∈ rest.map Prod.snd
      · have : A = S ∨ A ∈ rest.map Prod.snd := Or.inl hS.symm
        simp [hS, hA, List.filter_filter]
      · simp [hS, hA]
      · simp [hS, hA, Ne.symm hS]
      · have hS' : ¬ A = S := fun e => hS e.symm
        simp only [hS, hA, if_false, List.map_cons, List.mem_cons, hS', or_self]
    · rw [g5, h5, h4]
      by_cases hS : S = A <;> by_cases hA : A ∈ rest.map Prod.snd
      · simp [hS, hA, List.filter_filter]
      · simp [hS, hA]
      · have hS' : ¬ A = S := fun e => hS e.symm
        simp [hS, hA, hS']
      · have hS' : ¬ A = S := fun e => hS e.symm
        simp only [hS, hA, if_false, List.map_cons, List.mem_cons, hS', or_self, Nat.add_zero]

theorem Jsm_ticktock_step (j : Xyh_Jsm) (w : World) (A : StatusRef) (label : Nat)
    (E : EventRef) (hA : A ∈ j.m_mapStatus.map Prod.snd) (hbp : j.bucketsPlaced w)
    (hexp : (w.event E).expired = false) (hcur : (w.event E).m_curStatus = some A) :
    (j.ticktock w false).2.2 = Outcome.ok ∧
    (j.ticktock w false).1 = { j with m_ticktock := (j.m_ticktock + 1) % ULL_MODULUS } ∧
    (j.ticktock w false).1.bucketsPlaced (j.ticktock w false).2.1 ∧
    (j.ticktock w false).2.1.event = w.event ∧
    ((j.ticktock w false).2.1.status A).m_ticktock = j.m_ticktock ∧
    pending ((j.ticktock w false).2.1.status A).m_mapTEvent label E =
      (pending (w.status A).m_mapTEvent label E).filter
        (fun k => !(k == j.m_ticktock % UINT_MODULUS)) ∧
    (j.ticktock w false).2.1.calls.count (Call.timerRoutine A label E) =
      w.calls.count (Call.timerRoutine A label E) +
      ((pending (w.status A).m_mapTEvent label E).filter
        (fun k => k == j.m_ticktock % UINT_MODULUS)).length := by
  obtain ⟨h1, h2, h3, hc, h4, h5⟩ := tickLoop_step j A label E j.m_ticktock j.m_mapStatus w
    (fun q hq => hq) hbp hexp hcur
  simp only [hA, if_true] at hc h4 h5
  simp only [Xyh_Jsm.ticktock, Bool.false_eq_true, if_false]
  generalize Xyh_Jsm.tickLoop j.m_ticktock w j.m_mapStatus = r at h1 h2 h3 hc h4 h5
  obtain ⟨w1, o⟩ := r
  simp only at h1 h2 h3 hc h4 h5
  subst h1
  exact ⟨rfl, rfl, h2, h3, hc, h4, h5⟩

theorem ticks_done (n : Nat) (A : StatusRef) (label : Nat) (E : EventRef) :
    ∀ (j : Xyh_Jsm) (w : World), A ∈ j.m_mapStatus.map Prod.snd → j.bucketsPlaced w →
      (w.event E).expired = false → (w.event E).m_curStatus = some A →
      pending (w.status A).m_mapTEvent label E = [] →
      (j.ticks n w).2.2 = Outcome.ok ∧
      (j.ticks n w).2.1.calls.count (Call.timerRoutine A label E) =
        w.calls.count (Call.timerRoutine A label E) := by
  induction n with
  | zero => intro j w _ _ _ _ _; simp [Xyh_Jsm.ticks]
  | succ n ih =>
    intro j w hA hbp hexp hcur hp
    obtain ⟨h1, h2, h3, h4, -, h5, h6⟩ := Jsm_ticktock_step j w A label E hA hbp hexp hcur
    simp only [Xyh_Jsm.ticks]
    generalize j.ticktock w false = r at h1 h2 h3 h4 h5 h6
    obtain ⟨j1, w1, o⟩ := r
    simp only at h1 h2 h3 h4 h5 h6
    subst h1
    simp only
    rw [hp] at h5 h6
    simp only [List.filter_nil, List.length_nil, Nat.add_zero] at h5 h6
    obtain ⟨g1, g2⟩ := ih j1 w1 (by rw [h2]; exact hA) h3 (by rw [h4]; exact hexp)
      (by rw [h4]; exact hcur) h5
    exact ⟨g1, by rw [g2, h6]⟩

theorem ticks_pending (n : Nat) (A : StatusRef) (label : Nat) (E : EventRef) :
    ∀ (j : Xyh_Jsm) (w : World) (r : Nat), A ∈ j.m_mapStatus.map Prod.snd →
      j.bucketsPlaced w →
      (w.event E).expired = false → (w.event E).m_curStatus = some A →
      1 ≤ r → r < UINT_MODULUS →
      pending (w.status A).m_mapTEvent label E = [(j.m_ticktock + r - 1) % UINT_MODULUS] →
      (j.ticks n w).2.2 = Outcome.ok ∧
      (j.ticks n w).2.1.calls.count (Call.timerRoutine A label E) =
        w.calls.count (Call.timerRoutine A label E) + (if r ≤ n then 1 else 0) := by
  induction n with
  | zero =>
    intro j w r _ _ _ _ hr _ _
    have : ¬ r ≤ 0 := by omega
    simp [Xyh_Jsm.ticks, this]
  | succ n ih =>
    intro j w r hA hbp hexp hcur hr1 hr2 hp
    obtain ⟨h1, h2, h3, h4, -, h5, h6⟩ := Jsm_ticktock_step j w A label E hA hbp hexp hcur
    simp only [Xyh_Jsm.ticks]
    generalize j.ticktock w false = res at h1 h2 h3 h4 h5 h6
    obtain ⟨j1, w1, o⟩ := res
    simp only at h1 h2 h3 h4 h5 h6
    subst h1
    simp only
    rw [hp] at h5 h6
    have hA1 : A ∈ j1.m_mapStatus.map Prod.snd := by rw [h2]; exact hA
    have hexp1 : (w1.event E).expired = false := by rw [h4]; exact hexp
    have hcur1 : (w1.event E).m_curStatus = some A := by rw [h4]; exact hcur
    by_cases hr : r = 1
    · subst hr
      simp only [Nat.add_sub_cancel, List.filter_cons, List.filter_nil, beq_self_eq_true,
        Bool.not_true, Bool.false_eq_true, if_false, if_true, List.length_singleton] at h5 h6
      obtain ⟨g1, g2⟩ := ticks_done n A label E j1 w1 hA1 h3 hexp1 hcur1 h5
      refine ⟨g1, ?_⟩
      rw [g2, h6]
      simp
    · have hne : ¬ (j.m_ticktock + r - 1) % UINT_MODULUS = j.m_ticktock % UINT_MODULUS := by
        unfold UINT_MODULUS at hr2 ⊢
        omega
      have hb : ((j.m_ticktock + r - 1) % UINT_MODULUS == j.m_ticktock % UINT_MODULUS) = false := by
        simpa using hne
      simp only [List.filter_cons, List.filter_nil, hb, Bool.not_false, if_true,
        Bool.false_eq_true, if_false, List.length_nil, Nat.add_zero] at h5 h6
      have hk : (j.m_ticktock + r - 1) % UINT_MODULUS =
          (j1.m_ticktock + (r - 1) - 1) % UINT_MODULUS := by
        rw [h2]
        simp only
        unfold UINT_MODULUS ULL_MODULUS
        omega
      rw [hk] at h5
      obtain ⟨g1, g2⟩ := ih j1 w1 (r - 1) hA1 h3 hexp1 hcur1 (by omega) (by omega) h5
      refine ⟨g1, ?_⟩
      rw [g2, h6]
      by_cases hn : r ≤ n + 1
      · have : r - 1 ≤ n := by omega
        simp [hn, this]
      · have : ¬ r - 1 ≤ n := by omega
        simp [hn, this]

theorem ticks_clock (n : Nat) (A : StatusRef) (label : Nat) (E : EventRef) :
    ∀ (j : Xyh_Jsm) (w : World), A ∈ j.m_mapStatus.map Prod.snd → j.bucketsPlaced w →
      (w.event E).expired = false → (w.event E).m_curStatus = some A →
      j.m_ticktock < ULL_MODULUS →
      ((j.ticks (n + 1) w).2.1.status A).m_ticktock = (j.m_ticktock + n) % ULL_MODULUS := by
  induction n with
  | zero =>
    intro j w hA hbp hexp hcur hlt
    obtain ⟨h1, h2, h3, h4, hc, -, -⟩ := Jsm_ticktock_step j w A label E hA hbp hexp hcur
    simp only [Xyh_Jsm.ticks]
    generalize j.ticktock w false = res at h1 h2 h3 h4 hc
    obtain ⟨j1, w1, o⟩ := res
    simp only at h1 h2 h3 h4 hc
    subst h1
    simp only [hc, Nat.add_zero]
    exact (Nat.mod_eq_of_lt hlt).symm
  | succ n ih =>
    intro j w hA hbp hexp hcur hlt
    obtain ⟨h1, h2, h3, h4, hc, -, -⟩ := Jsm_ticktock_step j w A label E hA hbp hexp hcur
    rw [Xyh_Jsm.ticks]
    generalize j.ticktock w false = res at h1 h2 h3 h4 hc
    obtain ⟨j1, w1, o⟩ := res
    simp only at h1 h2 h3 h4 hc
    subst h1
    simp only
    rw [ih j1 w1 (by rw [h2]; exact hA) h3 (by rw [h4]; exact hexp) (by rw [h4]; exact hcur)
      (by rw [h2]; simp only; exact Nat.mod_lt _ (by decide))]
    rw [h2]
    simp only
    unfold ULL_MODULUS
    omega

/-! ## Entry into a status -/

theorem StdMultimap.insert_perm {β : Type} (b : List (Nat × β)) (k : Nat) (v : β) :
    (StdMultimap.insert b k v).Perm ((k, v) :: b) := by
  induction b with
  | nil => simp [StdMultimap.insert]
  | cons p rest ih =>
    obtain ⟨a, x⟩ := p
    unfold StdMultimap.insert
    by_cases h : k < a
    · simp [h]
    · simp only [h, if_false]
      exact (List.Perm.cons _ ih).trans (List.Perm.swap _ _ _)

theorem addEvent_bucket_perm (tmpls : List (Nat × Nat)) (t : Nat) (E : EventRef) :
    ∀ b : List (Nat × InStore),
      (tmpls.foldl (fun m v => StdMultimap.insert m (timerKey t v.2) (InStore.mk v.1 E)) b).Perm
        (tmpls.map (fun v => (timerKey t v.2, InStore.mk v.1 E)) ++ b) := by
  induction tmpls with
  | nil => intro b; simp
  | cons v rest ih =>
    intro b
    simp only [List.foldl_cons, List.map_cons, List.cons_append]
    refine (ih _).trans ?_
    refine (List.Perm.append_left _ (StdMultimap.insert_perm b _ _)).trans ?_
    exact List.perm_middle

theorem pending_perm (b b' : List (Nat × InStore)) (label : Nat) (E : EventRef)
    (h : b.Perm b') : (pending b label E).Perm (pending b' label E) :=
  (h.filter _).map _

theorem pending_templates (tmpls : List (Nat × Nat)) (t label : Nat) (E : EventRef) :
    pending (tmpls.map (fun v => (timerKey t v.2, InStore.mk v.1 E))) label E =
      (tmpls.filter (fun v => v.1 == label)).map (fun v => timerKey t v.2) := by
  induction tmpls with
  | nil => rfl
  | cons v rest ih =>
    simp only [pending] at ih ⊢
    by_cases h : v.1 = label
    · simp [List.filter_cons, h, ih]
    · simp [List.filter_cons, h, ih]

theorem pending_append (b b' : List (Nat × InStore)) (label : Nat) (E : EventRef) :
    pending (b ++ b') label E = pending b label E ++ pending b' label E := by
  simp [pending]

theorem pending_addEvent (st : Xyh_Status) (label delay : Nat) (E : EventRef)
    (htmpl : st.m_regularEvt.filter (fun v => v.1 == label) = [(label, delay)])
    (hstale : pending st.m_mapTEvent label E = []) :
    pending (st.addEvent E).m_mapTEvent label E = [timerKey st.m_ticktock delay] := by
  have h := pending_perm _ _ label E
    (addEvent_bucket_perm st.m_regularEvt st.m_ticktock E st.m_mapTEvent)
  rw [pending_append, pending_templates, htmpl, hstale] at h
  simpa [Xyh_Status.addEvent] using h

theorem enter_alive (w : World) (E : EventRef) (A : StatusRef) (sig msg : Nat)
    (hlive : ((Xyh_Event.enter w E (some A) sig msg).1.event E).expired = false) :
    (Xyh_Event.enter w E (some A) sig msg).1.status A = (w.status A).addEvent E := by
  revert hlive
  simp only [Xyh_Event.enter]
  split
  · simp [World.setEvent, World.call, Xyh_Event.expired]
  · intro _
    simp [World.setEvent, World.setStatus, World.call]

theorem entry_pending (w0 w1 : World) (E : EventRef) (A : StatusRef)
    (label delay sig msg : Nat)
    (htmpl : (w0.status A).m_regularEvt.filter (fun v => v.1 == label) = [(label, delay)])
    (hstale : pending (w0.status A).m_mapTEvent label E = [])
    (hentry : Xyh_Event.place w0 E (some A) sig msg = (w1, Outcome.ok) ∨
      Xyh_Event.move w0 E (some A) sig msg = (w1, Outcome.ok))
    (hlive : (w1.event E).expired = false) :
    (w1.event E).m_curStatus = some A ∧
    pending (w1.status A).m_mapTEvent label E = [timerKey (w0.status A).m_ticktock delay] := by
  rcases hentry with h | h
  · unfold Xyh_Event.place at h
    split at h
    · simp at h
    · split at h
      · simp at h
      · have h1 : w1 = (Xyh_Event.enter w0 E (some A) sig msg).1 := by rw [h]
        subst h1
        refine ⟨enter_curStatus _ _ _ _ _, ?_⟩
        rw [enter_alive w0 E A sig msg hlive]
        exact pending_addEvent _ _ _ _ htmpl hstale
  · have hst : ∀ w' : World, (w'.status A).m_regularEvt = (w0.status A).m_regularEvt →
        (w'.status A).m_mapTEvent = (w0.status A).m_mapTEvent →
        (w'.status A).m_ticktock = (w0.status A).m_ticktock →
        Xyh_Event.enter w' E (some A) sig msg = (w1, Outcome.ok) →
        (w1.event E).m_curStatus = some A ∧
        pending (w1.status A).m_mapTEvent label E =
          [timerKey (w0.status A).m_ticktock delay] := by
      intro w' e1 e2 e3 he
      have h1 : w1 = (Xyh_Event.enter w' E (some A) sig msg).1 := by rw [he]
      subst h1
      refine ⟨enter_curStatus _ _ _ _ _, ?_⟩
      rw [enter_alive _ E A sig msg hlive, ← e3]
      exact pending_addEvent _ _ _ _ (by rw [e1]; exact htmpl) (by rw [e2]; exact hstale)
    by_cases hx : (w0.event E).expired = true
    · simp only [Xyh_Event.move, hx, if_true] at h
      have h1 : w1 = w0 := by simpa using h.symm
      subst h1
      rw [hx] at hlive
      simp at hlive
    · cases hc : (w0.event E).m_curStatus with
      | none =>
        simp only [Xyh_Event.move, hx, hc, if_false, Bool.false_eq_true] at h
        exact hst w0 rfl rfl rfl h
      | some cur =>
        simp only [Xyh_Event.move, hx, hc, if_false, Bool.false_eq_true] at h
        by_cases hA : A = cur
        · subst hA
          exact hst _ (by simp [Xyh_Status.removeEvent, World.setStatus])
            (by simp [Xyh_Status.removeEvent, World.setStatus])
            (by simp [Xyh_Status.removeEvent, World.setStatus]) h
        · exact hst _ (by simp [Xyh_Status.removeEvent, World.setStatus, Function.update, hA])
            (by simp [Xyh_Status.removeEvent, World.setStatus, Function.update, hA])
            (by simp [Xyh_Status.removeEvent, World.setStatus, Function.update, hA]) h

/-! ## Scheduled timeouts -/

/-- C7 as stated fails. A marked event placed in a fade status that has the
scheduled timeout (7, 3) has that status as its current status and enter time 0,
yet `timerRoutine(7, event)` is never called while the ticks 0 to 3 run; and in a
status with the scheduled timeouts (7, 1) and (7, 3) it is called at tick 1 already
and again at tick 3. -/
theorem timeout_not_always_once :
    ((fadeTimerWorld.event 5).m_curStatus = some 0 ∧
      (fadeTimerWorld.event 5).m_enterTime = 0 ∧
      (timerJsm0.ticks 4 fadeTimerWorld).2.2 = Outcome.ok ∧
      (timerJsm0.ticks 4 fadeTimerWorld).2.1.calls.count (Call.timerRoutine 0 7 5) = 0) ∧
    ((twinTimerWorld.event 5).m_curStatus = some 0 ∧
      (twinTimerWorld.event 5).m_enterTime = 0 ∧
      (timerJsm0.ticks 2 twinTimerWorld).2.1.calls.count (Call.timerRoutine 0 7 5) = 1 ∧
      (timerJsm0.ticks 4 twinTimerWorld).2.1.calls.count (Call.timerRoutine 0 7 5) = 2) := by
  decide

/-- The case of a counter that stands at `t + 1` with nothing but ticks running:
status `A` is registered and has exactly one scheduled timeout with the label,
`(label, delay)` with `1 ≤ delay < 2^32`; its bucket holds no entry for
`(label, E)`; `E` enters `A` at the snapshot `t` of `A` and is not recycled by the
entry. Then every tick returns normally, after `n ≥ 1` ticks the snapshot of `A` is
`t + n` (modulo 2^64), and the first `n` ticks call `timerRoutine(label, E)` of `A`
0 times while `n < delay` and once from `n = delay` on. -/
theorem ticks_fire_once (j : Xyh_Jsm) (w0 w1 : World) (E : EventRef) (A : StatusRef)
    (label delay sig msg : Nat)
    (hreg : A ∈ j.m_mapStatus.map Prod.snd)
    (hclock : j.m_ticktock = ((w0.status A).m_ticktock + 1) % ULL_MODULUS)
    (htmpl : (w0.status A).m_regularEvt.filter (fun v => v.1 == label) = [(label, delay)])
    (hd1 : 1 ≤ delay) (hd2 : delay < UINT_MODULUS)
    (hstale : pending (w0.status A).m_mapTEvent label E = [])
    (hentry : Xyh_Event.place w0 E (some A) sig msg = (w1, Outcome.ok) ∨
      Xyh_Event.move w0 E (some A) sig msg = (w1, Outcome.ok))
    (hlive : (w1.event E).expired = false)
    (hsafe : j.bucketsPlaced w1) (n : Nat) :
    (j.ticks n w1).2.2 = Outcome.ok ∧
    (j.ticks n w1).2.1.calls.count (Call.timerRoutine A label E) =
      w1.calls.count (Call.timerRoutine A label E) + (if delay ≤ n then 1 else 0) ∧
    (1 ≤ n → ((j.ticks n w1).2.1.status A).m_ticktock =
      ((w0.status A).m_ticktock + n) % ULL_MODULUS) := by
  obtain ⟨hcur, hpend⟩ := entry_pending w0 w1 E A label delay sig msg htmpl hstale hentry hlive
  have hkey : timerKey (w0.status A).m_ticktock delay =
      (j.m_ticktock + delay - 1) % UINT_MODULUS := by
    rw [hclock]
    unfold timerKey UINT_MODULUS ULL_MODULUS
    omega
  rw [hkey] at hpend
  obtain ⟨h1, h2⟩ := ticks_pending n A label E j w1 delay hreg hsafe hlive hcur hd1 hd2 hpend
  refine ⟨h1, h2, ?_⟩
  intro hn
  obtain ⟨m, rfl⟩ : ∃ m, n = m + 1 := ⟨n - 1, by omega⟩
  rw [ticks_clock m A label E j w1 hreg hsafe hlive hcur
    (by rw [hclock]; exact Nat.mod_lt _ (by decide)), hclock]
  unfold ULL_MODULUS
  omega

/-! ## Ticks over any pending entries; re-entry by `process` -/

theorem dueWithin_succ (T0 n k : Nat) :
    dueWithin T0 (n + 1) k = (T0 % UINT_MODULUS == k || dueWithin (T0 + 1) n k) := by
  simp only [dueWithin, List.range_succ_eq_map, List.any_cons, List.any_map, Nat.add_zero]
  congr 1
  congr 1
  funext i
  simp only [Function.comp, Nat.succ_eq_add_one]
  congr 2
  omega

theorem dueWithin_mod (T0 n k : Nat) :
    dueWithin (T0 % ULL_MODULUS) n k = dueWithin T0 n k := by
  simp only [dueWithin]
  congr 1
  funext i
  congr 1
  unfold UINT_MODULUS ULL_MODULUS
  omega

theorem dueWithin_eq (T0 n d : Nat) (hd : d < UINT_MODULUS) :
    dueWithin T0 n ((T0 + d) % UINT_MODULUS) = decide (d < n) := by
  by_cases h : d < n
  · simp only [h, decide_True]
    simp only [dueWithin, List.any_eq_true, List.mem_range]
    exact ⟨d, h, by simp⟩
  · simp only [h, decide_False]
    rw [Bool.eq_false_iff]
    intro hc
    simp only [dueWithin, List.any_eq_true, List.mem_range] at hc
    obtain ⟨i, hi, he⟩ := hc
    have he' : (T0 + i) % UINT_MODULUS = (T0 + d) % UINT_MODULUS := by simpa using he
    unfold UINT_MODULUS at he' hd
    omega

theorem filter_split_length {α : Type} (p q : α → Bool) (l : List α) :
    (l.filter p).length + ((l.filter (fun x => !(p x))).filter q).length =
      (l.filter (fun x => p x || q x)).length := by
  induction l with
  | nil => rfl
  | cons a rest ih =>
    by_cases hp : p a = true
    · simp [List.filter_cons, hp] at ih ⊢
      omega
    · by_cases hq : q a = true
      · simp [List.filter_cons, hp, hq] at ih ⊢
        omega
      · simp [List.filter_cons, hp, hq] at ih ⊢
        omega

/-- With nothing but ticks running, the number of `timerRoutine(label, E)` calls of
the status `A` in which `E` lives, made by `n` ticks, is the number of pending
entries for `(label, E)` whose key is the key of one of these ticks. -/
theorem ticks_count (n : Nat) (A : StatusRef) (label : Nat) (E : EventRef) :
    ∀ (j : Xyh_Jsm) (w : World), A ∈ j.m_mapStatus.map Prod.snd → j.bucketsPlaced w →
      (w.event E).expired = false → (w.event E).m_curStatus = some A →
      (j.ticks n w).2.2 = Outcome.ok ∧
      (j.ticks n w).2.1.calls.count (Call.timerRoutine A label E) =
        w.calls.count (Call.timerRoutine A label E) +
        ((pending (w.status A).m_mapTEvent label E).filter
          (fun k => dueWithin j.m_ticktock n k)).length := by
  induction n with
  | zero => intro j w _ _ _ _; simp [Xyh_Jsm.ticks, dueWithin]
  | succ n ih =>
    intro j w hA hbp hexp hcur
    obtain ⟨h1, h2, h3, h4, -, h5, h6⟩ := Jsm_ticktock_step j w A label E hA hbp hexp hcur
    simp only [Xyh_Jsm.ticks]
    generalize j.ticktock w false = res at h1 h2 h3 h4 h5 h6
    obtain ⟨j1, w1, o⟩ := res
    simp only at h1 h2 h3 h4 h5 h6
    subst h1
    simp only
    obtain ⟨g1, g2⟩ := ih j1 w1 (by rw [h2]; exact hA) h3 (by rw [h4]; exact hexp)
      (by rw [h4]; exact hcur)
    refine ⟨g1, ?_⟩
    rw [g2, h6, h5, h2]
    simp only [dueWithin_mod, dueWithin_succ]
    rw [Nat.add_assoc, filter_split_length]
    have hc : ∀ x : Nat, (x == j.m_ticktock % UINT_MODULUS) =
        (j.m_ticktock % UINT_MODULUS == x) := by
      intro x
      by_cases hx : x = j.m_ticktock % UINT_MODULUS
      · rw [hx]
      · have hx' : ¬ j.m_ticktock % UINT_MODULUS = x := fun e => hx e.symm
        rw [beq_eq_false_iff_ne.2 hx, beq_eq_false_iff_ne.2 hx']
    simp only [hc]

theorem pending_addEvent_perm (st : Xyh_Status) (label : Nat) (E : EventRef) :
    (pending (st.addEvent E).m_mapTEvent label E).Perm
      ((st.m_regularEvt.filter (fun v => v.1 == label)).map
          (fun v => timerKey st.m_ticktock v.2) ++ pending st.m_mapTEvent label E) := by
  have h := pending_perm _ _ label E
    (addEvent_bucket_perm st.m_regularEvt st.m_ticktock E st.m_mapTEvent)
  rw [pending_append, pending_templates] at h
  simpa [Xyh_Status.addEvent] using h

/-- C4, what the code does. Event `E`, registered and not recycled, lives in the
registered status `A`, whose only scheduled timeout with the label is
`(label, delay)`; the entry of its first stay, filed at enter time `t0`, is still
pending at the snapshot `t1` of `A`, `t0 ≤ t1 < t0 + delay`, and the signal is routed to `A`
itself. `process(eid, sig, msg)` then returns normally and sets the enter time to
`t1`, and with nothing but ticks running afterwards `timerRoutine(label, E)` has
been called once as soon as the ticks reach `t0 + delay`, the due tick of the first
stay, and a second time once they reach `t1 + delay`: the old timeout is not
cancelled. -/
theorem process_rearm_keeps_old_timeout (j : Xyh_Jsm) (w : World) (eid : Nat) (E : EventRef)
    (A : StatusRef) (label delay sig msg t0 : Nat)
    (hreg : A ∈ j.m_mapStatus.map Prod.snd)
    (hev : j.findEvent eid = some E)
    (hexp : (w.event E).expired = false)
    (hcur : (w.event E).m_curStatus = some A)
    (hnf : (w.event E).marked = false ∨ (w.status A).m_fade = false)
    (hroute : (w.status A).route A sig = some A)
    (htmpl : (w.status A).m_regularEvt.filter (fun v => v.1 == label) = [(label, delay)])
    (hd1 : 1 ≤ delay) (hd2 : delay < UINT_MODULUS)
    (hold : pending (w.status A).m_mapTEvent label E = [timerKey t0 delay])
    (ht0 : t0 ≤ (w.status A).m_ticktock) (ht : (w.status A).m_ticktock < t0 + delay)
    (hclock : j.m_ticktock = ((w.status A).m_ticktock + 1) % ULL_MODULUS)
    (hsafe : j.bucketsPlaced (j.process w eid sig msg).1) (n : Nat) :
    (j.process w eid sig msg).2 = Outcome.ok ∧
    ((j.process w eid sig msg).1.event E).m_enterTime = (w.status A).m_ticktock ∧
    (j.ticks n (j.process w eid sig msg).1).2.2 = Outcome.ok ∧
    (j.ticks n (j.process w eid sig msg).1).2.1.calls.count (Call.timerRoutine A label E) =
      w.calls.count (Call.timerRoutine A label E) +
        (if t0 + delay ≤ (w.status A).m_ticktock + n then 1 else 0) +
        (if delay ≤ n then 1 else 0) := by
  have hp : j.process w eid sig msg = Xyh_Event.move w E (some A) sig msg := by
    simp [Xyh_Jsm.process, hev, hexp, hcur, hroute]
  have hm : Xyh_Event.move w E (some A) sig msg =
      Xyh_Event.enter (Xyh_Status.removeEvent w A E) E (some A) sig msg := by
    simp [Xyh_Event.move, hexp, hcur]
  have hnr : ¬ (((w.event E).marked && (w.status A).m_fade) = true) := by
    rcases hnf with h | h <;> simp [h]
  have hlive : ((j.process w eid sig msg).1.event E).expired = false := by
    rw [hp, hm]
    simp only [Xyh_Event.enter]
    have hx : (w.event E).m_stt ≠ STT_RECYCLE := by
      simpa [Xyh_Event.expired] using hexp
    simp [World.setEvent, World.setStatus, World.call, Xyh_Status.removeEvent,
      Xyh_Event.marked, Xyh_Event.expired, hx] at hnr ⊢
    split <;> simp_all
  have hcur' : ((j.process w eid sig msg).1.event E).m_curStatus = some A := by
    rw [hp, hm]; exact enter_curStatus _ _ _ _ _
  have hst : (j.process w eid sig msg).1.status A =
      ((Xyh_Status.removeEvent w A E).status A).addEvent E := by
    have h := hlive
    rw [hp, hm] at h ⊢
    exact enter_alive _ E A sig msg h
  have hcalls : (j.process w eid sig msg).1.calls.count (Call.timerRoutine A label E) =
      w.calls.count (Call.timerRoutine A label E) := by
    rw [hp, hm]
    simp only [Xyh_Event.enter]
    split <;> simp [World.setEvent, World.setStatus, World.call, Xyh_Status.removeEvent,
      List.count_append]
  have hperm : (pending ((j.process w eid sig msg).1.status A).m_mapTEvent label E).Perm
      [timerKey (w.status A).m_ticktock delay, timerKey t0 delay] := by
    rw [hst]
    have h := pending_addEvent_perm ((Xyh_Status.removeEvent w A E).status A) label E
    simpa [Xyh_Status.removeEvent, World.setStatus, htmpl, hold] using h
  obtain ⟨g1, g2⟩ := ticks_count n A label E j (j.process w eid sig msg).1 hreg hsafe hlive hcur'
  refine ⟨by rw [hp]; exact move_outcome _ _ _ _ _, ?_, g1, ?_⟩
  · rw [hp, hm]
    simp only [Xyh_Event.enter]
    split <;> simp [World.setEvent, World.setStatus, World.call, Xyh_Status.removeEvent]
  · rw [g2, hcalls, ((hperm.filter _).length_eq), hclock, Nat.add_assoc]
    congr 1
    have hk1 : timerKey (w.status A).m_ticktock delay =
        ((w.status A).m_ticktock + 1 + (delay - 1)) % UINT_MODULUS := by
      unfold timerKey UINT_MODULUS ULL_MODULUS
      omega
    have hk0 : timerKey t0 delay =
        ((w.status A).m_ticktock + 1 + (t0 + delay - (w.status A).m_ticktock - 1))
          % UINT_MODULUS := by
      unfold timerKey UINT_MODULUS ULL_MODULUS
      omega
    have e1 := dueWithin_eq ((w.status A).m_ticktock + 1) n (delay - 1) (by omega)
    have e0 := dueWithin_eq ((w.status A).m_ticktock + 1) n
      (t0 + delay - (w.status A).m_ticktock - 1) (by omega)
    rw [← hk1] at e1
    rw [← hk0] at e0
    simp only [List.filter_cons, List.filter_nil, dueWithin_mod, e1, e0, decide_eq_true_eq]
    by_cases c1 : delay - 1 < n <;>
      by_cases c0 : t0 + delay - (w.status A).m_ticktock - 1 < n
    · have a1 : delay ≤ n := by omega
      have a0 : t0 + delay ≤ (w.status A).m_ticktock + n := by omega
      simp [c1, c0, a1, a0]
    · have a1 : delay ≤ n := by omega
      have a0 : ¬ t0 + delay ≤ (w.status A).m_ticktock + n := by omega
      simp [c1, c0, a1, a0]
    · have a1 : ¬ delay ≤ n := by omega
      have a0 : t0 + delay ≤ (w.status A).m_ticktock + n := by omega
      simp [c1, c0, a1, a0]
    · have a1 : ¬ delay ≤ n := by omega
      have a0 : ¬ t0 + delay ≤ (w.status A).m_ticktock + n := by omega
      simp [c1, c0, a1, a0]

/-- C4, at the failing input: event 5 entered status 0 at tick 10 (timeout (7, 3),
due at 13) and is moved into status 0 again by `process(5, 1, 0)` at tick 11. The
bucket then holds the old entry next to the fresh one; tick 12 calls nothing, tick
13 calls `timerRoutine(7, event)` for the old entry, tick 14 calls it again. -/
theorem process_rearm_keeps_old_timeout_witness :
    (rearmPlaced.2.1.event 5).m_enterTime = 10 ∧
    (rearmDriven.event 5).m_enterTime = 11 ∧
    (rearmDriven.status 0).m_mapTEvent = [(13, InStore.mk 7 5), (14, InStore.mk 7 5)] ∧
    (rearmPlaced.1.ticks 1 rearmDriven).2.1.calls.count (Call.timerRoutine 0 7 5) = 0 ∧
    ((rearmPlaced.1.ticks 2 rearmDriven).2.1.status 0).m_ticktock = 13 ∧
    (rearmPlaced.1.ticks 2 rearmDriven).2.1.calls.count (Call.timerRoutine 0 7 5) = 1 ∧
    ((rearmPlaced.1.ticks 3 rearmDriven).2.1.status 0).m_ticktock = 14 ∧
    (rearmPlaced.1.ticks 3 rearmDriven).2.1.calls.count (Call.timerRoutine 0 7 5) = 2 :=
  ⟨by decide, by decide, by decide, by decide, by decide,
   Eq.trans
    (process_rearm_keeps_old_timeout rearmPlaced.1 rearmPlaced.2.1 5 5 0 7 3 1 0 10
      (by decide) (by decide) (by decide) (by decide) (Or.inl (by decide)) (by decide)
      (by decide) (by decide) (by decide) (by decide) (by decide) (by decide) (by decide)
      (by decide) 2).2.2.2 (by decide),
   by decide,
   Eq.trans
    (process_rearm_keeps_old_timeout rearmPlaced.1 rearmPlaced.2.1 5 5 0 7 3 1 0 10
      (by decide) (by decide) (by decide) (by decide) (Or.inl (by decide)) (by decide)
      (by decide) (by decide) (by decide) (by decide) (by decide) (by decide) (by decide)
      (by decide) 3).2.2.2 (by decide)⟩

/-! ## Registries -/

theorem StdMap.find_erase_self {β : Type} (m : List (Nat × β)) (k : Nat) :
    StdMap.find (StdMap.erase m k) k = none := by
  induction m with
  | nil => rfl
  | cons p rest ih =>
    obtain ⟨a, b⟩ := p
    simp only [StdMap.erase] at ih ⊢
    by_cases h : a = k
    · simp [List.filter_cons, h, ih]
    · simp [List.filter_cons, h, StdMap.find, ih]

theorem StdMap.find_erase_other {β : Type} (m : List (Nat × β)) (k k' : Nat) (h : k' ≠ k) :
    StdMap.find (StdMap.erase m k) k' = StdMap.find m k' := by
  induction m with
  | nil => rfl
  | cons p rest ih =>
    obtain ⟨a, b⟩ := p
    simp only [StdMap.erase] at ih ⊢
    by_cases h1 : a = k
    · subst h1
      have h2 : ¬ a = k' := fun e => h e.symm
      simp [List.filter_cons, StdMap.find, ih, h2]
    · by_cases h2 : a = k'
      · subst h2
        simp [List.filter_cons, h1, StdMap.find]
      · simp [List.filter_cons, h1, StdMap.find, h2, ih]

theorem StdMap.erase_of_find_none {β : Type} (m : List (Nat × β)) (k : Nat)
    (h : StdMap.find m k = none) : StdMap.erase m k = m := by
  induction m with
  | nil => rfl
  | cons p rest ih =>
    obtain ⟨a, b⟩ := p
    by_cases h1 : a = k
    · simp [StdMap.find, h1] at h
    · simp only [StdMap.find, h1, if_false] at h
      simp only [StdMap.erase] at ih ⊢
      simp [List.filter_cons, h1, ih h]

/-- C11 as stated fails: event 5 of the fade scenario, registered and active in
status 0, is released; afterwards it is gone from the registry but it is marked,
not recycled. -/
theorem release_not_recycled :
    fadeJsm.findEvent 5 = some 5 ∧
    ((Xyh_Event.place fadeWorld0 5 (some 0) 0 0).1.event 5).m_stt = STT_SURVIVE ∧
    (fadeJsm.relEvent (Xyh_Event.place fadeWorld0 5 (some 0) 0 0).1 5).1.findEvent 5 = none ∧
    ((fadeJsm.relEvent (Xyh_Event.place fadeWorld0 5 (some 0) 0 0).1 5).2.event 5).expired
      = false ∧
    ((fadeJsm.relEvent (Xyh_Event.place fadeWorld0 5 (some 0) 0 0).1 5).2.event 5).marked
      = true := by
  decide

/-- C11 amended. `relEvent(id)` on a registered event calls `expire()` on it, so the
event is marked (and not recycled) afterwards and nothing else in the world
changes; the id is erased from the event registry, so `findEvent(id)` gives the
null pointer and every other id is found as before; on an id that is not registered
neither the machine nor the world changes. -/
theorem relEvent_marks_and_unregisters (j : Xyh_Jsm) (w : World) (id : Nat) :
    (∀ E : EventRef, j.findEvent id = some E →
      (j.relEvent w id).2 = w.setEvent E { w.event E with m_stt := STT_BEMARKED } ∧
      ((j.relEvent w id).2.event E).marked = true ∧
      ((j.relEvent w id).2.event E).expired = false) ∧
    (j.relEvent w id).1.findEvent id = none ∧
    (∀ id' : Nat, id' ≠ id → (j.relEvent w id).1.findEvent id' = j.findEvent id') ∧
    (j.relEvent w id).1.m_mapStatus = j.m_mapStatus ∧
    (j.relEvent w id).1.m_ticktock = j.m_ticktock ∧
    (j.findEvent id = none → j.relEvent w id = (j, w)) := by
  refine ⟨?_, ?_, ?_, rfl, rfl, ?_⟩
  · intro E h
    have h1 : StdMap.find j.m_mapEvent id = some E := h
    simp [Xyh_Jsm.relEvent, h1, World.setEvent, Xyh_Event.expire, Xyh_Event.marked,
      Xyh_Event.expired, STT_BEMARKED, STT_RECYCLE]
  · simp [Xyh_Jsm.relEvent, Xyh_Jsm.findEvent, StdMap.find_erase_self]
  · intro id' h
    simp [Xyh_Jsm.relEvent, Xyh_Jsm.findEvent, StdMap.find_erase_other _ _ _ h]
  · intro h
    have h1 : StdMap.find j.m_mapEvent id = none := h
    simp [Xyh_Jsm.relEvent, h1, StdMap.erase_of_find_none _ _ h1]

/-- C11 amended, at the fade scenario: event 5 is released, id 6 is not registered. -/
theorem relEvent_marks_and_unregisters_witness :
    ((fadeJsm.relEvent fadeWorld0 5).2.event 5).marked = true ∧
    fadeJsm.relEvent fadeWorld0 6 = (fadeJsm, fadeWorld0) :=
  ⟨((relEvent_marks_and_unregisters fadeJsm fadeWorld0 5).1 5 (by decide)).2.1,
   (relEvent_marks_and_unregisters fadeJsm fadeWorld0 6).2.2.2.2.2 (by decide)⟩

/-- C13, what the code does: `addStatus` inserts without replacing, so registering
a second status under an id that is taken changes nothing; if the id was free
before, `findStatus(id)` gives the status registered first. In a new machine
`findStatus` gives the null pointer for every id. -/
theorem addStatus_first_write_wins (j : Xyh_Jsm) (w : World) (s1 s2 : StatusRef) (id : Nat) :
    ((w.status s1).m_Id = (w.status s2).m_Id →
      (((j.addStatus w (some s1)).1.addStatus w (some s2)).1 = (j.addStatus w (some s1)).1 ∧
       (j.findStatus (w.status s1).m_Id = none →
        ((j.addStatus w (some s1)).1.addStatus w (some s2)).1.findStatus (w.status s2).m_Id
          = some s1))) ∧
    Xyh_Jsm.new.findStatus id = none := by
  refine ⟨?_, rfl⟩
  intro h
  constructor
  · simp [Xyh_Jsm.addStatus, ← h, StdMap.insert_insert]
  · intro hf
    have hf1 : StdMap.find j.m_mapStatus (w.status s1).m_Id = none := hf
    simp [Xyh_Jsm.addStatus, Xyh_Jsm.findStatus, ← h, StdMap.insert_insert,
      StdMap.find_insert_of_none _ _ _ hf1]

/-- C13, at a concrete input: statuses 0 and 3 of the self-loop scenario both carry
the id 0; after `addStatus(0); addStatus(3)` on a new machine `findStatus(0)` is
status 0. -/
theorem addStatus_first_write_wins_witness :
    ((Xyh_Jsm.new.addStatus loopWorld (some 0)).1.addStatus loopWorld (some 3)).1.findStatus 0
      = some 0 :=
  ((addStatus_first_write_wins Xyh_Jsm.new loopWorld 0 3 0).1 (by decide)).2 (by decide)

/-! ## Digestion and process -/

/-- C17. When the event is not registered, or is recycled, or its current status
has no route for the signal, or routes it to a status of another id, `digestion`
and `process(eid, sig, msg)` return the same world (objects, callback log, printed
lines) and end in the same way. -/
theorem digestion_eq_process (j : Xyh_Jsm) (w : World) (eid sig msg : Nat)
    (h : ∀ (E : EventRef) (cS nS : StatusRef), j.findEvent eid = some E →
      (w.event E).expired = false → (w.event E).m_curStatus = some cS →
      (w.status cS).route cS sig = some nS → (w.status cS).m_Id ≠ (w.status nS).m_Id) :
    j.digestion w eid sig msg = j.process w eid sig msg := by
  unfold Xyh_Jsm.digestion Xyh_Jsm.process
  cases hf : j.findEvent eid with
  | none => rfl
  | some E =>
    by_cases hx : (w.event E).expired = true
    · simp [hx]
    · cases hc : (w.event E).m_curStatus with
      | none => simp [hx, hc]
      | some cS =>
        cases hr : (w.status cS).route cS sig with
        | none => simp [hx, hc, hr]
        | some nS =>
          have hid := h E cS nS hf (by simpa using hx) hc hr
          simp [hx, hc, hr, hid]

/-- C17, at the fade scenario (signal 1 leads from status 0 to status 1), at an
unroutable signal and at an id that is not registered. -/
theorem digestion_eq_process_witness :
    fadeJsm.digestion fadeWorld 5 1 9 = fadeJsm.process fadeWorld 5 1 9 ∧
    fadeJsm.digestion fadeWorld 5 2 9 = fadeJsm.process fadeWorld 5 2 9 ∧
    fadeJsm.digestion fadeWorld 6 1 9 = fadeJsm.process fadeWorld 6 1 9 :=
  ⟨digestion_eq_process fadeJsm fadeWorld 5 1 9 (by
      intro E cS nS hf _ hc hr
      have h5 : fadeJsm.findEvent 5 = some 5 := by decide
      rw [h5] at hf
      cases hf
      have hc0 : (fadeWorld.event 5).m_curStatus = some 0 := by decide
      rw [hc0] at hc
      cases hc
      have hr1 : (fadeWorld.status 0).route 0 1 = some 1 := by decide
      rw [hr1] at hr
      cases hr
      decide),
   digestion_eq_process fadeJsm fadeWorld 5 2 9 (by
      intro E cS nS hf _ hc hr
      have h5 : fadeJsm.findEvent 5 = some 5 := by decide
      rw [h5] at hf
      cases hf
      have hc0 : (fadeWorld.event 5).m_curStatus = some 0 := by decide
      rw [hc0] at hc
      cases hc
      have hr1 : (fadeWorld.status 0).route 0 2 = none := by decide
      rw [hr1] at hr
      cases hr),
   digestion_eq_process fadeJsm fadeWorld 6 1 9 (by
      intro E cS nS hf
      have h6 : fadeJsm.findEvent 6 = none := by decide
      rw [h6] at hf
      cases hf)⟩

/-- C19. `relEvent(id)` leaves every status object as it is (resident lists and
timer buckets included: a released event stays listed and its pending entries stay
filed), makes no callback and prints nothing; `digestion` and
`process(eid, sig, msg)` for that id afterwards throw the unknown-event error and
change nothing. -/
theorem relEvent_touches_no_status (j : Xyh_Jsm) (w : World) (id sig msg : Nat) :
    (j.relEvent w id).2.status = w.status ∧
    (j.relEvent w id).2.calls = w.calls ∧
    (j.relEvent w id).2.cout = w.cout ∧
    (j.relEvent w id).1.digestion (j.relEvent w id).2 id sig msg =
      ((j.relEvent w id).2, Outcome.thrown (LogicError.notFoundEvent id sig)) ∧
    (j.relEvent w id).1.process (j.relEvent w id).2 id sig msg =
      ((j.relEvent w id).2, Outcome.thrown (LogicError.notFoundEvent id sig)) := by
  have hf : (j.relEvent w id).1.findEvent id = none := by
    simp [Xyh_Jsm.relEvent, Xyh_Jsm.findEvent, StdMap.find_erase_self]
  refine ⟨?_, ?_, ?_, ?_, ?_⟩
  · simp only [Xyh_Jsm.relEvent]
    split <;> rfl
  · simp only [Xyh_Jsm.relEvent]
    split <;> rfl
  · simp only [Xyh_Jsm.relEvent]
    split <;> rfl
  · simp only [Xyh_Jsm.digestion, hf]
  · simp only [Xyh_Jsm.process, hf]

/-! ## One tick -/

theorem fire_eq_of_safe (self : StatusRef) (l : List (Nat × InStore)) :
    ∀ w : World,
      (∀ p ∈ l, (w.event p.2._event).expired = false →
        (w.event p.2._event).m_curStatus ≠ none) →
      Xyh_Status.fire self w l =
        ({ w with calls := w.calls ++ Xyh_Status.due w self l }, Outcome.ok) := by
  induction l with
  | nil => intro w _; simp [Xyh_Status.fire, Xyh_Status.due]
  | cons p rest ih =>
    intro w h
    obtain ⟨k, it⟩ := p
    have hr : ∀ p ∈ rest, (w.event p.2._event).expired = false →
        (w.event p.2._event).m_curStatus ≠ none :=
      fun p hp => h p (List.mem_cons_of_mem _ hp)
    unfold Xyh_Status.fire
    by_cases hx : (w.event it._event).expired = true
    · simp only [hx, Bool.not_true, Bool.false_eq_true, if_false]
      rw [ih w hr]
      simp [Xyh_Status.due, Xyh_Status.fires, hx]
    · have hp : (w.event it._event).m_curStatus ≠ none :=
        h (k, it) (List.mem_cons_self _ _) (by simpa using hx)
      cases hc : (w.event it._event).m_curStatus with
      | none => exact absurd hc hp
      | some cur =>
        by_cases hid : (w.status cur).m_Id = (w.status self).m_Id
        · simp only [hx, hid, if_true, Bool.not_eq_true, Bool.not_false]
          rw [ih (w.call _) hr, due_call]
          simp [Xyh_Status.due, Xyh_Status.fires, hx, hc, hid, World.call]
        · simp only [hx, hid, if_true, if_false, Bool.not_eq_true, Bool.not_false]
          rw [ih w hr]
          simp [Xyh_Status.due, Xyh_Status.fires, hx, hc, hid]

/-- C15. `Xyh_Status::ticktock(T)` without error code, on a status whose entries
under the key of `T` (the 32-bit bucket key `T mod 2^32`) name no live event
without a current status: it returns normally; the world it leaves is the old one
with the snapshot of this status set to `T`, every entry under that key erased
from its bucket (the entries under every other key stay, in order), and one
`timerRoutine(label, event)` call appended per entry under that key, in bucket
order, whose event is not recycled and has a current status carrying the id of
this status; the other entries under the key are erased without a call. -/
theorem Status_ticktock_spec (w : World) (self : StatusRef) (T : Nat)
    (h : ∀ p ∈ StdMultimap.equal_range (w.status self).m_mapTEvent (T % UINT_MODULUS),
      (w.event p.2._event).expired = false → (w.event p.2._event).m_curStatus ≠ none) :
    Xyh_Status.ticktock w self T false =
      ({ w with
          status := Function.update w.status self
            { w.status self with
              m_ticktock := T
              m_mapTEvent := (w.status self).m_mapTEvent.filter
                (fun p => !(p.1 == T % UINT_MODULUS)) }
          calls := w.calls ++
            (((w.status self).m_mapTEvent.filter (fun p => p.1 == T % UINT_MODULUS)).filter
              (fun p => Xyh_Status.fires w self p.2)).map
              (fun p => Call.timerRoutine self p.2._tabel p.2._event) },
        Outcome.ok) ∧
    (∀ it : InStore, Xyh_Status.fires w self it = true ↔
      ((w.event it._event).expired = false ∧
        ∃ cur : StatusRef, (w.event it._event).m_curStatus = some cur ∧
          (w.status cur).m_Id = (w.status self).m_Id)) ∧
    ((Xyh_Status.ticktock w self T false).1.status self).m_ticktock = T ∧
    (∀ p ∈ ((Xyh_Status.ticktock w self T false).1.status self).m_mapTEvent,
      p.1 ≠ T % UINT_MODULUS) ∧
    (∀ p ∈ (w.status self).m_mapTEvent, p.1 ≠ T % UINT_MODULUS →
      p ∈ ((Xyh_Status.ticktock w self T false).1.status self).m_mapTEvent) := by
  have hid : ∀ s, ((w.setStatus self { w.status self with m_ticktock := T }).status s).m_Id =
      (w.status s).m_Id := by
    intro s
    by_cases hs : s = self
    · subst hs; simp [World.setStatus]
    · simp [World.setStatus, Function.update, hs]
  have hsafe : ∀ p ∈ StdMultimap.equal_range
      ((w.setStatus self { w.status self with m_ticktock := T }).status self).m_mapTEvent
      (((w.setStatus self { w.status self with m_ticktock := T }).status self).m_ticktock
        % UINT_MODULUS),
      ((w.setStatus self { w.status self with m_ticktock := T }).event p.2._event).expired
        = false →
      ((w.setStatus self { w.status self with m_ticktock := T }).event p.2._event).m_curStatus
        ≠ none := by
    intro p hp
    have hp' : p ∈ StdMultimap.equal_range (w.status self).m_mapTEvent (T % UINT_MODULUS) := by
      simpa [World.setStatus] using hp
    simpa [World.setStatus] using h p hp'
  have heq : Xyh_Status.ticktock w self T false =
      ({ w with
          status := Function.update w.status self
            { w.status self with
              m_ticktock := T
              m_mapTEvent := (w.status self).m_mapTEvent.filter
                (fun p => !(p.1 == T % UINT_MODULUS)) }
          calls := w.calls ++
            (((w.status self).m_mapTEvent.filter (fun p => p.1 == T % UINT_MODULUS)).filter
              (fun p => Xyh_Status.fires w self p.2)).map
              (fun p => Call.timerRoutine self p.2._tabel p.2._event) },
        Outcome.ok) := by
    simp only [Xyh_Status.ticktock, Bool.false_eq_true, if_false]
    rw [fire_eq_of_safe self _ _ hsafe]
    have hd := due_congr w (w.setStatus self { w.status self with m_ticktock := T }) self
      (StdMultimap.equal_range (w.status self).m_mapTEvent (T % UINT_MODULUS)) rfl hid
    simp only [World.setStatus] at hd
    simp only [World.setStatus, Function.update_same, hd]
    simp [Xyh_Status.due, StdMultimap.equal_range, StdMultimap.erase]
  refine ⟨heq, ?_, ?_, ?_, ?_⟩
  · intro it
    simp only [Xyh_Status.fires]
    cases hc : (w.event it._event).m_curStatus with
    | none => simp
    | some cur => simp
  · rw [heq]; simp
  · rw [heq]
    intro p hp
    simp only [Function.update_same, List.mem_filter] at hp
    simpa using hp.2
  · rw [heq]
    intro p hp hk
    simp only [Function.update_same, List.mem_filter]
    exact ⟨hp, by simpa using hk⟩

/-- C15, at the timeout scenario: tick 13 on status 0 finds the entry of event 5
under key 13, calls `timerRoutine(7, event 5)` and leaves the bucket empty. -/
theorem Status_ticktock_spec_witness :
    (Xyh_Status.ticktock timerDueWorld 0 13 false).2 = Outcome.ok ∧
    ((Xyh_Status.ticktock timerDueWorld 0 13 false).1.status 0).m_ticktock = 13 ∧
    (timerDueWorld.status 0).m_mapTEvent = [(13, InStore.mk 7 5)] ∧
    (Xyh_Status.ticktock timerDueWorld 0 13 false).1.calls =
      timerDueWorld.calls ++ [Call.timerRoutine 0 7 5] ∧
    ((Xyh_Status.ticktock timerDueWorld 0 13 false).1.status 0).m_mapTEvent = [] :=
  ⟨by decide, (Status_ticktock_spec timerDueWorld 0 13 (by decide)).2.2.1, by decide,
   by decide, by decide⟩

theorem erase_erase {β : Type} (b : List (Nat × β)) (k : Nat) :
    StdMultimap.erase (StdMultimap.erase b k) k = StdMultimap.erase b k := by
  simp [StdMultimap.erase, List.filter_filter]

/-- What the loop of `Xyh_Jsm::ticktock` leaves behind when no bucket of a
registered status names an event without a current status: it returns normally;
events and printed lines are as before; every status the loop ran over has the
snapshot `T` and its bucket without the entries under the key of `T`; every other
status is as before. -/
theorem tickLoop_effect (j : Xyh_Jsm) (T : Nat) (l : List (Nat × StatusRef)) :
    ∀ w : World, (∀ q ∈ l, q ∈ j.m_mapStatus) → j.bucketsPlaced w →
      (Xyh_Jsm.tickLoop T w l).2 = Outcome.ok ∧
      j.bucketsPlaced (Xyh_Jsm.tickLoop T w l).1 ∧
      (Xyh_Jsm.tickLoop T w l).1.event = w.event ∧
      (Xyh_Jsm.tickLoop T w l).1.cout = w.cout ∧
      (∀ s : StatusRef, (Xyh_Jsm.tickLoop T w l).1.status s =
        (if s ∈ l.map Prod.snd then
          { w.status s with
            m_ticktock := T
            m_mapTEvent := StdMultimap.erase (w.status s).m_mapTEvent (T % UINT_MODULUS) }
         else w.status s)) := by
  induction l with
  | nil => intro w _ hbp; simp [Xyh_Jsm.tickLoop, hbp]
  | cons q rest ih =>
    intro w hl hbp
    obtain ⟨k, S⟩ := q
    have hq : (k, S) ∈ j.m_mapStatus := hl (k, S) (List.mem_cons_self _ _)
    have heq := Status_ticktock_eq w S T (hbp (k, S) hq)
    simp only [Xyh_Jsm.tickLoop]
    rw [heq]
    simp only
    have hbp1 : j.bucketsPlaced
        { w with
          status := Function.update w.status S
            { w.status S with
              m_ticktock := T
              m_mapTEvent := StdMultimap.erase (w.status S).m_mapTEvent (T % UINT_MODULUS) }
          calls := w.calls ++ Xyh_Status.due w S
            (StdMultimap.equal_range (w.status S).m_mapTEvent (T % UINT_MODULUS)) } := by
      intro q' hq' p hp
      by_cases h : q'.2 = S
      · simp only [Function.update_apply, if_pos h] at hp
        unfold StdMultimap.erase at hp
        exact hbp (k, S) hq p (List.mem_of_mem_filter hp)
      · simp only [Function.update_apply, if_neg h] at hp
        exact hbp q' hq' p hp
    obtain ⟨g1, g2, g3, g4, g5⟩ := ih _ (fun q hq => hl q (List.mem_cons_of_mem _ hq)) hbp1
    refine ⟨g1, g2, g3, g4, ?_⟩
    intro s
    rw [g5 s]
    by_cases hs : s = S
    · subst hs
      by_cases hr : s ∈ rest.map Prod.snd
      · simp [hr, erase_erase]
      · simp [hr]
    · by_cases hr : s ∈ rest.map Prod.snd
      · simp [hr, hs, Function.update_apply]
      · simp [hr, hs, Function.update_apply]

/-- C14 as stated fails: in the timeout scenario before the first tick the counter
is 0; after `ticktock` the counter is 1 and the snapshot of the registered status 0
is 0, the value before the increment. -/
theorem tick_snapshot_lags :
    timerJsm0.m_ticktock = 0 ∧
    timerJsm0.findStatus 0 = some 0 ∧
    (timerJsm0.ticktock timerWorld0 false).2.2 = Outcome.ok ∧
    (timerJsm0.ticktock timerWorld0 false).1.m_ticktock = 1 ∧
    ((timerJsm0.ticktock timerWorld0 false).2.1.status 0).m_ticktock = 0 ∧
    ((timerJsm0.ticktock timerWorld0 false).2.1.status 0).m_ticktock ≠
      (timerJsm0.ticktock timerWorld0 false).1.m_ticktock := by
  decide

/-- What `Xyh_Jsm::ticktock` without cancellation leaves behind when no bucket of a
registered status names an event without a current status. -/
theorem Jsm_ticktock_effect (j : Xyh_Jsm) (w : World) (hbp : j.bucketsPlaced w) :
    (j.ticktock w false).2.2 = Outcome.ok ∧
    (j.ticktock w false).1 = { j with m_ticktock := (j.m_ticktock + 1) % ULL_MODULUS } ∧
    (∀ q ∈ j.m_mapStatus,
      (j.ticktock w false).2.1.status q.2 =
        { w.status q.2 with
          m_ticktock := j.m_ticktock
          m_mapTEvent :=
            StdMultimap.erase (w.status q.2).m_mapTEvent (j.m_ticktock % UINT_MODULUS) }) ∧
    (∀ s : StatusRef, s ∉ j.m_mapStatus.map Prod.snd →
      (j.ticktock w false).2.1.status s = w.status s) ∧
    (j.ticktock w false).2.1.event = w.event ∧
    j.bucketsPlaced (j.ticktock w false).2.1 := by
  obtain ⟨h1, h2, h3, -, h5⟩ := tickLoop_effect j j.m_ticktock j.m_mapStatus w
    (fun q hq => hq) hbp
  have hj : j.ticktock w false =
      ({ j with m_ticktock := (j.m_ticktock + 1) % ULL_MODULUS },
        (Xyh_Jsm.tickLoop j.m_ticktock w j.m_mapStatus).1, Outcome.ok) := by
    simp only [Xyh_Jsm.ticktock, Bool.false_eq_true, if_false]
    generalize Xyh_Jsm.tickLoop j.m_ticktock w j.m_mapStatus = r at h1
    obtain ⟨w1, o⟩ := r
    simp only at h1
    subst h1
    rfl
  rw [hj]
  refine ⟨rfl, rfl, ?_, ?_, h3, h2⟩
  · intro q hq
    simp only [h5 q.2, if_pos (List.mem_map.2 ⟨q, hq, rfl⟩)]
  · intro s hs
    simp only [h5 s, if_neg hs]

/-- C14 amended. `Xyh_Jsm::ticktock` without cancellation, when no bucket of a
registered status names an event without a current status: it returns normally;
every registered status has been ticked with the value the counter had before the
call (its snapshot is that value and its bucket has lost the entries under the key
of that value), every other status and every event is as before; the counter is
then incremented by one modulo 2^64, the registries stay. So after the call the
snapshot of every registered status is the counter minus one. With the
cancellation flag set nothing changes. -/
theorem Jsm_ticktock_snapshot (j : Xyh_Jsm) (w : World) (hbp : j.bucketsPlaced w) :
    (j.ticktock w false).2.2 = Outcome.ok ∧
    (j.ticktock w false).1 = { j with m_ticktock := (j.m_ticktock + 1) % ULL_MODULUS } ∧
    (∀ q ∈ j.m_mapStatus,
      (j.ticktock w false).2.1.status q.2 =
        { w.status q.2 with
          m_ticktock := j.m_ticktock
          m_mapTEvent :=
            StdMultimap.erase (w.status q.2).m_mapTEvent (j.m_ticktock % UINT_MODULUS) }) ∧
    (∀ q ∈ j.m_mapStatus,
      ((j.ticktock w false).2.1.status q.2).m_ticktock = j.m_ticktock) ∧
    (j.m_ticktock < ULL_MODULUS → ∀ q ∈ j.m_mapStatus,
      (((j.ticktock w false).2.1.status q.2).m_ticktock + 1) % ULL_MODULUS =
        (j.ticktock w false).1.m_ticktock) ∧
    (∀ s : StatusRef, s ∉ j.m_mapStatus.map Prod.snd →
      (j.ticktock w false).2.1.status s = w.status s) ∧
    (j.ticktock w false).2.1.event = w.event ∧
    j.ticktock w true = (j, w, Outcome.ok) := by
  obtain ⟨h1, h2, h3, h4, h5, -⟩ := Jsm_ticktock_effect j w hbp
  refine ⟨h1, h2, h3, ?_, ?_, h4, h5, ?_⟩
  · intro q hq
    rw [h3 q hq]
  · intro _ q hq
    rw [h3 q hq, h2]
  · simp [Xyh_Jsm.ticktock]

/-- C14 amended, at the timeout scenario after the ticks 0 to 10: the next tick
sets the snapshot of status 0 to 11 and the counter to 12. -/
theorem Jsm_ticktock_snapshot_witness :
    ((timerJsm.ticktock timerWorld false).2.1.status 0).m_ticktock = 11 ∧
    (timerJsm.ticktock timerWorld false).1.m_ticktock = 12 :=
  ⟨Eq.trans ((Jsm_ticktock_snapshot timerJsm timerWorld (by decide)).2.2.2.1 (0, 0)
      (by decide)) (by decide),
   by decide⟩

/-! ## Entry and departure -/

theorem enter_attach (w : World) (E : EventRef) (S : StatusRef) (sig msg : Nat)
    (hnr : ((w.event E).marked && (w.status S).m_fade) = false) :
    Xyh_Event.enter w E (some S) sig msg =
      ({ w with
          event := Function.update w.event E
            { w.event E with m_curStatus := some S, m_enterTime := (w.status S).m_ticktock }
          status := Function.update w.status S ((w.status S).addEvent E)
          calls := w.calls ++ [Call.routine S E sig msg] }, Outcome.ok) := by
  have h1 : ((w.event E).m_stt == STT_BEMARKED && (w.status S).m_fade) = false := hnr
  simp [Xyh_Event.enter, World.setEvent, World.setStatus, World.call, Xyh_Event.marked, h1]

theorem enter_recycle (w : World) (E : EventRef) (S : StatusRef) (sig msg : Nat)
    (hr : ((w.event E).marked && (w.status S).m_fade) = true) :
    Xyh_Event.enter w E (some S) sig msg =
      ({ w with
          event := Function.update w.event E
            { w.event E with
              m_curStatus := some S
              m_enterTime := (w.status S).m_ticktock
              m_stt := STT_RECYCLE }
          calls := w.calls ++ [Call.routine S E sig msg] }, Outcome.ok) := by
  have h1 : ((w.event E).m_stt == STT_BEMARKED && (w.status S).m_fade) = true := hr
  simp [Xyh_Event.enter, World.setEvent, World.setStatus, World.call, Xyh_Event.marked, h1]

theorem StdMultimap.insert_sublist {β : Type} (b : List (Nat × β)) (k : Nat) (v : β) :
    b.Sublist (StdMultimap.insert b k v) := by
  induction b with
  | nil => simp
  | cons p rest ih =>
    obtain ⟨a, x⟩ := p
    unfold StdMultimap.insert
    by_cases h : k < a
    · simp only [h, if_true]
      exact List.sublist_cons_self _ _
    · simp only [h, if_false]
      exact ih.cons₂ _

theorem addEvent_bucket_sublist (st : Xyh_Status) (E : EventRef) :
    st.m_mapTEvent.Sublist (st.addEvent E).m_mapTEvent := by
  have key : ∀ (tmpls : List (Nat × Nat)) (b : List (Nat × InStore)),
      b.Sublist (tmpls.foldl
        (fun m v => StdMultimap.insert m (timerKey st.m_ticktock v.2) (InStore.mk v.1 E)) b) := by
    intro tmpls
    induction tmpls with
    | nil => intro b; exact List.Sublist.refl _
    | cons v rest ih =>
      intro b
      simp only [List.foldl_cons]
      exact (StdMultimap.insert_sublist b _ _).trans (ih _)
  exact key _ _

theorem enter_bucket_sublist (w : World) (E : EventRef) (s : Option StatusRef) (sig msg : Nat)
    (t : StatusRef) :
    (w.status t).m_mapTEvent.Sublist
      ((Xyh_Event.enter w E s sig msg).1.status t).m_mapTEvent := by
  cases s with
  | none => simp [Xyh_Event.enter, World.setEvent]
  | some S =>
    by_cases hr : ((w.event E).marked && (w.status S).m_fade) = true
    · rw [enter_recycle w E S sig msg hr]
    · rw [enter_attach w E S sig msg (by simpa using hr)]
      by_cases ht : t = S
      · subst ht
        simp only [Function.update_same]
        exact addEvent_bucket_sublist _ _
      · simp only [Function.update_apply, if_neg ht]
        exact List.Sublist.refl _

theorem removeEvent_bucket (w : World) (c : StatusRef) (E : EventRef) (t : StatusRef) :
    ((Xyh_Status.removeEvent w c E).status t).m_mapTEvent = (w.status t).m_mapTEvent := by
  by_cases h : t = c
  · subst h; simp [Xyh_Status.removeEvent, World.setStatus]
  · simp [Xyh_Status.removeEvent, World.setStatus, Function.update_apply, h]

theorem move_bucket_sublist (w : World) (E : EventRef) (s : Option StatusRef) (sig msg : Nat)
    (t : StatusRef) :
    (w.status t).m_mapTEvent.Sublist
      ((Xyh_Event.move w E s sig msg).1.status t).m_mapTEvent := by
  by_cases hx : (w.event E).expired = true
  · simp [Xyh_Event.move, hx]
  · cases hc : (w.event E).m_curStatus with
    | none =>
      simp only [Xyh_Event.move, hx, hc, if_false, Bool.false_eq_true]
      exact enter_bucket_sublist _ _ _ _ _ _
    | some c =>
      simp only [Xyh_Event.move, hx, hc, if_false, Bool.false_eq_true]
      have h := enter_bucket_sublist (Xyh_Status.removeEvent w c E) E s sig msg t
      rw [removeEvent_bucket] at h
      exact h

theorem processLoop_bucket_sublist (sig msg : Nat) (l : List (Nat × EventRef)) :
    ∀ (w : World) (t : StatusRef),
      (w.status t).m_mapTEvent.Sublist
        ((Xyh_Jsm.processLoop sig msg w l).1.status t).m_mapTEvent := by
  induction l with
  | nil => intro w t; exact List.Sublist.refl _
  | cons p rest ih =>
    intro w t
    obtain ⟨k, E⟩ := p
    unfold Xyh_Jsm.processLoop
    by_cases hx : (w.event E).expired = true
    · simp only [hx, if_true]
      exact ih w t
    · cases hc : (w.event E).m_curStatus with
      | none => simp [hx]
      | some cS =>
        cases hr : (w.status cS).route cS sig with
        | none =>
          simp only [hx, hr, if_false, Bool.false_eq_true]
          exact ih (w.print _) t
        | some nS =>
          simp only [hx, hr, if_false, Bool.false_eq_true]
          have hm := move_bucket_sublist w E (some nS) sig msg t
          have ho := move_outcome w E nS sig msg
          generalize Xyh_Event.move w E (some nS) sig msg = r at hm ho
          obtain ⟨w1, o⟩ := r
          simp only at ho hm
          subst ho
          exact hm.trans (ih w1 t)

/-- The world after an event that is not recycled has entered status `S` by `place`
or by `move` without being recycled by the entry. -/
theorem entry_effect (w0 w1 : World) (E : EventRef) (S : StatusRef) (sig msg : Nat)
    (hentry : Xyh_Event.place w0 E (some S) sig msg = (w1, Outcome.ok) ∨
      Xyh_Event.move w0 E (some S) sig msg = (w1, Outcome.ok))
    (hx : (w0.event E).expired = false)
    (hnr : ((w0.event E).marked && (w0.status S).m_fade) = false) :
    w1.event E =
      { w0.event E with m_curStatus := some S, m_enterTime := (w0.status S).m_ticktock } ∧
    (∀ e : EventRef, e ≠ E → w1.event e = w0.event e) ∧
    w1.status S =
      { w0.status S with
        m_listEvent := (w0.status S).m_listEvent.filter
          (fun e => !(decide ((w0.event E).m_curStatus = some S) &&
            ((w0.event e).m_id == (w0.event E).m_id))) ++ [E]
        m_mapTEvent := (w0.status S).m_regularEvt.foldl
          (fun m v =>
            StdMultimap.insert m (timerKey (w0.status S).m_ticktock v.2) (InStore.mk v.1 E))
          (w0.status S).m_mapTEvent } ∧
    w1.calls = w0.calls ++ [Call.routine S E sig msg] ∧
    w1.cout = w0.cout := by
  rcases hentry with h | h
  · unfold Xyh_Event.place at h
    simp only [hx, Bool.false_eq_true, if_false] at h
    cases hc : (w0.event E).m_curStatus with
    | some c => simp [hc] at h
    | none =>
      simp only [hc, Option.isSome_none, Bool.false_eq_true, if_false] at h
      rw [enter_attach w0 E S sig msg hnr] at h
      have h1 : w1 = _ := (Prod.mk.inj h).1.symm
      subst h1
      refine ⟨by simp, ?_, ?_, rfl, rfl⟩
      · intro e he
        simp [Function.update_apply, he]
      · simp [Xyh_Status.addEvent]
  · cases hc : (w0.event E).m_curStatus with
    | none =>
      simp only [Xyh_Event.move, hx, hc, if_false, Bool.false_eq_true] at h
      rw [enter_attach w0 E S sig msg hnr] at h
      have h1 : w1 = _ := (Prod.mk.inj h).1.symm
      subst h1
      refine ⟨by simp, ?_, ?_, rfl, rfl⟩
      · intro e he
        simp [Function.update_apply, he]
      · simp [Xyh_Status.addEvent]
    | some c =>
      simp only [Xyh_Event.move, hx, hc, if_false, Bool.false_eq_true] at h
      have hnr' : (((Xyh_Status.removeEvent w0 c E).event E).marked &&
          ((Xyh_Status.removeEvent w0 c E).status S).m_fade) = false := by
        by_cases hcS : S = c
        · subst hcS
          simpa [Xyh_Status.removeEvent, World.setStatus] using hnr
        · simpa [Xyh_Status.removeEvent, World.setStatus, Function.update_apply, hcS] using hnr
      rw [enter_attach _ E S sig msg hnr'] at h
      have h1 : w1 = _ := (Prod.mk.inj h).1.symm
      subst h1
      by_cases hcS : S = c
      · subst hcS
        refine ⟨by simp [Xyh_Status.removeEvent, World.setStatus], ?_, ?_, rfl, rfl⟩
        · intro e he
          simp [Function.update_apply, he, Xyh_Status.removeEvent, World.setStatus]
        · simp [Xyh_Status.addEvent, Xyh_Status.removeEvent, World.setStatus]
      · have hcS' : ¬ c = S := fun e => hcS e.symm
        refine ⟨by simp [Xyh_Status.removeEvent, World.setStatus, Function.update_apply, hcS],
          ?_, ?_, rfl, rfl⟩
        · intro e he
          simp [Function.update_apply, he, Xyh_Status.removeEvent, World.setStatus]
        · simp [Xyh_Status.addEvent, Xyh_Status.removeEvent, World.setStatus,
            Function.update_apply, hcS, hcS']

/-- C16. An event that is not recycled enters status `S` by a `place` that returns
normally or by a `move`, and is not recycled by the entry (it is not marked, or `S`
is not a fade status). Then its current status is `S`, its enter time is the
snapshot of `S`, its lifecycle is as before; it is appended to the resident list of
`S` (behind what the list held, less the event itself when it moved from `S` to
`S`); the bucket of `S` is the old bucket with one entry `(label, event)` inserted
per scheduled timeout `(label, period)` of `S`, under the key of enter time plus
period, so it has as many more entries as there are scheduled timeouts; the entry
callback of `S` is called once; and a scheduled timeout registered afterwards
changes neither the bucket nor the resident list. -/
theorem entry_attaches (w0 w1 : World) (E : EventRef) (S : StatusRef) (sig msg : Nat)
    (hentry : Xyh_Event.place w0 E (some S) sig msg = (w1, Outcome.ok) ∨
      Xyh_Event.move w0 E (some S) sig msg = (w1, Outcome.ok))
    (hx : (w0.event E).expired = false)
    (hnr : ((w0.event E).marked && (w0.status S).m_fade) = false) :
    (w1.event E).m_curStatus = some S ∧
    (w1.event E).m_enterTime = (w0.status S).m_ticktock ∧
    (w1.event E).m_stt = (w0.event E).m_stt ∧
    (w1.status S).m_listEvent =
      (w0.status S).m_listEvent.filter
        (fun e => !(decide ((w0.event E).m_curStatus = some S) &&
          ((w0.event e).m_id == (w0.event E).m_id))) ++ [E] ∧
    ((w0.event E).m_curStatus ≠ some S →
      (w1.status S).m_listEvent = (w0.status S).m_listEvent ++ [E]) ∧
    (w1.status S).m_mapTEvent =
      (w0.status S).m_regularEvt.foldl
        (fun m v =>
          StdMultimap.insert m (timerKey (w0.status S).m_ticktock v.2) (InStore.mk v.1 E))
        (w0.status S).m_mapTEvent ∧
    (w1.status S).m_mapTEvent.Perm
      ((w0.status S).m_regularEvt.map
          (fun v => (timerKey (w0.status S).m_ticktock v.2, InStore.mk v.1 E)) ++
        (w0.status S).m_mapTEvent) ∧
    (w0.status S).m_mapTEvent.Sublist (w1.status S).m_mapTEvent ∧
    (w1.status S).m_mapTEvent.length =
      (w0.status S).m_mapTEvent.length + (w0.status S).m_regularEvt.length ∧
    w1.calls = w0.calls ++ [Call.routine S E sig msg] ∧
    (∀ label period : Nat,
      ((w1.status S).regular label period).m_mapTEvent = (w1.status S).m_mapTEvent ∧
      ((w1.status S).regular label period).m_listEvent = (w1.status S).m_listEvent) := by
  obtain ⟨h1, -, h3, h4, -⟩ := entry_effect w0 w1 E S sig msg hentry hx hnr
  have hperm := addEvent_bucket_perm (w0.status S).m_regularEvt (w0.status S).m_ticktock E
    (w0.status S).m_mapTEvent
  refine ⟨by rw [h1], by rw [h1], by rw [h1], by rw [h3], ?_, by rw [h3], ?_, ?_, ?_, h4, ?_⟩
  · intro hne
    rw [h3]
    simp [hne]
  · rw [h3]; exact hperm
  · rw [h3]; exact addEvent_bucket_sublist (w0.status S) E
  · rw [h3]
    simp only
    rw [hperm.length_eq]
    simp [Nat.add_comm]
  · intro label period
    exact ⟨rfl, rfl⟩

/-- C16, at the timeout scenario: event 5 is placed in status 0 at snapshot 10;
status 0 has the one scheduled timeout (7, 3). -/
theorem entry_attaches_witness :
    ((Xyh_Event.place timerWorld 5 (some 0) 0 0).1.event 5).m_enterTime = 10 ∧
    ((Xyh_Event.place timerWorld 5 (some 0) 0 0).1.status 0).m_listEvent = [5] ∧
    ((Xyh_Event.place timerWorld 5 (some 0) 0 0).1.status 0).m_mapTEvent =
      [(13, InStore.mk 7 5)] :=
  ⟨Eq.trans (entry_attaches timerWorld (Xyh_Event.place timerWorld 5 (some 0) 0 0).1 5 0 0 0
      (Or.inl rfl) (by decide) (by decide)).2.1 (by decide),
   by decide, by decide⟩

theorem digestion_bucket_sublist (j : Xyh_Jsm) (w : World) (eid sig msg : Nat)
    (t : StatusRef) :
    (w.status t).m_mapTEvent.Sublist ((j.digestion w eid sig msg).1.status t).m_mapTEvent := by
  unfold Xyh_Jsm.digestion
  split
  · split
    · exact List.Sublist.refl _
    · split
      · exact List.Sublist.refl _
      · split
        · split
          · exact List.Sublist.refl _
          · exact move_bucket_sublist _ _ _ _ _ _
        · exact List.Sublist.refl _
  · exact List.Sublist.refl _

theorem process_bucket_sublist (j : Xyh_Jsm) (w : World) (eid sig msg : Nat)
    (t : StatusRef) :
    (w.status t).m_mapTEvent.Sublist ((j.process w eid sig msg).1.status t).m_mapTEvent := by
  unfold Xyh_Jsm.process
  split
  · split
    · exact List.Sublist.refl _
    · split
      · exact List.Sublist.refl _
      · split
        · exact move_bucket_sublist _ _ _ _ _ _
        · exact List.Sublist.refl _
  · exact List.Sublist.refl _

/-- C18. No bucket loses an entry by a move: after `move`, `digestion`,
`process(eid, sig, msg)` or `process(sig, msg)` the bucket of every status still
contains, in order, every entry it held before. A move out of status `A` into
another status changes nothing of `A` but its resident list, from which the events
carrying the id of the moved event are removed. Consequently, in the re-entry
scenario, where event 5 entered status 0 at tick 10 and is moved into status 0
again by `process` at tick 11, both entries are in the bucket and
`timerRoutine(7, event 5)` is called at tick 13 and again at tick 14. -/
theorem move_keeps_buckets (j : Xyh_Jsm) (w : World) (E : EventRef) (s : Option StatusRef)
    (eid sig msg : Nat) :
    (∀ t : StatusRef, (w.status t).m_mapTEvent.Sublist
      ((Xyh_Event.move w E s sig msg).1.status t).m_mapTEvent) ∧
    (∀ t : StatusRef, (w.status t).m_mapTEvent.Sublist
      ((j.digestion w eid sig msg).1.status t).m_mapTEvent) ∧
    (∀ t : StatusRef, (w.status t).m_mapTEvent.Sublist
      ((j.process w eid sig msg).1.status t).m_mapTEvent) ∧
    (∀ t : StatusRef, (w.status t).m_mapTEvent.Sublist
      ((j.processAll w sig msg).1.status t).m_mapTEvent) ∧
    (∀ A S : StatusRef, (w.event E).expired = false → (w.event E).m_curStatus = some A →
      A ≠ S →
      (Xyh_Event.move w E (some S) sig msg).1.status A =
        { w.status A with
          m_listEvent := (w.status A).m_listEvent.filter
            (fun e => !((w.event e).m_id == (w.event E).m_id)) }) ∧
    ((rearmPlaced.2.1.status 0).m_mapTEvent = [(13, InStore.mk 7 5)] ∧
      (rearmDriven.status 0).m_mapTEvent = [(13, InStore.mk 7 5), (14, InStore.mk 7 5)] ∧
      (rearmPlaced.1.ticks 1 rearmDriven).2.1.calls.count (Call.timerRoutine 0 7 5) = 0 ∧
      (rearmPlaced.1.ticks 2 rearmDriven).2.1.calls.count (Call.timerRoutine 0 7 5) = 1 ∧
      (rearmPlaced.1.ticks 3 rearmDriven).2.1.calls.count (Call.timerRoutine 0 7 5) = 2) := by
  refine ⟨move_bucket_sublist w E s sig msg, digestion_bucket_sublist j w eid sig msg,
    process_bucket_sublist j w eid sig msg,
    processLoop_bucket_sublist sig msg j.m_mapEvent w, ?_, by decide⟩
  intro A S hx hc hne
  simp only [Xyh_Event.move, hx, hc, if_false, Bool.false_eq_true]
  by_cases hr : (((Xyh_Status.removeEvent w A E).event E).marked &&
      ((Xyh_Status.removeEvent w A E).status S).m_fade) = true
  · rw [enter_recycle _ E S sig msg hr]
    simp [Xyh_Status.removeEvent, World.setStatus]
  · rw [enter_attach _ E S sig msg (by simpa using hr)]
    simp [Xyh_Status.removeEvent, World.setStatus, Function.update_apply, hne]

/-- C18, at the fade scenario: the move of event 5 from status 0 to status 1 leaves
status 0 with an empty resident list and nothing else changed. -/
theorem move_keeps_buckets_witness :
    (Xyh_Event.move fadeWorld 5 (some 1) 1 9).1.status 0 =
      { fadeWorld.status 0 with
        m_listEvent := (fadeWorld.status 0).m_listEvent.filter
          (fun e => !((fadeWorld.event e).m_id == (fadeWorld.event 5).m_id)) } ∧
    ((Xyh_Event.move fadeWorld 5 (some 1) 1 9).1.status 0).m_listEvent = [] :=
  ⟨(move_keeps_buckets fadeJsm fadeWorld 5 (some 1) 5 1 9).2.2.2.2.1 0 1 (by decide)
      (by decide) (by decide),
   by decide⟩

/-- C20. Status `S` is registered and has a scheduled timeout `(label, 0)`; its
snapshot is `n`; an event that is not recycled enters it by `place` or `move`
without being recycled by the entry; the next tick is `n + 1`. Then the entry filed
for `(label, 0)` sits under the key of `n`; the entry itself calls no
`timerRoutine`; the following tick returns normally, brings the snapshot to
`n + 1`, does not find that entry among the entries it runs over, and leaves it in
the bucket. The `timerRoutine(label, event)` calls that tick makes are those of
entries filed under the key of `n + 1`: none at all when the bucket held no entry
for `(label, event)` before and every scheduled timeout with the label has period
0. -/
theorem zero_delay_waits (j : Xyh_Jsm) (w0 w1 : World) (E : EventRef) (S : StatusRef)
    (label sig msg : Nat)
    (hreg : S ∈ j.m_mapStatus.map Prod.snd)
    (hclock : j.m_ticktock = ((w0.status S).m_ticktock + 1) % ULL_MODULUS)
    (htmpl : (label, 0) ∈ (w0.status S).m_regularEvt)
    (hentry : Xyh_Event.place w0 E (some S) sig msg = (w1, Outcome.ok) ∨
      Xyh_Event.move w0 E (some S) sig msg = (w1, Outcome.ok))
    (hx : (w0.event E).expired = false)
    (hnr : ((w0.event E).marked && (w0.status S).m_fade) = false)
    (hbp : j.bucketsPlaced w1) :
    timerKey (w0.status S).m_ticktock 0 = (w0.status S).m_ticktock % UINT_MODULUS ∧
    ((w0.status S).m_ticktock % UINT_MODULUS, InStore.mk label E) ∈ (w1.status S).m_mapTEvent ∧
    w1.calls = w0.calls ++ [Call.routine S E sig msg] ∧
    (j.ticktock w1 false).2.2 = Outcome.ok ∧
    ((j.ticktock w1 false).2.1.status S).m_ticktock =
      ((w0.status S).m_ticktock + 1) % ULL_MODULUS ∧
    ((w0.status S).m_ticktock % UINT_MODULUS, InStore.mk label E) ∉
      StdMultimap.equal_range (w1.status S).m_mapTEvent (j.m_ticktock % UINT_MODULUS) ∧
    ((w0.status S).m_ticktock % UINT_MODULUS, InStore.mk label E) ∈
      ((j.ticktock w1 false).2.1.status S).m_mapTEvent ∧
    (j.ticktock w1 false).2.1.calls.count (Call.timerRoutine S label E) =
      w1.calls.count (Call.timerRoutine S label E) +
        ((pending (w1.status S).m_mapTEvent label E).filter
          (fun k => k == j.m_ticktock % UINT_MODULUS)).length ∧
    ((∀ v ∈ (w0.status S).m_regularEvt, v.1 = label → v.2 = 0) →
      pending (w0.status S).m_mapTEvent label E = [] →
      (j.ticktock w1 false).2.1.calls.count (Call.timerRoutine S label E) =
        w1.calls.count (Call.timerRoutine S label E)) := by
  obtain ⟨e1, -, e3, e4, -⟩ := entry_effect w0 w1 E S sig msg hentry hx hnr
  have hkey : timerKey (w0.status S).m_ticktock 0 = (w0.status S).m_ticktock % UINT_MODULUS := by
    unfold timerKey UINT_MODULUS ULL_MODULUS
    omega
  have hne : ¬ (w0.status S).m_ticktock % UINT_MODULUS = j.m_ticktock % UINT_MODULUS := by
    rw [hclock]
    unfold UINT_MODULUS ULL_MODULUS
    omega
  have hperm := addEvent_bucket_perm (w0.status S).m_regularEvt (w0.status S).m_ticktock E
    (w0.status S).m_mapTEvent
  have hb : (w1.status S).m_mapTEvent = (w0.status S).m_regularEvt.foldl
      (fun m v =>
        StdMultimap.insert m (timerKey (w0.status S).m_ticktock v.2) (InStore.mk v.1 E))
      (w0.status S).m_mapTEvent := by rw [e3]
  have hmem : ((w0.status S).m_ticktock % UINT_MODULUS, InStore.mk label E) ∈
      (w1.status S).m_mapTEvent := by
    rw [hb, hperm.mem_iff, ← hkey]
    exact List.mem_append_left _ (List.mem_map.2 ⟨(label, 0), htmpl, rfl⟩)
  have hlive : (w1.event E).expired = false := by
    rw [e1]; exact hx
  have hcur : (w1.event E).m_curStatus = some S := by rw [e1]
  obtain ⟨q, hq, hqS⟩ := List.mem_map.1 hreg
  obtain ⟨t1, t2, t3, -, -, -⟩ := Jsm_ticktock_effect j w1 hbp
  obtain ⟨-, -, -, -, -, -, s6⟩ := Jsm_ticktock_step j w1 S label E hreg hbp hlive hcur
  have hS := t3 q hq
  rw [hqS] at hS
  refine ⟨hkey, hmem, e4, t1, ?_, ?_, ?_, s6, ?_⟩
  · rw [hS, hclock]
  · intro h
    simp only [StdMultimap.equal_range, List.mem_filter, beq_iff_eq] at h
    exact hne h.2
  · rw [hS]
    simp only [StdMultimap.erase, List.mem_filter]
    exact ⟨hmem, by simpa using hne⟩
  · intro hz hstale
    rw [s6]
    have hp : (pending (w1.status S).m_mapTEvent label E).Perm
        (((w0.status S).m_regularEvt.filter (fun v => v.1 == label)).map
          (fun v => timerKey (w0.status S).m_ticktock v.2)) := by
      have h := pending_perm _ _ label E hperm
      rw [pending_append, pending_templates, hstale, List.append_nil, ← hb] at h
      exact h
    have hnone : (pending (w1.status S).m_mapTEvent label E).filter
        (fun k => k == j.m_ticktock % UINT_MODULUS) = [] := by
      rw [List.filter_eq_nil_iff]
      intro k hk
      rw [hp.mem_iff, List.mem_map] at hk
      obtain ⟨v, hv, rfl⟩ := hk
      rw [List.mem_filter] at hv
      have hv0 : v.2 = 0 := hz v hv.1 (by simpa using hv.2)
      rw [hv0, hkey]
      simpa using hne
    rw [hnone]
    rfl

/-- C20, at the zero-delay scenario: event 5 enters status 0 at snapshot 10; the
entry (7, event 5) is filed under key 10, and tick 11 neither calls
`timerRoutine` nor removes it. -/
theorem zero_delay_waits_witness :
    (10, InStore.mk 7 5) ∈
      ((Xyh_Event.place zeroTicked.2.1 5 (some 0) 0 0).1.status 0).m_mapTEvent ∧
    (10, InStore.mk 7 5) ∈
      ((zeroTicked.1.ticktock (Xyh_Event.place zeroTicked.2.1 5 (some 0) 0 0).1
        false).2.1.status 0).m_mapTEvent ∧
    ((zeroTicked.1.ticktock (Xyh_Event.place zeroTicked.2.1 5 (some 0) 0 0).1
        false).2.1.status 0).m_ticktock = 11 ∧
    (zeroTicked.1.ticktock (Xyh_Event.place zeroTicked.2.1 5 (some 0) 0 0).1
        false).2.1.calls.count (Call.timerRoutine 0 7 5) = 0 :=
  ⟨(zero_delay_waits zeroTicked.1 zeroTicked.2.1
      (Xyh_Event.place zeroTicked.2.1 5 (some 0) 0 0).1 5 0 7 0 0 (by decide) (by decide)
      (by decide) (Or.inl rfl) (by decide) (by decide) (by decide)).2.1,
   (zero_delay_waits zeroTicked.1 zeroTicked.2.1
      (Xyh_Event.place zeroTicked.2.1 5 (some 0) 0 0).1 5 0 7 0 0 (by decide) (by decide)
      (by decide) (Or.inl rfl) (by decide) (by decide) (by decide)).2.2.2.2.2.2.1,
   by decide, by decide⟩

/-! ## The residency invariant -/

theorem Resident_congr (w w' : World) (he : w'.event = w.event)
    (hl : ∀ s, (w'.status s).m_listEvent = (w.status s).m_listEvent) (h : w.Resident) :
    w'.Resident := by
  obtain ⟨h1, h2, h3⟩ := h
  refine ⟨?_, ?_, ?_⟩
  · intro e1 e2; rw [he]; exact h1 e1 e2
  · intro s e; rw [he, hl]; exact h2 s e
  · intro s; rw [hl]; exact h3 s

theorem Attached_congr (w w' : World) (he : w'.event = w.event)
    (hl : ∀ s, (w'.status s).m_listEvent = (w.status s).m_listEvent) (h : w.Attached) :
    w'.Attached := by
  intro e s
  rw [he, hl]
  exact h e s

theorem enter_resident (w : World) (E : EventRef) (S : StatusRef) (sig msg : Nat)
    (hR : w.Resident) (hfree : ∀ s, E ∉ (w.status s).m_listEvent)
    (hx : (w.event E).expired = false) :
    (Xyh_Event.enter w E (some S) sig msg).1.Resident := by
  obtain ⟨h1, h2, h3⟩ := hR
  by_cases hr : ((w.event E).marked && (w.status S).m_fade) = true
  · rw [enter_recycle w E S sig msg hr]
    refine ⟨?_, ?_, ?_⟩
    · intro e1 e2 h
      apply h1
      have hid : ∀ e, (Function.update w.event E { w.event E with
          m_curStatus := some S
          m_enterTime := (w.status S).m_ticktock
          m_stt := STT_RECYCLE } e).m_id = (w.event e).m_id := by
        intro e
        by_cases c : e = E
        · subst c; simp
        · simp [Function.update_apply, c]
      rw [← hid e1, ← hid e2]
      exact h
    · intro s e he
      have hne : e ≠ E := fun c => hfree s (c ▸ he)
      simpa [Function.update_apply, hne] using h2 s e he
    · exact h3
  · rw [enter_attach w E S sig msg (by simpa using hr)]
    refine ⟨?_, ?_, ?_⟩
    · intro e1 e2 h
      apply h1
      have hid : ∀ e, (Function.update w.event E { w.event E with
          m_curStatus := some S, m_enterTime := (w.status S).m_ticktock } e).m_id = (w.event e).m_id := by
        intro e
        by_cases c : e = E
        · subst c; simp
        · simp [Function.update_apply, c]
      rw [← hid e1, ← hid e2]
      exact h
    · intro s e he
      by_cases hs : s = S
      · subst hs
        simp only [Function.update_same, Xyh_Status.addEvent, List.mem_append,
          List.mem_singleton] at he
        rcases he with he | he
        · have hne : e ≠ E := fun c => hfree s (c ▸ he)
          simpa [Function.update_apply, hne] using h2 s e he
        · subst he
          simpa [Xyh_Event.expired] using hx
      · simp only [Function.update_apply, if_neg hs] at he
        have hne : e ≠ E := fun c => hfree s (c ▸ he)
        simpa [Function.update_apply, hne] using h2 s e he
    · intro s
      by_cases hs : s = S
      · subst hs
        simp only [Function.update_same, Xyh_Status.addEvent]
        exact List.Nodup.append (h3 s) (List.nodup_singleton E)
          (by simpa using hfree s)
      · simp only [Function.update_apply, if_neg hs]
        exact h3 s

theorem enter_attached (w : World) (E : EventRef) (S : StatusRef) (sig msg : Nat)
    (hA : ∀ (e : EventRef) (s : StatusRef), e ≠ E → (w.event e).expired = false →
      (w.event e).m_curStatus = some s → e ∈ (w.status s).m_listEvent) :
    (Xyh_Event.enter w E (some S) sig msg).1.Attached := by
  by_cases hr : ((w.event E).marked && (w.status S).m_fade) = true
  · rw [enter_recycle w E S sig msg hr]
    intro e s hx hc
    by_cases he : e = E
    · subst he
      simp [Xyh_Event.expired] at hx
    · simp only [Function.update_apply, if_neg he] at hx hc
      exact hA e s he hx hc
  · rw [enter_attach w E S sig msg (by simpa using hr)]
    intro e s hx hc
    by_cases he : e = E
    · subst he
      simp only [Function.update_same] at hc
      cases hc
      simp [Xyh_Status.addEvent]
    · simp only [Function.update_apply, if_neg he] at hx hc
      have hm := hA e s he hx hc
      by_cases hs : s = S
      · subst hs
        simp [Xyh_Status.addEvent, hm]
      · simpa [Function.update_apply, hs] using hm

theorem removeEvent_resident (w : World) (c : StatusRef) (E : EventRef) (hR : w.Resident)
    (hc : (w.event E).m_curStatus = some c) :
    (Xyh_Status.removeEvent w c E).Resident ∧
    (∀ s, E ∉ ((Xyh_Status.removeEvent w c E).status s).m_listEvent) ∧
    (w.Attached → ∀ (e : EventRef) (s : StatusRef), e ≠ E →
      ((Xyh_Status.removeEvent w c E).event e).expired = false →
      ((Xyh_Status.removeEvent w c E).event e).m_curStatus = some s →
      e ∈ ((Xyh_Status.removeEvent w c E).status s).m_listEvent) := by
  obtain ⟨h1, h2, h3⟩ := hR
  have hlist : ∀ s, ((Xyh_Status.removeEvent w c E).status s).m_listEvent =
      (w.status s).m_listEvent.filter (fun e => !(decide (s = c) && decide (e = E))) := by
    intro s
    by_cases hs : s = c
    · subst hs
      simp only [Xyh_Status.removeEvent, World.setStatus, Function.update_same]
      apply List.filter_congr
      intro e _
      by_cases he : e = E
      · subst he; simp
      · have : ¬ (w.event e).m_id = (w.event E).m_id := fun h => he (h1 e E h)
        simp [he, this]
    · simp [Xyh_Status.removeEvent, World.setStatus, Function.update_apply, hs]
  refine ⟨⟨h1, ?_, ?_⟩, ?_, ?_⟩
  · intro s e he
    rw [hlist] at he
    exact h2 s e (List.mem_of_mem_filter he)
  · intro s
    rw [hlist]
    exact (h3 s).filter _
  · intro s he
    rw [hlist, List.mem_filter] at he
    by_cases hs : s = c
    · simp [hs] at he
    · have := (h2 s E he.1).1
      rw [hc] at this
      exact hs (Option.some.inj this).symm
  · intro hA e s hne hx hcur
    rw [hlist, List.mem_filter]
    exact ⟨hA e s hx hcur, by simp [hne]⟩

theorem move_resident (w : World) (E : EventRef) (S : StatusRef) (sig msg : Nat)
    (hR : w.Resident) :
    (Xyh_Event.move w E (some S) sig msg).1.Resident ∧
    (w.Attached → (Xyh_Event.move w E (some S) sig msg).1.Attached) := by
  by_cases hx : (w.event E).expired = true
  · simp only [Xyh_Event.move, hx, if_true]
    exact ⟨hR, fun h => h⟩
  · have hx' : (w.event E).expired = false := by simpa using hx
    cases hc : (w.event E).m_curStatus with
    | none =>
      simp only [Xyh_Event.move, hx, hc, if_false, Bool.false_eq_true]
      have hfree : ∀ s, E ∉ (w.status s).m_listEvent := by
        intro s he
        have := (hR.2.1 s E he).1
        rw [hc] at this
        cases this
      exact ⟨enter_resident w E S sig msg hR hfree hx',
        fun hA => enter_attached w E S sig msg (fun e s _ h1 h2 => hA e s h1 h2)⟩
    | some c =>
      simp only [Xyh_Event.move, hx, hc, if_false, Bool.false_eq_true]
      obtain ⟨g1, g2, g3⟩ := removeEvent_resident w c E hR hc
      exact ⟨enter_resident _ E S sig msg g1 g2 hx',
        fun hA => enter_attached _ E S sig msg (g3 hA)⟩

theorem fire_frame (self : StatusRef) (l : List (Nat × InStore)) :
    ∀ w : World, (Xyh_Status.fire self w l).1.event = w.event ∧
      (Xyh_Status.fire self w l).1.status = w.status := by
  induction l with
  | nil => intro w; exact ⟨rfl, rfl⟩
  | cons p rest ih =>
    intro w
    obtain ⟨k, it⟩ := p
    unfold Xyh_Status.fire
    split
    · split
      · exact ⟨rfl, rfl⟩
      · split
        · exact ih (w.call _)
        · exact ih w
    · exact ih w

theorem Status_ticktock_frame (w : World) (self : StatusRef) (T : Nat) (e : Bool) :
    (Xyh_Status.ticktock w self T e).1.event = w.event ∧
    (∀ s, ((Xyh_Status.ticktock w self T e).1.status s).m_listEvent =
      (w.status s).m_listEvent) := by
  unfold Xyh_Status.ticktock
  split
  · exact ⟨rfl, fun _ => rfl⟩
  · have hf := fire_frame self
      (StdMultimap.equal_range
        ((w.setStatus self { w.status self with m_ticktock := T }).status self).m_mapTEvent
        (((w.setStatus self { w.status self with m_ticktock := T }).status self).m_ticktock
          % UINT_MODULUS))
      (w.setStatus self { w.status self with m_ticktock := T })
    have hl : ∀ s, ((w.setStatus self { w.status self with m_ticktock := T }).status
        s).m_listEvent = (w.status s).m_listEvent := by
      intro s
      by_cases hs : s = self
      · subst hs; simp [World.setStatus]
      · simp [World.setStatus, Function.update_apply, hs]
    simp only
    generalize Xyh_Status.fire self (w.setStatus self { w.status self with m_ticktock := T })
      (StdMultimap.equal_range
        ((w.setStatus self { w.status self with m_ticktock := T }).status self).m_mapTEvent
        (((w.setStatus self { w.status self with m_ticktock := T }).status self).m_ticktock
          % UINT_MODULUS)) = r at hf
    obtain ⟨w2, o⟩ := r
    obtain ⟨hf1, hf2⟩ := hf
    simp only at hf1 hf2
    cases o with
    | ok =>
      simp only
      refine ⟨by simpa [World.setStatus] using hf1, ?_⟩
      intro s
      by_cases hs : s = self
      · subst hs
        simp only [World.setStatus, Function.update_same]
        rw [hf2]
        exact hl s
      · simp only [World.setStatus, Function.update_apply, if_neg hs]
        rw [hf2]
        exact hl s
    | thrown e1 =>
      simp only
      exact ⟨by simpa [World.setStatus] using hf1, fun s => by rw [hf2]; exact hl s⟩
    | undefined =>
      simp only
      exact ⟨by simpa [World.setStatus] using hf1, fun s => by rw [hf2]; exact hl s⟩

theorem tickLoop_frame (T : Nat) (l : List (Nat × StatusRef)) :
    ∀ w : World, (Xyh_Jsm.tickLoop T w l).1.event = w.event ∧
      (∀ s, ((Xyh_Jsm.tickLoop T w l).1.status s).m_listEvent = (w.status s).m_listEvent) := by
  induction l with
  | nil => intro w; exact ⟨rfl, fun _ => rfl⟩
  | cons q rest ih =>
    intro w
    obtain ⟨k, S⟩ := q
    have hs := Status_ticktock_frame w S T false
    simp only [Xyh_Jsm.tickLoop]
    generalize Xyh_Status.ticktock w S T false = r at hs
    obtain ⟨w1, o⟩ := r
    simp only at hs
    cases o with
    | ok =>
      simp only
      obtain ⟨g1, g2⟩ := ih w1
      exact ⟨by rw [g1, hs.1], fun s => by rw [g2, hs.2]⟩
    | thrown e1 => exact hs
    | undefined => exact hs

theorem Jsm_ticktock_frame (j : Xyh_Jsm) (w : World) (e : Bool) :
    (j.ticktock w e).2.1.event = w.event ∧
    (∀ s, ((j.ticktock w e).2.1.status s).m_listEvent = (w.status s).m_listEvent) := by
  unfold Xyh_Jsm.ticktock
  split
  · exact ⟨rfl, fun _ => rfl⟩
  · have h := tickLoop_frame j.m_ticktock j.m_mapStatus w
    generalize Xyh_Jsm.tickLoop j.m_ticktock w j.m_mapStatus = r at h
    obtain ⟨w1, o⟩ := r
    cases o <;> exact h

theorem digestion_resident (j : Xyh_Jsm) (w : World) (eid sig msg : Nat) (hR : w.Resident) :
    (j.digestion w eid sig msg).1.Resident ∧
    (w.Attached → (j.digestion w eid sig msg).1.Attached) := by
  unfold Xyh_Jsm.digestion
  split
  · split
    · exact ⟨hR, fun h => h⟩
    · split
      · exact ⟨hR, fun h => h⟩
      · split
        · split
          · exact ⟨Resident_congr w _ rfl (fun _ => rfl) hR,
              fun h => Attached_congr w _ rfl (fun _ => rfl) h⟩
          · exact move_resident w _ _ sig msg hR
        · exact ⟨hR, fun h => h⟩
  · exact ⟨hR, fun h => h⟩

theorem process_resident (j : Xyh_Jsm) (w : World) (eid sig msg : Nat) (hR : w.Resident) :
    (j.process w eid sig msg).1.Resident ∧
    (w.Attached → (j.process w eid sig msg).1.Attached) := by
  unfold Xyh_Jsm.process
  split
  · split
    · exact ⟨hR, fun h => h⟩
    · split
      · exact ⟨hR, fun h => h⟩
      · split
        · exact move_resident w _ _ sig msg hR
        · exact ⟨hR, fun h => h⟩
  · exact ⟨hR, fun h => h⟩

theorem processLoop_resident (sig msg : Nat) (l : List (Nat × EventRef)) :
    ∀ w : World, w.Resident →
      (Xyh_Jsm.processLoop sig msg w l).1.Resident ∧
      (w.Attached → (Xyh_Jsm.processLoop sig msg w l).1.Attached) := by
  induction l with
  | nil => intro w hR; exact ⟨hR, fun h => h⟩
  | cons p rest ih =>
    intro w hR
    obtain ⟨k, E⟩ := p
    unfold Xyh_Jsm.processLoop
    by_cases hx : (w.event E).expired = true
    · simp only [hx, if_true]
      exact ih w hR
    · cases hc : (w.event E).m_curStatus with
      | none =>
        simp only [hx, if_false, Bool.false_eq_true]
        exact ⟨hR, fun h => h⟩
      | some cS =>
        cases hr : (w.status cS).route cS sig with
        | none =>
          simp only [hx, hr, if_false, Bool.false_eq_true]
          obtain ⟨g1, g2⟩ := ih (w.print (Printed.notFoundNextStatus (w.status cS).m_Id sig))
            (Resident_congr w _ rfl (fun _ => rfl) hR)
          exact ⟨g1, fun h => g2 (Attached_congr w _ rfl (fun _ => rfl) h)⟩
        | some nS =>
          simp only [hx, hr, if_false, Bool.false_eq_true]
          have hm := move_resident w E nS sig msg hR
          have ho := move_outcome w E nS sig msg
          generalize Xyh_Event.move w E (some nS) sig msg = r at hm ho
          obtain ⟨w1, o⟩ := r
          simp only at ho hm
          subst ho
          obtain ⟨g1, g2⟩ := ih w1 hm.1
          exact ⟨g1, fun h => g2 (hm.2 h)⟩

theorem place_resident (w : World) (E : EventRef) (s : Option StatusRef) (sig msg : Nat)
    (hR : w.Resident) (hdef : (Xyh_Event.place w E s sig msg).2 ≠ Outcome.undefined) :
    (Xyh_Event.place w E s sig msg).1.Resident ∧
    (w.Attached → (Xyh_Event.place w E s sig msg).1.Attached) := by
  unfold Xyh_Event.place at hdef ⊢
  by_cases hx : (w.event E).expired = true
  · simp only [hx, if_true]
    exact ⟨hR, fun h => h⟩
  · cases hc : (w.event E).m_curStatus with
    | some c =>
      simp only [hx, hc, Option.isSome_some, if_true, if_false, Bool.false_eq_true]
      exact ⟨hR, fun h => h⟩
    | none =>
      simp only [hx, hc, Option.isSome_none, if_false, Bool.false_eq_true] at hdef ⊢
      cases s with
      | none => simp [Xyh_Event.enter] at hdef
      | some S =>
        have hfree : ∀ t, E ∉ (w.status t).m_listEvent := by
          intro t he
          have := (hR.2.1 t E he).1
          rw [hc] at this
          cases this
        exact ⟨enter_resident w E S sig msg hR hfree (by simpa using hx),
          fun hA => enter_attached w E S sig msg (fun e t _ h1 h2 => hA e t h1 h2)⟩

theorem setStt_resident (w : World) (E : EventRef) (v : Nat) (hv : v ≠ STT_RECYCLE)
    (hR : w.Resident) :
    (w.setEvent E { w.event E with m_stt := v }).Resident ∧
    ((w.event E).expired = false → w.Attached →
      (w.setEvent E { w.event E with m_stt := v }).Attached) := by
  obtain ⟨h1, h2, h3⟩ := hR
  have hid : ∀ e, ((w.setEvent E { w.event E with m_stt := v }).event e).m_id =
      (w.event e).m_id := by
    intro e
    by_cases c : e = E
    · subst c; simp [World.setEvent]
    · simp [World.setEvent, Function.update_apply, c]
  have hcur : ∀ e, ((w.setEvent E { w.event E with m_stt := v }).event e).m_curStatus =
      (w.event e).m_curStatus := by
    intro e
    by_cases c : e = E
    · subst c; simp [World.setEvent]
    · simp [World.setEvent, Function.update_apply, c]
  have hexp : ∀ e, (w.event e).expired = false →
      ((w.setEvent E { w.event E with m_stt := v }).event e).expired = false := by
    intro e he
    by_cases c : e = E
    · subst c; simpa [World.setEvent, Xyh_Event.expired] using hv
    · simpa [World.setEvent, Function.update_apply, c] using he
  refine ⟨⟨?_, ?_, h3⟩, ?_⟩
  · intro e1 e2 h
    rw [hid, hid] at h
    exact h1 e1 e2 h
  · intro s e he
    have := h2 s e he
    exact ⟨by rw [hcur]; exact this.1, hexp e this.2⟩
  · intro hE hA e s hx hc
    rw [hcur] at hc
    by_cases c : e = E
    · subst c
      exact hA e s hE hc
    · have hx' : (w.event e).expired = false := by
        simpa [World.setEvent, Function.update_apply, c] using hx
      exact hA e s hx' hc

theorem run_resident (m : Machine) (op : Op) (hR : m.world.Resident)
    (hdef : (m.run op).2 ≠ Outcome.undefined) :
    (m.run op).1.world.Resident ∧
    (op.revives m = false → m.world.Attached → (m.run op).1.world.Attached) := by
  have hB : STT_BEMARKED ≠ STT_RECYCLE := by decide
  have hS : STT_SURVIVE ≠ STT_RECYCLE := by decide
  cases op with
  | addStatus s => exact ⟨hR, fun _ h => h⟩
  | addEvent e => exact ⟨hR, fun _ h => h⟩
  | setup s c =>
    have hl : ∀ t, ((m.world.setStatus s ((m.world.status s).setup c)).status t).m_listEvent =
        (m.world.status t).m_listEvent := by
      intro t
      by_cases ht : t = s
      · subst ht
        cases c <;> simp [World.setStatus, Xyh_Status.setup, Xyh_Status.addLink,
          Xyh_Status.addLinkSelf, Xyh_Status.regular]
      · simp [World.setStatus, Function.update_apply, ht]
    exact ⟨Resident_congr m.world _ rfl hl hR, fun _ h => Attached_congr m.world _ rfl hl h⟩
  | place e s signal msg =>
    have h := place_resident m.world e s signal msg hR hdef
    exact ⟨h.1, fun _ hA => h.2 hA⟩
  | digestion eid sig msg =>
    have h := digestion_resident m.jsm m.world eid sig msg hR
    exact ⟨h.1, fun _ hA => h.2 hA⟩
  | process eid sig msg =>
    have h := process_resident m.jsm m.world eid sig msg hR
    exact ⟨h.1, fun _ hA => h.2 hA⟩
  | processAll sig msg =>
    have h := processLoop_resident sig msg m.jsm.m_mapEvent m.world hR
    exact ⟨h.1, fun _ hA => h.2 hA⟩
  | ticktock e =>
    have h := Jsm_ticktock_frame m.jsm m.world e
    exact ⟨Resident_congr m.world _ h.1 h.2 hR,
      fun _ hA => Attached_congr m.world _ h.1 h.2 hA⟩
  | expire e =>
    have h := setStt_resident m.world e STT_BEMARKED hB hR
    exact ⟨h.1, fun hr hA => h.2 hr hA⟩
  | survive e =>
    have h := setStt_resident m.world e STT_SURVIVE hS hR
    exact ⟨h.1, fun hr hA => h.2 hr hA⟩
  | expireEvent id =>
    simp only [Machine.run, Xyh_Jsm.expireEvent, Op.revives, Xyh_Jsm.findEvent]
    cases hf : StdMap.find m.jsm.m_mapEvent id with
    | none => exact ⟨hR, fun _ h => h⟩
    | some E =>
      have h := setStt_resident m.world E STT_BEMARKED hB hR
      exact ⟨h.1, fun hr hA => h.2 hr hA⟩
  | relEvent id =>
    simp only [Machine.run, Xyh_Jsm.relEvent, Op.revives, Xyh_Jsm.findEvent]
    cases hf : StdMap.find m.jsm.m_mapEvent id with
    | none => exact ⟨hR, fun _ h => h⟩
    | some E =>
      have h := setStt_resident m.world E STT_BEMARKED hB hR
      exact ⟨h.1, fun hr hA => h.2 hr hA⟩

theorem runAll_resident (gentle : Bool) (ops : List Op) :
    ∀ (m0 m : Machine), m0.world.Resident → Machine.runAll gentle m0 ops = some m →
      m.world.Resident ∧ (gentle = true → m0.world.Attached → m.world.Attached) := by
  induction ops with
  | nil =>
    intro m0 m hR h
    simp only [Machine.runAll, Option.some.injEq] at h
    subst h
    exact ⟨hR, fun _ h => h⟩
  | cons op rest ih =>
    intro m0 m hR h
    simp only [Machine.runAll] at h
    split at h
    · cases h
    · rename_i hc
      simp only [Bool.or_eq_true, Bool.and_eq_true, beq_iff_eq, not_or, not_and] at hc
      obtain ⟨g1, g2⟩ := run_resident m0 op hR hc.2
      obtain ⟨k1, k2⟩ := ih (m0.run op).1 m g1 h
      refine ⟨k1, fun hg hA => k2 hg (g2 ?_ hA)⟩
      have := hc.1 hg
      simpa using this

theorem Initial_resident (m : Machine) (h : m.Initial) :
    m.world.Resident ∧ m.world.Attached := by
  obtain ⟨-, h2, h3, h4⟩ := h
  refine ⟨⟨h4, ?_, ?_⟩, ?_⟩
  · intro s e he
    rw [(h3 s).1] at he
    cases he
  · intro s
    rw [(h3 s).1]
    exact List.nodup_nil
  · intro e s _ hc
    rw [h2 e] at hc
    cases hc

theorem reviveStart_initial : reviveStart.Initial := by
  refine ⟨rfl, fun _ => rfl, ?_, fun _ _ h => h⟩
  intro s
  simp only [reviveStart, fadeWorld0, World.setStatus, Function.update_apply]
  split_ifs <;> exact ⟨rfl, rfl⟩

/-- C12 as stated fails. In the run `reviveOps` from the empty machine of the fade
scenario event 5 is recycled on entering the fade status 1 and then set surviving
again by `survive()`: it is not recycled, its current status is status 1, and it is
not in the resident list of status 1. -/
theorem revived_event_not_resident :
    Machine.runAll false reviveStart reviveOps = some revivedMachine ∧
    (revivedMachine.world.event 5).expired = false ∧
    (revivedMachine.world.event 5).m_curStatus = some 1 ∧
    5 ∉ (revivedMachine.world.status 1).m_listEvent ∧
    (revivedMachine.world.status 0).m_listEvent = [] ∧
    (revivedMachine.world.status 1).m_listEvent = [] :=
  ⟨rfl, by decide, by decide, by decide, by decide, by decide⟩

/-- C12 amended. In every machine state reached from an empty machine over fresh
objects with unique event ids by any sequence of calls that return without a null
dereference: an event is listed in at most one resident list, no list names an
event twice, an event that is listed is listed in the list of its current status
and is not recycled, so a recycled event is listed nowhere. If moreover no
lifecycle setter was applied to a recycled event (a gentle run), every event that
is not recycled and has a current status is listed in the resident list of its
current status and in no other. -/
theorem residency_invariant (gentle : Bool) (m0 m : Machine) (ops : List Op)
    (hinit : m0.Initial) (hrun : Machine.runAll gentle m0 ops = some m) :
    (∀ (e : EventRef) (s1 s2 : StatusRef), e ∈ (m.world.status s1).m_listEvent →
      e ∈ (m.world.status s2).m_listEvent → s1 = s2) ∧
    (∀ s : StatusRef, (m.world.status s).m_listEvent.Nodup) ∧
    (∀ (e : EventRef) (s : StatusRef), e ∈ (m.world.status s).m_listEvent →
      (m.world.event e).m_curStatus = some s ∧ (m.world.event e).expired = false) ∧
    (∀ e : EventRef, (m.world.event e).expired = true →
      ∀ s : StatusRef, e ∉ (m.world.status s).m_listEvent) ∧
    (gentle = true → ∀ (e : EventRef) (s : StatusRef), (m.world.event e).expired = false →
      (m.world.event e).m_curStatus = some s →
      e ∈ (m.world.status s).m_listEvent ∧
      ∀ s' : StatusRef, e ∈ (m.world.status s').m_listEvent → s' = s) := by
  obtain ⟨hR0, hA0⟩ := Initial_resident m0 hinit
  obtain ⟨⟨-, h2, h3⟩, hA⟩ := runAll_resident gentle ops m0 m hR0 hrun
  have huniq : ∀ (e : EventRef) (s1 s2 : StatusRef), e ∈ (m.world.status s1).m_listEvent →
      e ∈ (m.world.status s2).m_listEvent → s1 = s2 := by
    intro e s1 s2 a b
    have c1 := (h2 s1 e a).1
    have c2 := (h2 s2 e b).1
    rw [c1] at c2
    exact Option.some.inj c2
  refine ⟨huniq, h3, fun e s he => h2 s e he, ?_, ?_⟩
  · intro e hx s he
    have := (h2 s e he).2
    rw [hx] at this
    cases this
  · intro hg e s hx hc
    have hin := hA hg hA0 e s hx hc
    exact ⟨hin, fun s' hs' => huniq e s' s hs' hin⟩

/-- C12 amended, at the fade scenario: after the first six calls of `reviveOps`
event 5 is recycled, and it is in no resident list. -/
theorem residency_invariant_witness :
    Machine.runAll true reviveStart (reviveOps.take 6) = some recycledMachine ∧
    (recycledMachine.world.event 5).expired = true ∧
    ∀ s : StatusRef, 5 ∉ (recycledMachine.world.status s).m_listEvent :=
  ⟨rfl, by decide,
   (residency_invariant true reviveStart recycledMachine (reviveOps.take 6)
      reviveStart_initial rfl).2.2.2.1 5 (by decide)⟩

/-! ## Bucket entries name placed events -/

theorem BucketsPlaced_congr (w w' : World)
    (hc : ∀ e, (w.event e).m_curStatus ≠ none → (w'.event e).m_curStatus ≠ none)
    (hb : ∀ s, ∀ p ∈ (w'.status s).m_mapTEvent, p ∈ (w.status s).m_mapTEvent)
    (h : w.BucketsPlaced) : w'.BucketsPlaced :=
  fun s p hp => hc _ (h s p (hb s p hp))

theorem mem_addEvent_bucket (st : Xyh_Status) (E : EventRef) (p : Nat × InStore)
    (hp : p ∈ (st.addEvent E).m_mapTEvent) : p ∈ st.m_mapTEvent ∨ p.2._event = E := by
  have h := (addEvent_bucket_perm st.m_regularEvt st.m_ticktock E st.m_mapTEvent).mem_iff.1
    (by simpa [Xyh_Status.addEvent] using hp)
  rcases List.mem_append.1 h with h1 | h1
  · obtain ⟨v, _, rfl⟩ := List.mem_map.1 h1
    exact Or.inr rfl
  · exact Or.inl h1

theorem enter_bucketsPlaced (w : World) (E : EventRef) (S : StatusRef) (sig msg : Nat)
    (h : w.BucketsPlaced) : (Xyh_Event.enter w E (some S) sig msg).1.BucketsPlaced := by
  by_cases hr : ((w.event E).marked && (w.status S).m_fade) = true
  · rw [enter_recycle w E S sig msg hr]
    intro s p hp
    by_cases he : p.2._event = E
    · simp only
      rw [he]
      simp
    · simpa [Function.update_apply, he] using h s p hp
  · rw [enter_attach w E S sig msg (by simpa using hr)]
    intro s p hp
    by_cases he : p.2._event = E
    · simp only
      rw [he]
      simp
    · by_cases hs : s = S
      · subst hs
        simp only [Function.update_same] at hp
        rcases mem_addEvent_bucket _ E p hp with h1 | h1
        · simpa [Function.update_apply, he] using h s p h1
        · exact absurd h1 he
      · simp only [Function.update_apply, if_neg hs] at hp
        simpa [Function.update_apply, he] using h s p hp

theorem removeEvent_bucketsPlaced (w : World) (c : StatusRef) (E : EventRef)
    (h : w.BucketsPlaced) : (Xyh_Status.removeEvent w c E).BucketsPlaced := by
  intro s p hp
  rw [removeEvent_bucket] at hp
  exact h s p hp

theorem move_bucketsPlaced (w : World) (E : EventRef) (S : StatusRef) (sig msg : Nat)
    (h : w.BucketsPlaced) : (Xyh_Event.move w E (some S) sig msg).1.BucketsPlaced := by
  by_cases hx : (w.event E).expired = true
  · simpa [Xyh_Event.move, hx] using h
  · cases hc : (w.event E).m_curStatus with
    | none =>
      simp only [Xyh_Event.move, hx, hc, if_false, Bool.false_eq_true]
      exact enter_bucketsPlaced w E S sig msg h
    | some c =>
      simp only [Xyh_Event.move, hx, hc, if_false, Bool.false_eq_true]
      exact enter_bucketsPlaced _ E S sig msg (removeEvent_bucketsPlaced w c E h)

theorem place_bucketsPlaced (w : World) (E : EventRef) (s : Option StatusRef) (sig msg : Nat)
    (h : w.BucketsPlaced) (hdef : (Xyh_Event.place w E s sig msg).2 ≠ Outcome.undefined) :
    (Xyh_Event.place w E s sig msg).1.BucketsPlaced := by
  unfold Xyh_Event.place at hdef ⊢
  by_cases hx : (w.event E).expired = true
  · simpa [hx] using h
  · cases hc : (w.event E).m_curStatus with
    | some c => simpa [hx, hc] using h
    | none =>
      simp only [hx, hc, Option.isSome_none, if_false, Bool.false_eq_true] at hdef ⊢
      cases s with
      | none => simp [Xyh_Event.enter] at hdef
      | some S => exact enter_bucketsPlaced w E S sig msg h

theorem digestion_bucketsPlaced (j : Xyh_Jsm) (w : World) (eid sig msg : Nat)
    (h : w.BucketsPlaced) : (j.digestion w eid sig msg).1.BucketsPlaced := by
  unfold Xyh_Jsm.digestion
  split
  · split
    · exact h
    · split
      · exact h
      · split
        · split
          · exact h
          · exact move_bucketsPlaced w _ _ sig msg h
        · exact h
  · exact h

theorem process_bucketsPlaced (j : Xyh_Jsm) (w : World) (eid sig msg : Nat)
    (h : w.BucketsPlaced) : (j.process w eid sig msg).1.BucketsPlaced := by
  unfold Xyh_Jsm.process
  split
  · split
    · exact h
    · split
      · exact h
      · split
        · exact move_bucketsPlaced w _ _ sig msg h
        · exact h
  · exact h

theorem processLoop_bucketsPlaced (sig msg : Nat) (l : List (Nat × EventRef)) :
    ∀ w : World, w.BucketsPlaced → (Xyh_Jsm.processLoop sig msg w l).1.BucketsPlaced := by
  induction l with
  | nil => intro w h; exact h
  | cons p rest ih =>
    intro w h
    obtain ⟨k, E⟩ := p
    unfold Xyh_Jsm.processLoop
    by_cases hx : (w.event E).expired = true
    · simp only [hx, if_true]
      exact ih w h
    · cases hc : (w.event E).m_curStatus with
      | none =>
        simp only [hx, if_false, Bool.false_eq_true]
        exact h
      | some cS =>
        cases hr : (w.status cS).route cS sig with
        | none =>
          simp only [hx, hr, if_false, Bool.false_eq_true]
          exact ih (w.print _) h
        | some nS =>
          simp only [hx, hr, if_false, Bool.false_eq_true]
          have hm := move_bucketsPlaced w E nS sig msg h
          have ho := move_outcome w E nS sig msg
          generalize Xyh_Event.move w E (some nS) sig msg = r at hm ho
          obtain ⟨w1, o⟩ := r
          simp only at ho hm
          subst ho
          exact ih w1 hm

theorem Status_ticktock_bucket_subset (w : World) (self : StatusRef) (T : Nat) (e : Bool) :
    ∀ s, ∀ p ∈ ((Xyh_Status.ticktock w self T e).1.status s).m_mapTEvent,
      p ∈ (w.status s).m_mapTEvent := by
  unfold Xyh_Status.ticktock
  split
  · intro s p hp; exact hp
  · have hf := fire_frame self
      (StdMultimap.equal_range
        ((w.setStatus self { w.status self with m_ticktock := T }).status self).m_mapTEvent
        (((w.setStatus self { w.status self with m_ticktock := T }).status self).m_ticktock
          % UINT_MODULUS))
      (w.setStatus self { w.status self with m_ticktock := T })
    have hl : ∀ s, ((w.setStatus self { w.status self with m_ticktock := T }).status
        s).m_mapTEvent = (w.status s).m_mapTEvent := by
      intro s
      by_cases hs : s = self
      · subst hs; simp [World.setStatus]
      · simp [World.setStatus, Function.update_apply, hs]
    simp only
    generalize Xyh_Status.fire self (w.setStatus self { w.status self with m_ticktock := T })
      (StdMultimap.equal_range
        ((w.setStatus self { w.status self with m_ticktock := T }).status self).m_mapTEvent
        (((w.setStatus self { w.status self with m_ticktock := T }).status self).m_ticktock
          % UINT_MODULUS)) = r at hf
    obtain ⟨w2, o⟩ := r
    obtain ⟨-, hf2⟩ := hf
    simp only at hf2
    cases o with
    | ok =>
      simp only
      intro s p hp
      by_cases hs : s = self
      · subst hs
        simp only [World.setStatus, Function.update_same, StdMultimap.erase] at hp
        have hp' := List.mem_of_mem_filter hp
        rw [hf2, hl] at hp'
        exact hp'
      · simp only [World.setStatus, Function.update_apply, if_neg hs] at hp
        rw [hf2, hl] at hp
        exact hp
    | thrown e1 =>
      simp only
      intro s p hp
      rw [hf2, hl] at hp
      exact hp
    | undefined =>
      simp only
      intro s p hp
      rw [hf2, hl] at hp
      exact hp

theorem tickLoop_bucket_subset (T : Nat) (l : List (Nat × StatusRef)) :
    ∀ w : World, ∀ s, ∀ p ∈ ((Xyh_Jsm.tickLoop T w l).1.status s).m_mapTEvent,
      p ∈ (w.status s).m_mapTEvent := by
  induction l with
  | nil => intro w s p hp; exact hp
  | cons q rest ih =>
    intro w
    obtain ⟨k, S⟩ := q
    have hs := Status_ticktock_bucket_subset w S T false
    simp only [Xyh_Jsm.tickLoop]
    generalize Xyh_Status.ticktock w S T false = r at hs
    obtain ⟨w1, o⟩ := r
    simp only at hs
    cases o with
    | ok =>
      simp only
      intro s p hp
      exact hs s p (ih w1 s p hp)
    | thrown e1 => exact hs
    | undefined => exact hs

theorem Jsm_ticktock_bucket_subset (j : Xyh_Jsm) (w : World) (e : Bool) :
    ∀ s, ∀ p ∈ ((j.ticktock w e).2.1.status s).m_mapTEvent, p ∈ (w.status s).m_mapTEvent := by
  unfold Xyh_Jsm.ticktock
  split
  · intro s p hp; exact hp
  · have h := tickLoop_bucket_subset j.m_ticktock j.m_mapStatus w
    generalize Xyh_Jsm.tickLoop j.m_ticktock w j.m_mapStatus = r at h
    obtain ⟨w1, o⟩ := r
    cases o <;> exact h

theorem setStt_bucketsPlaced (w : World) (E : EventRef) (v : Nat) (h : w.BucketsPlaced) :
    (w.setEvent E { w.event E with m_stt := v }).BucketsPlaced := by
  refine BucketsPlaced_congr w _ ?_ (fun s p hp => hp) h
  intro e he
  by_cases c : e = E
  · subst c; simpa [World.setEvent] using he
  · simpa [World.setEvent, Function.update_apply, c] using he

theorem run_bucketsPlaced (m : Machine) (op : Op) (h : m.world.BucketsPlaced)
    (hdef : (m.run op).2 ≠ Outcome.undefined) : (m.run op).1.world.BucketsPlaced := by
  cases op with
  | addStatus s => exact h
  | addEvent e => exact h
  | setup s c =>
    refine BucketsPlaced_congr m.world _ (fun e he => he) ?_ h
    intro t p hp
    by_cases ht : t = s
    · subst ht
      cases c <;> simpa [Machine.run, World.setStatus, Xyh_Status.setup, Xyh_Status.addLink,
        Xyh_Status.addLinkSelf, Xyh_Status.regular] using hp
    · simpa [Machine.run, World.setStatus, Function.update_apply, ht] using hp
  | place e s signal msg => exact place_bucketsPlaced m.world e s signal msg h hdef
  | digestion eid sig msg => exact digestion_bucketsPlaced m.jsm m.world eid sig msg h
  | process eid sig msg => exact process_bucketsPlaced m.jsm m.world eid sig msg h
  | processAll sig msg => exact processLoop_bucketsPlaced sig msg m.jsm.m_mapEvent m.world h
  | ticktock e =>
    have hf := Jsm_ticktock_frame m.jsm m.world e
    refine BucketsPlaced_congr m.world _ ?_ (Jsm_ticktock_bucket_subset m.jsm m.world e) h
    intro ev he
    show ((m.jsm.ticktock m.world e).2.1.event ev).m_curStatus ≠ none
    rw [hf.1]
    exact he
  | expire e => exact setStt_bucketsPlaced m.world e STT_BEMARKED h
  | survive e => exact setStt_bucketsPlaced m.world e STT_SURVIVE h
  | expireEvent id =>
    simp only [Machine.run, Xyh_Jsm.expireEvent]
    cases hf : StdMap.find m.jsm.m_mapEvent id with
    | none => exact h
    | some E => exact setStt_bucketsPlaced m.world E STT_BEMARKED h
  | relEvent id =>
    simp only [Machine.run, Xyh_Jsm.relEvent]
    cases hf : StdMap.find m.jsm.m_mapEvent id with
    | none => exact h
    | some E => exact setStt_bucketsPlaced m.world E STT_BEMARKED h

theorem runAll_bucketsPlaced (gentle : Bool) (ops : List Op) :
    ∀ (m0 m : Machine), m0.world.BucketsPlaced → Machine.runAll gentle m0 ops = some m →
      m.world.BucketsPlaced := by
  induction ops with
  | nil =>
    intro m0 m h hr
    simp only [Machine.runAll, Option.some.injEq] at hr
    subst hr
    exact h
  | cons op rest ih =>
    intro m0 m h hr
    simp only [Machine.runAll] at hr
    split at hr
    · cases hr
    · rename_i hc
      simp only [Bool.or_eq_true, Bool.and_eq_true, beq_iff_eq, not_or, not_and] at hc
      exact ih (m0.run op).1 m (run_bucketsPlaced m0 op h hc.2) hr

theorem Initial_bucketsPlaced (m : Machine) (h : m.Initial) : m.world.BucketsPlaced := by
  intro s p hp
  rw [(h.2.2.1 s).2] at hp
  cases hp

theorem timedStart_initial : timedStart.Initial := by
  refine ⟨rfl, fun _ => rfl, ?_, fun _ _ h => h⟩
  intro s
  simp only [timedStart, timerWorld0, World.setStatus, Function.update_apply]
  split_ifs <;> exact ⟨rfl, rfl⟩

/-- C21. In every machine state reached from an empty machine over fresh objects by
any sequence of calls that return without a null dereference (registration,
configuration, `place`, `digestion`, both `process`, the lifecycle setters,
`expireEvent`, `relEvent`, ticks), every event named by an entry of any bucket has a
current status. Hence `Xyh_Status::ticktock` returns normally on every status and
for every tick value, and so does the next `Xyh_Jsm::ticktock`: the guard never
dereferences a null current status. -/
theorem bucket_events_placed (gentle : Bool) (m0 m : Machine) (ops : List Op)
    (hinit : m0.Initial) (hrun : Machine.runAll gentle m0 ops = some m) :
    (∀ (s : StatusRef), ∀ p ∈ (m.world.status s).m_mapTEvent,
      (m.world.event p.2._event).m_curStatus ≠ none) ∧
    (∀ (s : StatusRef) (T : Nat), (Xyh_Status.ticktock m.world s T false).2 = Outcome.ok) ∧
    (m.jsm.ticktock m.world false).2.2 = Outcome.ok ∧
    (m.run (Op.ticktock false)).2 = Outcome.ok := by
  have hB : m.world.BucketsPlaced :=
    runAll_bucketsPlaced gentle ops m0 m (Initial_bucketsPlaced m0 hinit) hrun
  have hj : m.jsm.bucketsPlaced m.world := fun q _ p hp => hB q.2 p hp
  refine ⟨hB, ?_, (Jsm_ticktock_effect m.jsm m.world hj).1,
    (Jsm_ticktock_effect m.jsm m.world hj).1⟩
  intro s T
  rw [Status_ticktock_eq m.world s T (hB s)]

/-- C21, at the run `timedOps` of the timeout scenario: the bucket of status 0 holds
the entry of the released event 5, whose current status is status 0, and the tick
on status 0 that finds the entry returns normally. -/
theorem bucket_events_placed_witness :
    Machine.runAll false timedStart timedOps = some timedMachine ∧
    (timedMachine.world.status 0).m_mapTEvent = [(3, InStore.mk 7 5)] ∧
    (timedMachine.world.event 5).m_curStatus = some 0 ∧
    (Xyh_Status.ticktock timedMachine.world 0 3 false).2 = Outcome.ok ∧
    (timedMachine.jsm.ticktock timedMachine.world false).2.2 = Outcome.ok :=
  ⟨rfl, by decide, by decide,
   (bucket_events_placed false timedStart timedMachine timedOps timedStart_initial rfl).2.1 0 3,
   (bucket_events_placed false timedStart timedMachine timedOps timedStart_initial rfl).2.2.1⟩

/-- C22. Ticks are 64-bit values and bucket keys 32-bit values: `addEvent` files the
entry of a scheduled timeout `(label, d)` at snapshot `n` under the key
`(n + d) mod 2^32`, and a tick `m` looks up the key `m mod 2^32`. For
`1 ≤ d < 2^32` and `n + d < 2^64` the first tick after `n` whose key is the key of
the entry is `n + d`: no tick `m` with `n < m < n + d` has that key, and among the
ticks `n + 1, ..., n + k` the key is met exactly when `k ≥ d`. -/
theorem timerKey_first_due (n d : Nat) (hd1 : 1 ≤ d) (hd2 : d < UINT_MODULUS)
    (hnd : n + d < ULL_MODULUS) :
    timerKey n d = (n + d) % UINT_MODULUS ∧
    (∀ (st : Xyh_Status) (E : EventRef) (label : Nat), st.m_ticktock = n →
      (label, d) ∈ st.m_regularEvt →
      ((n + d) % UINT_MODULUS, InStore.mk label E) ∈ (st.addEvent E).m_mapTEvent) ∧
    n < n + d ∧
    (∀ m : Nat, n < m → m % UINT_MODULUS = timerKey n d → n + d ≤ m) ∧
    (∀ m : Nat, n < m → m < n + d → m % UINT_MODULUS ≠ timerKey n d) ∧
    (∀ k : Nat, dueWithin (n + 1) k (timerKey n d) = decide (d ≤ k)) := by
  have hkey : timerKey n d = (n + d) % UINT_MODULUS := by
    unfold timerKey
    rw [Nat.mod_eq_of_lt hnd]
  have hmin : ∀ m : Nat, n < m → m % UINT_MODULUS = timerKey n d → n + d ≤ m := by
    intro m hm he
    rw [hkey] at he
    unfold UINT_MODULUS at he hd2
    omega
  refine ⟨hkey, ?_, by omega, hmin, ?_, ?_⟩
  · intro st E label ht hv
    have hp := (addEvent_bucket_perm st.m_regularEvt st.m_ticktock E st.m_mapTEvent).mem_iff.2
      (List.mem_append_left _ (List.mem_map.2 ⟨(label, d), hv, rfl⟩))
    rw [← hkey, ← ht]
    simpa [Xyh_Status.addEvent] using hp
  · intro m hm hlt he
    have := hmin m hm he
    omega
  · intro k
    have h := dueWithin_eq (n + 1) k (d - 1) (by omega)
    have hk : (n + 1 + (d - 1)) % UINT_MODULUS = timerKey n d := by
      rw [hkey]
      congr 1
      omega
    rw [hk] at h
    rw [h]
    by_cases c : d ≤ k
    · have c' : d - 1 < k := by omega
      simp [c, c']
    · have c' : ¬ d - 1 < k := by omega
      simp [c, c']

/-- C22, at snapshot 10 and delay 3, and at a snapshot just below 2^32, where the
key wraps around while the due tick does not. -/
theorem timerKey_first_due_witness :
    timerKey 10 3 = 13 ∧
    timerKey 4294967295 3 = 2 ∧
    (∀ m : Nat, 4294967295 < m → m % UINT_MODULUS = timerKey 4294967295 3 →
      4294967295 + 3 ≤ m) :=
  ⟨by decide, by decide,
   (timerKey_first_due 4294967295 3 (by decide) (by decide) (by decide)).2.2.2.1⟩

/-! ## An event that stays in its status -/

theorem SameStay_refl (w : World) (E : EventRef) (A : StatusRef) (label : Nat) :
    w.SameStay w E A label := ⟨rfl, rfl, rfl, rfl, rfl, rfl⟩

theorem SameStay_trans (w1 w2 w3 : World) (E : EventRef) (A : StatusRef) (label : Nat)
    (h12 : w1.SameStay w2 E A label) (h23 : w2.SameStay w3 E A label) :
    w1.SameStay w3 E A label :=
  ⟨h23.1.trans h12.1, h23.2.1.trans h12.2.1, h23.2.2.1.trans h12.2.2.1,
    h23.2.2.2.1.trans h12.2.2.2.1, h23.2.2.2.2.1.trans h12.2.2.2.2.1,
    h23.2.2.2.2.2.trans h12.2.2.2.2.2⟩

theorem StdMap.mem_insert_of_mem {β : Type} (m : List (Nat × β)) (k : Nat) (v : β)
    (p : Nat × β) (hp : p ∈ m) : p ∈ StdMap.insert m k v := by
  induction m with
  | nil => cases hp
  | cons q rest ih =>
    obtain ⟨a, x⟩ := q
    unfold StdMap.insert
    split_ifs
    · exact List.mem_cons_of_mem _ hp
    · exact hp
    · rcases List.mem_cons.1 hp with h | h
      · rw [h]; exact List.mem_cons_self _ _
      · exact List.mem_cons_of_mem _ (ih h)

theorem pending_insert_other (b : List (Nat × InStore)) (k label : Nat) (it : InStore)
    (E : EventRef) (h : it ≠ InStore.mk label E) :
    pending (StdMultimap.insert b k it) label E = pending b label E := by
  induction b with
  | nil => simp [StdMultimap.insert, pending, h]
  | cons p rest ih =>
    obtain ⟨a, x⟩ := p
    unfold StdMultimap.insert
    by_cases hk : k < a
    · simp [hk, pending, h]
    · simp only [hk, if_false]
      simp only [pending] at ih ⊢
      by_cases hx : x = InStore.mk label E <;> simp [List.filter_cons, hx, ih]

theorem pending_addEvent_other (st : Xyh_Status) (label : Nat) (E E' : EventRef)
    (hne : E' ≠ E) :
    pending (st.addEvent E').m_mapTEvent label E = pending st.m_mapTEvent label E := by
  have key : ∀ (tmpls : List (Nat × Nat)) (b : List (Nat × InStore)),
      pending (tmpls.foldl
        (fun m v => StdMultimap.insert m (timerKey st.m_ticktock v.2) (InStore.mk v.1 E')) b)
        label E = pending b label E := by
    intro tmpls
    induction tmpls with
    | nil => intro b; rfl
    | cons v rest ih =>
      intro b
      simp only [List.foldl_cons]
      rw [ih, pending_insert_other]
      intro h
      injection h with _ h2
      exact hne h2
  exact key _ _

theorem enter_sameStay (w : World) (E' E : EventRef) (S A : StatusRef) (sig msg label : Nat)
    (hne : E' ≠ E) : w.SameStay (Xyh_Event.enter w E' (some S) sig msg).1 E A label := by
  have hne' : E ≠ E' := fun e => hne e.symm
  by_cases hr : ((w.event E').marked && (w.status S).m_fade) = true
  · rw [enter_recycle w E' S sig msg hr]
    refine ⟨?_, ?_, ?_, rfl, rfl, ?_⟩
    · simp [Function.update_apply, hne']
    · simp [Function.update_apply, hne']
    · simp [Function.update_apply, hne']
    · simp [List.count_append]
  · rw [enter_attach w E' S sig msg (by simpa using hr)]
    refine ⟨?_, ?_, ?_, ?_, ?_, ?_⟩
    · simp [Function.update_apply, hne']
    · simp [Function.update_apply, hne']
    · simp [Function.update_apply, hne']
    · by_cases hA : A = S
      · subst hA; simp [Xyh_Status.addEvent]
      · simp [Function.update_apply, hA]
    · by_cases hA : A = S
      · subst hA
        simp only [Function.update_same]
        exact pending_addEvent_other _ label E E' hne
      · simp [Function.update_apply, hA]
    · simp [List.count_append]

theorem removeEvent_sameStay (w : World) (c : StatusRef) (E' E : EventRef) (A : StatusRef)
    (label : Nat) : w.SameStay (Xyh_Status.removeEvent w c E') E A label := by
  refine ⟨rfl, rfl, rfl, ?_, ?_, rfl⟩
  · by_cases h : A = c
    · subst h; simp [Xyh_Status.removeEvent, World.setStatus]
    · simp [Xyh_Status.removeEvent, World.setStatus, Function.update_apply, h]
  · rw [removeEvent_bucket]

theorem move_sameStay (w : World) (E' E : EventRef) (S A : StatusRef) (sig msg label : Nat)
    (hne : E' ≠ E) : w.SameStay (Xyh_Event.move w E' (some S) sig msg).1 E A label := by
  by_cases hx : (w.event E').expired = true
  · simp only [Xyh_Event.move, hx, if_true]
    exact SameStay_refl _ _ _ _
  · cases hc : (w.event E').m_curStatus with
    | none =>
      simp only [Xyh_Event.move, hx, hc, if_false, Bool.false_eq_true]
      exact enter_sameStay w E' E S A sig msg label hne
    | some c =>
      simp only [Xyh_Event.move, hx, hc, if_false, Bool.false_eq_true]
      exact SameStay_trans _ _ _ _ _ _ (removeEvent_sameStay w c E' E A label)
        (enter_sameStay _ E' E S A sig msg label hne)

theorem enter_route (w : World) (E' : EventRef) (S : StatusRef) (sig msg : Nat)
    (T : StatusRef) (sg : Nat) :
    ((Xyh_Event.enter w E' (some S) sig msg).1.status T).route T sg =
      (w.status T).route T sg := by
  by_cases hr : ((w.event E').marked && (w.status S).m_fade) = true
  · rw [enter_recycle w E' S sig msg hr]
  · rw [enter_attach w E' S sig msg (by simpa using hr)]
    by_cases hT : T = S
    · subst hT
      simp [Xyh_Status.route, Xyh_Status.addEvent]
    · simp [Function.update_apply, hT]

theorem removeEvent_route (w : World) (c : StatusRef) (E' : EventRef) (T : StatusRef)
    (sg : Nat) :
    ((Xyh_Status.removeEvent w c E').status T).route T sg = (w.status T).route T sg := by
  by_cases h : T = c
  · subst h; simp [Xyh_Status.removeEvent, World.setStatus, Xyh_Status.route]
  · simp [Xyh_Status.removeEvent, World.setStatus, Function.update_apply, h]

theorem move_route (w : World) (E' : EventRef) (S : StatusRef) (sig msg : Nat)
    (T : StatusRef) (sg : Nat) :
    ((Xyh_Event.move w E' (some S) sig msg).1.status T).route T sg =
      (w.status T).route T sg := by
  by_cases hx : (w.event E').expired = true
  · simp only [Xyh_Event.move, hx, if_true]
  · cases hc : (w.event E').m_curStatus with
    | none =>
      simp only [Xyh_Event.move, hx, hc, if_false, Bool.false_eq_true]
      exact enter_route w E' S sig msg T sg
    | some c =>
      simp only [Xyh_Event.move, hx, hc, if_false, Bool.false_eq_true]
      rw [enter_route, removeEvent_route]

theorem place_sameStay (w : World) (e E : EventRef) (s : Option StatusRef) (A : StatusRef)
    (sig msg label : Nat) (hcur : (w.event E).m_curStatus = some A)
    (hdef : (Xyh_Event.place w e s sig msg).2 ≠ Outcome.undefined) :
    w.SameStay (Xyh_Event.place w e s sig msg).1 E A label := by
  unfold Xyh_Event.place at hdef ⊢
  by_cases hx : (w.event e).expired = true
  · simp only [hx, if_true]
    exact SameStay_refl _ _ _ _
  · cases hc : (w.event e).m_curStatus with
    | some c =>
      simp only [hx, hc, Option.isSome_some, if_true, if_false, Bool.false_eq_true]
      exact SameStay_refl _ _ _ _
    | none =>
      have hne : e ≠ E := by
        intro h
        rw [h, hcur] at hc
        cases hc
      simp only [hx, hc, Option.isSome_none, if_false, Bool.false_eq_true] at hdef ⊢
      cases s with
      | none => simp [Xyh_Event.enter] at hdef
      | some S => exact enter_sameStay w e E S A sig msg label hne

theorem call_routine_sameStay (w : World) (S : StatusRef) (e : EventRef) (sig msg : Nat)
    (E : EventRef) (A : StatusRef) (label : Nat) :
    w.SameStay (w.call (Call.routine S e sig msg)) E A label :=
  ⟨rfl, rfl, rfl, rfl, rfl, by simp [World.call, List.count_append]⟩

theorem digestion_sameStay (m : Machine) (E : EventRef) (A : StatusRef) (eid sig msg : Nat)
    (label : Nat) (hcur : (m.world.event E).m_curStatus = some A)
    (hexp : (m.world.event E).expired = false)
    (hst : (Op.digestion eid sig msg).enters m E = false) :
    m.world.SameStay (m.jsm.digestion m.world eid sig msg).1 E A label := by
  unfold Xyh_Jsm.digestion
  cases hf : m.jsm.findEvent eid with
  | none => exact SameStay_refl _ _ _ _
  | some ev =>
    simp only
    by_cases hx : (m.world.event ev).expired = true
    · simp only [hx, if_true]
      exact SameStay_refl _ _ _ _
    · simp only [hx, if_false, Bool.false_eq_true]
      cases hc : (m.world.event ev).m_curStatus with
      | none => exact SameStay_refl _ _ _ _
      | some cS =>
        simp only
        cases hr : (m.world.status cS).route cS sig with
        | none => exact SameStay_refl _ _ _ _
        | some nS =>
          simp only
          by_cases hid : (m.world.status cS).m_Id = (m.world.status nS).m_Id
          · simp only [hid, if_true]
            exact call_routine_sameStay _ _ _ _ _ _ _ _
          · simp only [hid, if_false]
            have hne : ev ≠ E := by
              intro h
              subst h
              rw [hcur] at hc
              cases hc
              simp [Op.enters, hf, hexp, hcur, hr, hid] at hst
            exact move_sameStay m.world ev E nS A sig msg label hne

theorem process_sameStay (m : Machine) (E : EventRef) (A : StatusRef) (eid sig msg : Nat)
    (label : Nat) (hcur : (m.world.event E).m_curStatus = some A)
    (hexp : (m.world.event E).expired = false)
    (hst : (Op.process eid sig msg).enters m E = false) :
    m.world.SameStay (m.jsm.process m.world eid sig msg).1 E A label := by
  unfold Xyh_Jsm.process
  cases hf : m.jsm.findEvent eid with
  | none => exact SameStay_refl _ _ _ _
  | some ev =>
    simp only
    by_cases hx : (m.world.event ev).expired = true
    · simp only [hx, if_true]
      exact SameStay_refl _ _ _ _
    · simp only [hx, if_false, Bool.false_eq_true]
      cases hc : (m.world.event ev).m_curStatus with
      | none => exact SameStay_refl _ _ _ _
      | some cS =>
        simp only
        cases hr : (m.world.status cS).route cS sig with
        | none => exact SameStay_refl _ _ _ _
        | some nS =>
          simp only
          have hne : ev ≠ E := by
            intro h
            subst h
            rw [hcur] at hc
            cases hc
            simp [Op.enters, hf, hexp, hcur, hr] at hst
          exact move_sameStay m.world ev E nS A sig msg label hne

theorem processLoop_sameStay (E : EventRef) (A : StatusRef) (sig msg label : Nat)
    (l : List (Nat × EventRef)) :
    ∀ w : World, (w.event E).m_curStatus = some A → (w.event E).expired = false →
      (E ∈ l.map Prod.snd → (w.status A).route A sig = none) →
      w.SameStay (Xyh_Jsm.processLoop sig msg w l).1 E A label := by
  induction l with
  | nil => intro w _ _ _; exact SameStay_refl _ _ _ _
  | cons p rest ih =>
    intro w hcur hexp hroute
    obtain ⟨k, ev⟩ := p
    have hrest : E ∈ rest.map Prod.snd → (w.status A).route A sig = none :=
      fun h => hroute (List.mem_cons_of_mem _ h)
    unfold Xyh_Jsm.processLoop
    by_cases hx : (w.event ev).expired = true
    · simp only [hx, if_true]
      exact ih w hcur hexp hrest
    · cases hc : (w.event ev).m_curStatus with
      | none =>
        simp only [hx, if_false, Bool.false_eq_true]
        exact SameStay_refl _ _ _ _
      | some cS =>
        cases hr : (w.status cS).route cS sig with
        | none =>
          simp only [hx, hr, if_false, Bool.false_eq_true]
          exact ih (w.print _) hcur hexp hrest
        | some nS =>
          simp only [hx, hr, if_false, Bool.false_eq_true]
          have hne : ev ≠ E := by
            intro h
            subst h
            rw [hcur] at hc
            cases hc
            rw [hroute (by simp)] at hr
            cases hr
          have hm := move_sameStay w ev E nS A sig msg label hne
          have hrt := move_route w ev nS sig msg A sig
          have ho := move_outcome w ev nS sig msg
          generalize Xyh_Event.move w ev (some nS) sig msg = r at hm hrt ho
          obtain ⟨w1, o⟩ := r
          simp only at ho hm hrt
          subst ho
          simp only
          refine SameStay_trans _ _ _ _ _ _ hm (ih w1 (by rw [hm.1]; exact hcur)
            (by rw [hm.2.2.1]; exact hexp) ?_)
          intro h
          rw [hrt]
          exact hrest h

theorem setStt_sameStay (w : World) (e E : EventRef) (A : StatusRef) (label v : Nat)
    (hv : v ≠ STT_RECYCLE) (hexp : (w.event E).expired = false) :
    w.SameStay (w.setEvent e { w.event e with m_stt := v }) E A label := by
  refine ⟨?_, ?_, ?_, rfl, rfl, rfl⟩
  · by_cases c : E = e
    · subst c; simp [World.setEvent]
    · simp [World.setEvent, Function.update_apply, c]
  · by_cases c : E = e
    · subst c; simp [World.setEvent]
    · simp [World.setEvent, Function.update_apply, c]
  · by_cases c : E = e
    · subst c
      rw [hexp]
      simp [World.setEvent, Xyh_Event.expired, hv]
    · simp [World.setEvent, Function.update_apply, c]

theorem run_sameStay (m : Machine) (op : Op) (E : EventRef) (A : StatusRef) (label : Nat)
    (hcur : (m.world.event E).m_curStatus = some A)
    (hexp : (m.world.event E).expired = false)
    (hst : op.enters m E = false)
    (hdef : (m.run op).2 ≠ Outcome.undefined)
    (hnt : op ≠ Op.ticktock false) :
    m.world.SameStay (m.run op).1.world E A label ∧
    (∀ q ∈ m.jsm.m_mapStatus, q ∈ (m.run op).1.jsm.m_mapStatus) ∧
    (m.run op).1.jsm.m_ticktock = m.jsm.m_ticktock := by
  cases op with
  | addStatus s =>
    cases s with
    | none => exact ⟨SameStay_refl _ _ _ _, fun q hq => hq, rfl⟩
    | some sr =>
      exact ⟨SameStay_refl _ _ _ _, fun q hq => StdMap.mem_insert_of_mem _ _ _ q hq, rfl⟩
  | addEvent e =>
    refine ⟨SameStay_refl _ _ _ _, ?_, ?_⟩
    · intro q hq
      simp only [Machine.run, Xyh_Jsm.addEvent]
      cases e with
      | none => exact hq
      | some er => simp only; split <;> exact hq
    · simp only [Machine.run, Xyh_Jsm.addEvent]
      cases e with
      | none => rfl
      | some er => simp only; split <;> rfl
  | setup s c =>
    refine ⟨⟨rfl, rfl, rfl, ?_, ?_, rfl⟩, fun q hq => hq, rfl⟩
    · by_cases h : A = s
      · subst h
        cases c <;> simp [Machine.run, World.setStatus, Xyh_Status.setup, Xyh_Status.addLink,
          Xyh_Status.addLinkSelf, Xyh_Status.regular]
      · simp [Machine.run, World.setStatus, Function.update_apply, h]
    · by_cases h : A = s
      · subst h
        cases c <;> simp [Machine.run, World.setStatus, Xyh_Status.setup, Xyh_Status.addLink,
          Xyh_Status.addLinkSelf, Xyh_Status.regular]
      · simp [Machine.run, World.setStatus, Function.update_apply, h]
  | place e s signal msg =>
    exact ⟨place_sameStay m.world e E s A signal msg label hcur hdef, fun q hq => hq, rfl⟩
  | digestion eid sig msg =>
    exact ⟨digestion_sameStay m E A eid sig msg label hcur hexp hst, fun q hq => hq, rfl⟩
  | process eid sig msg =>
    exact ⟨process_sameStay m E A eid sig msg label hcur hexp hst, fun q hq => hq, rfl⟩
  | processAll sig msg =>
    refine ⟨processLoop_sameStay E A sig msg label m.jsm.m_mapEvent m.world hcur hexp ?_,
      fun q hq => hq, rfl⟩
    intro hmem
    have hany : m.jsm.m_mapEvent.any (fun p => p.2 == E) = true := by
      obtain ⟨p, hp, he⟩ := List.mem_map.1 hmem
      exact List.any_eq_true.2 ⟨p, hp, by simp [he]⟩
    simp only [Op.enters, hany, hexp, hcur, Bool.not_false, Bool.true_and] at hst
    cases hr : (m.world.status A).route A sig with
    | none => rfl
    | some nS => rw [hr] at hst; cases hst
  | ticktock e =>
    cases e with
    | true => exact ⟨SameStay_refl _ _ _ _, fun q hq => hq, rfl⟩
    | false => exact absurd rfl hnt
  | expire e =>
    exact ⟨setStt_sameStay m.world e E A label STT_BEMARKED (by decide) hexp,
      fun q hq => hq, rfl⟩
  | survive e =>
    exact ⟨setStt_sameStay m.world e E A label STT_SURVIVE (by decide) hexp,
      fun q hq => hq, rfl⟩
  | expireEvent id =>
    refine ⟨?_, fun q hq => hq, rfl⟩
    simp only [Machine.run, Xyh_Jsm.expireEvent]
    cases hf : StdMap.find m.jsm.m_mapEvent id with
    | none => exact SameStay_refl _ _ _ _
    | some ev => exact setStt_sameStay m.world ev E A label STT_BEMARKED (by decide) hexp
  | relEvent id =>
    refine ⟨?_, fun q hq => hq, rfl⟩
    simp only [Machine.run, Xyh_Jsm.relEvent]
    cases hf : StdMap.find m.jsm.m_mapEvent id with
    | none => exact SameStay_refl _ _ _ _
    | some ev => exact setStt_sameStay m.world ev E A label STT_BEMARKED (by decide) hexp

theorem beq_comm_nat (x y : Nat) : (x == y) = (y == x) := by
  by_cases h : x = y
  · rw [h]
  · have h' : ¬ y = x := fun e => h e.symm
    rw [beq_eq_false_iff_ne.2 h, beq_eq_false_iff_ne.2 h']

theorem Jsm_ticktock_step_any (j : Xyh_Jsm) (w : World) (A : StatusRef) (label : Nat)
    (E : EventRef) (hbp : j.bucketsPlaced w)
    (hexp : (w.event E).expired = false) (hcur : (w.event E).m_curStatus = some A) :
    (j.ticktock w false).2.2 = Outcome.ok ∧
    (j.ticktock w false).1 = { j with m_ticktock := (j.m_ticktock + 1) % ULL_MODULUS } ∧
    (j.ticktock w false).2.1.event = w.event ∧
    pending ((j.ticktock w false).2.1.status A).m_mapTEvent label E =
      (if A ∈ j.m_mapStatus.map Prod.snd then
        (pending (w.status A).m_mapTEvent label E).filter
          (fun k => !(k == j.m_ticktock % UINT_MODULUS))
       else pending (w.status A).m_mapTEvent label E) ∧
    (j.ticktock w false).2.1.calls.count (Call.timerRoutine A label E) =
      w.calls.count (Call.timerRoutine A label E) +
      (if A ∈ j.m_mapStatus.map Prod.snd then
        ((pending (w.status A).m_mapTEvent label E).filter
          (fun k => k == j.m_ticktock % UINT_MODULUS)).length
       else 0) := by
  obtain ⟨h1, -, h3, -, h4, h5⟩ := tickLoop_step j A label E j.m_ticktock j.m_mapStatus w
    (fun q hq => hq) hbp hexp hcur
  simp only [Xyh_Jsm.ticktock, Bool.false_eq_true, if_false]
  generalize Xyh_Jsm.tickLoop j.m_ticktock w j.m_mapStatus = r at h1 h3 h4 h5
  obtain ⟨w1, o⟩ := r
  simp only at h1 h3 h4 h5
  subst h1
  exact ⟨rfl, rfl, h3, h4, h5⟩

/-- An event `E` that lives in status `A` and is not recycled, over any run of calls
that carries it into no status: it stays in `A` with its enter time, the counter
advances by the number of ticks of the run, and as long as no pending entry for
`(label, E)` has the key of one of these ticks, the pending entries stay and
`timerRoutine(label, E)` of `A` is not called. -/
theorem stays_quiet (E : EventRef) (A : StatusRef) (label : Nat) (ops : List Op) :
    ∀ (m1 m : Machine), m1.world.BucketsPlaced →
      (m1.world.event E).expired = false → (m1.world.event E).m_curStatus = some A →
      Machine.runAll false m1 ops = some m → Machine.stays E m1 ops = true →
      m.world.BucketsPlaced ∧
      (m.world.event E).expired = false ∧ (m.world.event E).m_curStatus = some A ∧
      (m.world.event E).m_enterTime = (m1.world.event E).m_enterTime ∧
      m.jsm.m_ticktock % UINT_MODULUS =
        (m1.jsm.m_ticktock + ops.count (Op.ticktock false)) % UINT_MODULUS ∧
      ((∀ x ∈ pending (m1.world.status A).m_mapTEvent label E,
          dueWithin m1.jsm.m_ticktock (ops.count (Op.ticktock false)) x = false) →
        pending (m.world.status A).m_mapTEvent label E =
          pending (m1.world.status A).m_mapTEvent label E ∧
        m.world.calls.count (Call.timerRoutine A label E) =
          m1.world.calls.count (Call.timerRoutine A label E)) := by
  induction ops with
  | nil =>
    intro m1 m hB hexp hcur hrun _
    simp only [Machine.runAll, Option.some.injEq] at hrun
    subst hrun
    exact ⟨hB, hexp, hcur, rfl, by simp, fun _ => ⟨rfl, rfl⟩⟩
  | cons op rest ih =>
    intro m1 m hB hexp hcur hrun hstay
    simp only [Machine.runAll] at hrun
    split at hrun
    · cases hrun
    · rename_i hc
      simp only [Bool.or_eq_true, Bool.and_eq_true, beq_iff_eq, not_or, not_and] at hc
      have hdef : (m1.run op).2 ≠ Outcome.undefined := hc.2
      simp only [Machine.stays, Bool.and_eq_true, Bool.not_eq_true'] at hstay
      obtain ⟨hst, hstay'⟩ := hstay
      have hB2 := run_bucketsPlaced m1 op hB hdef
      by_cases htick : op = Op.ticktock false
      · subst htick
        have hbp : m1.jsm.bucketsPlaced m1.world := fun q _ p hp => hB q.2 p hp
        obtain ⟨-, h2, h4, h6, h7⟩ :=
          Jsm_ticktock_step_any m1.jsm m1.world A label E hbp hexp hcur
        have e1 : (m1.run (Op.ticktock false)).1.jsm = (m1.jsm.ticktock m1.world false).1 := rfl
        have e2 : (m1.run (Op.ticktock false)).1.world =
            (m1.jsm.ticktock m1.world false).2.1 := rfl
        obtain ⟨g2, g3, g4, g5, g6, g7⟩ := ih (m1.run (Op.ticktock false)).1 m
          hB2 (by rw [e2, h4]; exact hexp) (by rw [e2, h4]; exact hcur) hrun hstay'
        refine ⟨g2, g3, g4, by rw [g5, e2, h4], ?_, ?_⟩
        · rw [g6, e1, h2, List.count_cons_self]
          simp only
          unfold UINT_MODULUS ULL_MODULUS
          omega
        · intro hq
          rw [List.count_cons_self] at hq
          have hnow : ∀ x ∈ pending (m1.world.status A).m_mapTEvent label E,
              (x == m1.jsm.m_ticktock % UINT_MODULUS) = false := by
            intro x hx
            have h := hq x hx
            rw [dueWithin_succ, Bool.or_eq_false_iff] at h
            rw [beq_comm_nat]
            exact h.1
          have hkeep : (pending (m1.world.status A).m_mapTEvent label E).filter
              (fun k => !(k == m1.jsm.m_ticktock % UINT_MODULUS)) =
              pending (m1.world.status A).m_mapTEvent label E := by
            rw [List.filter_eq_self]
            intro x hx
            simp [hnow x hx]
          have hnone : (pending (m1.world.status A).m_mapTEvent label E).filter
              (fun k => k == m1.jsm.m_ticktock % UINT_MODULUS) = [] := by
            rw [List.filter_eq_nil_iff]
            intro x hx
            simp [hnow x hx]
          rw [hkeep, ite_self] at h6
          rw [hnone, List.length_nil, ite_self, Nat.add_zero] at h7
          obtain ⟨k1, k2⟩ := g7 (by
            intro x hx
            rw [e2, h6] at hx
            have h := hq x hx
            rw [dueWithin_succ, Bool.or_eq_false_iff] at h
            rw [e1, h2]
            simp only
            rw [dueWithin_mod]
            exact h.2)
          exact ⟨by rw [k1, e2, h6], by rw [k2, e2, h7]⟩
      · obtain ⟨hs, -, hck⟩ := run_sameStay m1 op E A label hcur hexp hst hdef htick
        obtain ⟨s1, s2, s3, -, s5, s6⟩ := hs
        obtain ⟨g2, g3, g4, g5, g6, g7⟩ := ih (m1.run op).1 m hB2
          (by rw [s3]; exact hexp) (by rw [s1]; exact hcur) hrun hstay'
        have hcount : List.count (Op.ticktock false) (op :: rest) =
            List.count (Op.ticktock false) rest :=
          List.count_cons_of_ne (fun e => htick e.symm) rest
        refine ⟨g2, g3, g4, by rw [g5, s2], by rw [g6, hcount, hck], ?_⟩
        intro hq
        rw [hcount] at hq
        obtain ⟨k1, k2⟩ := g7 (by
          intro x hx
          rw [s5] at hx
          rw [hck]
          exact hq x hx)
        exact ⟨by rw [k1, s5], by rw [k2, s6]⟩

theorem stays_take (E : EventRef) (ops : List Op) :
    ∀ (m : Machine) (n : Nat), Machine.stays E m ops = true →
      Machine.stays E m (ops.take n) = true := by
  induction ops with
  | nil => intro m n h; simpa using h
  | cons op rest ih =>
    intro m n h
    cases n with
    | zero => rfl
    | succ n =>
      simp only [Machine.stays, Bool.and_eq_true, List.take_succ_cons] at h ⊢
      exact ⟨h.1, ih _ n h.2⟩

theorem runAll_registered (gentle : Bool) (A : StatusRef) (ops : List Op) :
    ∀ (m1 m : Machine), A ∈ m1.jsm.m_mapStatus.map Prod.snd →
      Machine.runAll gentle m1 ops = some m → A ∈ m.jsm.m_mapStatus.map Prod.snd := by
  induction ops with
  | nil =>
    intro m1 m hA hrun
    simp only [Machine.runAll, Option.some.injEq] at hrun
    subst hrun
    exact hA
  | cons op rest ih =>
    intro m1 m hA hrun
    simp only [Machine.runAll] at hrun
    split at hrun
    · cases hrun
    · refine ih (m1.run op).1 m ?_ hrun
      cases op with
      | addStatus s =>
        cases s with
        | none => exact hA
        | some sr =>
          obtain ⟨q, hq, he⟩ := List.mem_map.1 hA
          exact List.mem_map.2 ⟨q, StdMap.mem_insert_of_mem _ _ _ q hq, he⟩
      | addEvent e =>
        simp only [Machine.run, Xyh_Jsm.addEvent]
        cases e with
        | none => exact hA
        | some er => simp only; split <;> exact hA
      | ticktock e =>
        simp only [Machine.run, Xyh_Jsm.ticktock]
        split
        · exact hA
        · split <;> exact hA
      | relEvent id => exact hA
      | setup s c => exact hA
      | place e s signal msg => exact hA
      | digestion eid sig msg => exact hA
      | process eid sig msg => exact hA
      | processAll sig msg => exact hA
      | expire e => exact hA
      | survive e => exact hA
      | expireEvent id => exact hA

theorem enter_enterTime (w : World) (E : EventRef) (S : StatusRef) (sig msg : Nat) :
    ((Xyh_Event.enter w E (some S) sig msg).1.event E).m_enterTime = (w.status S).m_ticktock := by
  by_cases hr : ((w.event E).marked && (w.status S).m_fade) = true
  · rw [enter_recycle w E S sig msg hr]
    simp
  · rw [enter_attach w E S sig msg (by simpa using hr)]
    simp

theorem entry_enterTime (w0 w1 : World) (E : EventRef) (A : StatusRef) (sig msg : Nat)
    (hentry : Xyh_Event.place w0 E (some A) sig msg = (w1, Outcome.ok) ∨
      Xyh_Event.move w0 E (some A) sig msg = (w1, Outcome.ok))
    (hlive : (w1.event E).expired = false) :
    (w1.event E).m_enterTime = (w0.status A).m_ticktock := by
  rcases hentry with h | h
  · unfold Xyh_Event.place at h
    split at h
    · simp at h
    · split at h
      · simp at h
      · have h1 : w1 = (Xyh_Event.enter w0 E (some A) sig msg).1 := by rw [h]
        subst h1
        exact enter_enterTime _ _ _ _ _
  · by_cases hx : (w0.event E).expired = true
    · simp only [Xyh_Event.move, hx, if_true] at h
      have h1 : w1 = w0 := by simpa using h.symm
      subst h1
      rw [hx] at hlive
      simp at hlive
    · cases hc : (w0.event E).m_curStatus with
      | none =>
        simp only [Xyh_Event.move, hx, hc, if_false, Bool.false_eq_true] at h
        have h1 : w1 = (Xyh_Event.enter w0 E (some A) sig msg).1 := by rw [h]
        subst h1
        exact enter_enterTime _ _ _ _ _
      | some cur =>
        simp only [Xyh_Event.move, hx, hc, if_false, Bool.false_eq_true] at h
        have h1 : w1 = (Xyh_Event.enter (Xyh_Status.removeEvent w0 cur E) E (some A) sig msg).1 := by
          rw [h]
        subst h1
        rw [enter_enterTime]
        exact (removeEvent_sameStay w0 cur E E A 0).2.2.2.1

theorem ticks_bucketsPlaced (n : Nat) :
    ∀ (j : Xyh_Jsm) (w : World), w.BucketsPlaced → (j.ticks n w).2.1.BucketsPlaced := by
  induction n with
  | zero => intro j w h; exact h
  | succ n ih =>
    intro j w h
    have hf := Jsm_ticktock_frame j w false
    have hb := Jsm_ticktock_bucket_subset j w false
    have h1 : (j.ticktock w false).2.1.BucketsPlaced :=
      BucketsPlaced_congr w _ (fun e he => by rw [hf.1]; exact he) hb h
    simp only [Xyh_Jsm.ticks]
    generalize j.ticktock w false = r at h1
    obtain ⟨j1, w1, o⟩ := r
    cases o with
    | ok => exact ih j1 w1 h1
    | thrown e1 => exact h1
    | undefined => exact h1

theorem stayWorld_bucketsPlaced : stayWorld.BucketsPlaced := by
  have h0 : rearmWorld0.BucketsPlaced := by
    intro s p hp
    have he : (rearmWorld0.status s).m_mapTEvent = [] := by
      simp only [rearmWorld0, World.setStatus, Function.update_apply]
      split_ifs <;> rfl
    rw [he] at hp
    cases hp
  exact place_bucketsPlaced stayWorld0 5 (some 0) 0 0
    (ticks_bucketsPlaced 11 rearmJsm0 rearmWorld0 h0) (by decide)

theorem freshPlaced_bucketsPlaced :
    (Xyh_Event.place timerWorld0 5 (some 0) 0 0).1.BucketsPlaced :=
  place_bucketsPlaced timerWorld0 5 (some 0) 0 0
    (Initial_bucketsPlaced timedStart timedStart_initial) (by decide)

/-- C7 amended. Status `A` has exactly one scheduled timeout with the label,
`(label, delay)`; its bucket holds no entry for `(label, E)`; `E` enters `A` by
`place` or by `move` at the snapshot `t` of `A` and is not recycled by the entry; no
bucket names an event without a current status. Any calls of the public interface
follow that carry `E` into no status and dereference no null pointer (ticks,
cancelled ticks, registrations, configuration, placements and moves of other
events, a `digestion` of `E` routed to `A` itself, signals without a route, the
lifecycle setters on any event), fewer than 2^32 of them ticks, until the counter
stands at `t + delay` (modulo 2^64) while `A` is registered; then comes the tick
that processes `t + delay`, then any further such calls. Up to that tick, after
every call of the first run, `timerRoutine(label, E)` of `A` has not been called and
a tick would return normally; that tick returns normally, brings the snapshot of
`A` to `t + delay` and calls `timerRoutine(label, E)` once; whatever follows calls it
no more, the next tick returns normally, and `E` is still in `A` with enter time
`t`. -/
theorem timeout_fires_once (j : Xyh_Jsm) (w0 w1 : World) (E : EventRef) (A : StatusRef)
    (label delay sig msg : Nat) (before after : List Op) (m2 m3 : Machine)
    (htmpl : (w0.status A).m_regularEvt.filter (fun v => v.1 == label) = [(label, delay)])
    (hstale : pending (w0.status A).m_mapTEvent label E = [])
    (hentry : Xyh_Event.place w0 E (some A) sig msg = (w1, Outcome.ok) ∨
      Xyh_Event.move w0 E (some A) sig msg = (w1, Outcome.ok))
    (hlive : (w1.event E).expired = false)
    (hsafe : w1.BucketsPlaced)
    (hrun1 : Machine.runAll false { jsm := j, world := w1 } before = some m2)
    (hstay1 : Machine.stays E { jsm := j, world := w1 } before = true)
    (hk : before.count (Op.ticktock false) < UINT_MODULUS)
    (hdue : m2.jsm.m_ticktock = ((w0.status A).m_ticktock + delay) % ULL_MODULUS)
    (hreg : A ∈ m2.jsm.m_mapStatus.map Prod.snd)
    (hrun2 : Machine.runAll false (m2.run (Op.ticktock false)).1 after = some m3)
    (hstay2 : Machine.stays E (m2.run (Op.ticktock false)).1 after = true) :
    (∀ (n : Nat) (m : Machine),
      Machine.runAll false { jsm := j, world := w1 } (before.take n) = some m →
        m.world.calls.count (Call.timerRoutine A label E) =
          w1.calls.count (Call.timerRoutine A label E) ∧
        (m.run (Op.ticktock false)).2 = Outcome.ok) ∧
    (m2.run (Op.ticktock false)).2 = Outcome.ok ∧
    ((m2.run (Op.ticktock false)).1.world.status A).m_ticktock =
      ((w0.status A).m_ticktock + delay) % ULL_MODULUS ∧
    (m2.run (Op.ticktock false)).1.world.calls.count (Call.timerRoutine A label E) =
      w1.calls.count (Call.timerRoutine A label E) + 1 ∧
    m3.world.calls.count (Call.timerRoutine A label E) =
      w1.calls.count (Call.timerRoutine A label E) + 1 ∧
    (m3.run (Op.ticktock false)).2 = Outcome.ok ∧
    (m3.world.event E).m_curStatus = some A ∧
    (m3.world.event E).m_enterTime = (w0.status A).m_ticktock := by
  obtain ⟨hcur, hpend⟩ := entry_pending w0 w1 E A label delay sig msg htmpl hstale hentry hlive
  obtain ⟨f2, f3, f4, f5, f6, f7⟩ := stays_quiet E A label before { jsm := j, world := w1 } m2
    hsafe hlive hcur hrun1 hstay1
  simp only at f5 f6 f7
  have hkey : timerKey (w0.status A).m_ticktock delay =
      (j.m_ticktock + before.count (Op.ticktock false)) % UINT_MODULUS := by
    unfold timerKey
    rw [← hdue]
    exact f6
  have hnd : ∀ K : Nat, K ≤ before.count (Op.ticktock false) →
      ∀ x ∈ pending (w1.status A).m_mapTEvent label E, dueWithin j.m_ticktock K x = false := by
    intro K hK x hx
    rw [hpend, List.mem_singleton] at hx
    rw [hx, hkey, dueWithin_eq j.m_ticktock K _ hk]
    simp only [decide_eq_false_iff_not]
    omega
  obtain ⟨q1, q2⟩ := f7 (hnd _ (Nat.le_refl _))
  have hbp2 : m2.jsm.bucketsPlaced m2.world := fun q _ p hp => f2 q.2 p hp
  obtain ⟨t1, -, -, t4, t5, t6, t7⟩ := Jsm_ticktock_step m2.jsm m2.world A label E hreg hbp2 f3 f4
  have e2 : (m2.run (Op.ticktock false)).1.world = (m2.jsm.ticktock m2.world false).2.1 := rfl
  have eo : (m2.run (Op.ticktock false)).2 = (m2.jsm.ticktock m2.world false).2.2 := rfl
  have hkey2 : timerKey (w0.status A).m_ticktock delay = m2.jsm.m_ticktock % UINT_MODULUS := by
    unfold timerKey
    rw [← hdue]
  rw [q1, hpend, hkey2] at t6 t7
  simp only [List.filter_cons, List.filter_nil, beq_self_eq_true, Bool.not_true,
    Bool.false_eq_true, if_false, if_true, List.length_singleton] at t6 t7
  obtain ⟨a2, a3, a4, a5, -, a7⟩ := stays_quiet E A label after (m2.run (Op.ticktock false)).1 m3
    (run_bucketsPlaced m2 (Op.ticktock false) f2 (by rw [eo, t1]; decide))
    (by rw [e2, t4]; exact f3) (by rw [e2, t4]; exact f4) hrun2 hstay2
  obtain ⟨-, b2⟩ := a7 (by
    intro x hx
    rw [e2, t6] at hx
    cases hx)
  refine ⟨?_, by rw [eo, t1], by rw [e2, t5, hdue], by rw [e2, t7, q2], ?_, ?_, a4, ?_⟩
  · intro n m hrun
    obtain ⟨p2, -, -, -, -, p7⟩ := stays_quiet E A label (before.take n) { jsm := j, world := w1 }
      m hsafe hlive hcur hrun (stays_take E before _ n hstay1)
    exact ⟨(p7 (hnd _ ((List.take_sublist n before).count_le _))).2,
      (Jsm_ticktock_effect m.jsm m.world (fun q _ p hp => p2 q.2 p hp)).1⟩
  · rw [b2, e2, t7, q2]
  · exact (Jsm_ticktock_effect m3.jsm m3.world (fun q _ p hp => a2 q.2 p hp)).1
  · rw [a5, e2, t4, f5]
    exact entry_enterTime w0 w1 E A sig msg hentry hlive

/-- C7 amended, at the scenario of section 8 with other calls between the ticks:
event 5 enters status 0 at snapshot 10 while the counter is 11; after tick 11, the
placement of event 6, a `digestion` of event 5 routed to status 0 itself, the
marking of event 5 and tick 12, `timerRoutine(7, event 5)` has not been called; tick
13 brings the snapshot to 13 and calls it once; the unmarking and tick 14 leave it
at one call. On a machine that has not ticked yet the event enters at snapshot 0
while the counter is 0: no call after the ticks 0, 1 and 2, one call after tick 3,
which brings the snapshot to 3. The same holds when status 0 is registered only
after tick 0. -/
theorem timeout_fires_once_witness :
    ((stayMachine 5).world.calls.count (Call.timerRoutine 0 7 5) = 0 ∧
      (((stayMachine 7).run (Op.ticktock false)).1.world.status 0).m_ticktock = 13 ∧
      ((stayMachine 7).run (Op.ticktock false)).1.world.calls.count
        (Call.timerRoutine 0 7 5) = 1 ∧
      stayLast.world.calls.count (Call.timerRoutine 0 7 5) = 1) ∧
    (freshMachine.world.calls.count (Call.timerRoutine 0 7 5) = 0 ∧
      ((freshMachine.run (Op.ticktock false)).1.world.status 0).m_ticktock = 3 ∧
      (freshMachine.run (Op.ticktock false)).1.world.calls.count
        (Call.timerRoutine 0 7 5) = 1) ∧
    (lateMachine.world.calls.count (Call.timerRoutine 0 7 5) = 0 ∧
      (lateMachine.run (Op.ticktock false)).1.world.calls.count
        (Call.timerRoutine 0 7 5) = 1) :=
  have h1 := timeout_fires_once stayJsm stayWorld0 stayWorld 5 0 7 3 0 0 stayOps
    [Op.survive 5, Op.ticktock false] (stayMachine 7) stayLast
    (by decide) (by decide) (Or.inl rfl) (by decide) stayWorld_bucketsPlaced rfl (by decide)
    (by decide) (by decide) (by decide) rfl (by decide)
  have h2 := timeout_fires_once timerJsm0 timerWorld0
    (Xyh_Event.place timerWorld0 5 (some 0) 0 0).1 5 0 7 3 0 0
    [Op.ticktock false, Op.ticktock false, Op.ticktock false] []
    freshMachine (freshMachine.run (Op.ticktock false)).1
    (by decide) (by decide) (Or.inl rfl) (by decide) freshPlaced_bucketsPlaced rfl (by decide)
    (by decide) (by decide) (by decide) rfl (by decide)
  have h3 := timeout_fires_once Xyh_Jsm.new timerWorld0
    (Xyh_Event.place timerWorld0 5 (some 0) 0 0).1 5 0 7 3 0 0
    [Op.ticktock false, Op.addStatus (some 0), Op.ticktock false, Op.ticktock false] []
    lateMachine (lateMachine.run (Op.ticktock false)).1
    (by decide) (by decide) (Or.inl rfl) (by decide) freshPlaced_bucketsPlaced rfl (by decide)
    (by decide) (by decide) (by decide) rfl (by decide)
  ⟨⟨Eq.trans (h1.1 5 (stayMachine 5) rfl).1 (by decide),
     Eq.trans h1.2.2.1 (by decide),
     Eq.trans h1.2.2.2.1 (by decide),
     Eq.trans h1.2.2.2.2.1 (by decide)⟩,
   ⟨Eq.trans (h2.1 3 freshMachine rfl).1 (by decide),
     Eq.trans h2.2.2.1 (by decide),
     Eq.trans h2.2.2.2.1 (by decide)⟩,
   ⟨Eq.trans (h3.1 4 lateMachine rfl).1 (by decide),
     Eq.trans h3.2.2.2.1 (by decide)⟩⟩

end XYH_StatusMachine
